import Mathlib

/-!
Verification of the springbootplusplus_data annotation-processing scripts.

The Python sources under `springbootplusplus_data_scripts/` are shallowly
embedded here.  Text is modelled as `Str := List Char`; a file is either a
`Doc := List Str` (the list of its lines, each line without its trailing
newline — the scripts read files with `readlines()` and every write appends
`'\n'` to each line, so a text file whose lines are all newline-terminated
round-trips exactly through this representation) or, for the functions that
call `read()` on the whole file, a single `Str` that still contains its
`'\n'` characters.  A value of type `Option Doc`/`Option Str` models the
result of opening a file: `none` is an unreadable file.

Every regular expression of the sources is embedded as an explicit matching
function.  Each such definition carries a comment quoting the original
pattern; greedy/lazy quantifiers and the backtracking order of Python's
`re` module are implemented faithfully (where a quantifier's behaviour is
deterministic because the following literal cannot overlap the repeated
character class, the function implements that deterministic reading).

Character classes of the patterns (`\s`, `[A-Z]`, `\w`, ...) are the ASCII
classes; the sources only ever process ASCII program text.
-/

abbrev Str := List Char

abbrev Doc := List Str

/-- Python `\s` (ASCII): space, tab, newline, carriage return, vertical tab, form feed. -/
def isWsC (c : Char) : Bool :=
  c = ' ' || c = '\t' || c = '\n' || c = '\r' || c = '\x0b' || c = '\x0c'

/-- Regex class `[A-Z]`. -/
def isUpperC (c : Char) : Bool := 'A' ≤ c && c ≤ 'Z'

/-- Regex class `[a-z]`. -/
def isLowerC (c : Char) : Bool := 'a' ≤ c && c ≤ 'z'

/-- Regex class `[0-9]`. -/
def isDigitC (c : Char) : Bool := '0' ≤ c && c ≤ '9'

/-- Regex class `\w` = `[A-Za-z0-9_]`. -/
def isIdentC (c : Char) : Bool := isUpperC c || isLowerC c || isDigitC c || c = '_'

/-- `beginsWith p s` holds when the pattern `p` is a prefix of `s`. -/
def beginsWith : Str → Str → Bool
  | [], _ => true
  | _ :: _, [] => false
  | a :: as, b :: bs => a = b && beginsWith as bs

theorem beginsWith_iff (p : Str) : ∀ s, beginsWith p s = true ↔ ∃ t, s = p ++ t := by
  induction p with
  | nil =>
    intro s
    simp [beginsWith]
  | cons a as ih =>
    intro s
    cases s with
    | nil => simp [beginsWith]
    | cons b bs =>
      simp only [beginsWith, Bool.and_eq_true, decide_eq_true_eq, ih bs]
      constructor
      · rintro ⟨rfl, t, rfl⟩
        exact ⟨t, rfl⟩
      · rintro ⟨t, h⟩
        cases h
        exact ⟨rfl, t, rfl⟩

theorem beginsWith_append (p t : Str) : beginsWith p (p ++ t) = true :=
  (beginsWith_iff p (p ++ t)).mpr ⟨t, rfl⟩

/-- Python `str.strip()`: remove leading and trailing whitespace. -/
def stripL (l : Str) : Str := ((l.dropWhile isWsC).reverse.dropWhile isWsC).reverse

/-- Python `len(line) - len(line.lstrip())`: number of leading whitespace characters. -/
def leadingWsLen (l : Str) : Nat := (l.takeWhile isWsC).length

/-- Python `pat in s`: `pat` occurs as a contiguous substring of `s`. -/
def occursIn (pat : Str) : Str → Bool
  | [] => beginsWith pat []
  | c :: t => beginsWith pat (c :: t) || occursIn pat t

/-! ## repository/extract_method_action.py -/

/-- `STANDARD_ACTIONS` of extract_method_action.py (lines 37-44). -/
def STANDARD_ACTIONS : List Str :=
  [("Find".data), ("Delete".data), ("Save".data), ("Update".data),
   ("Exists".data), ("Count".data)]

/-- Backtracking of the greedy `[a-z]+` of the regex `^([A-Z][a-z]+)By`
(extract_method_action.py line 62): `run` is the maximal lowercase run after the
leading uppercase character `c0`, `rest` the input after that run.  Candidate
lengths `k` of the `[a-z]+` part are tried from the longest down (greedy); a
candidate succeeds when the remaining input starts with the literal `By`. -/
def actionByTry (c0 : Char) (run rest : Str) : Nat → Option Str
  | 0 => none
  | k + 1 =>
    if beginsWith ("By".data) (run.drop (k + 1) ++ rest) then
      some (c0 :: run.take (k + 1))
    else actionByTry c0 run rest k

/-- `re.match(r'^([A-Z][a-z]+)By', method_name)` of extract_method_action.py
(lines 62-63), returning the captured group.  Characters of the maximal
lowercase run are the only ones `[a-z]+` can consume; the literal `B` is not
lowercase, so only positions inside that run need to be tried. -/
def reActionBy (name : Str) : Option Str :=
  match name with
  | [] => none
  | c :: rest =>
    if isUpperC c then
      let run := rest.takeWhile isLowerC
      actionByTry c run (rest.drop run.length) run.length
    else none

/-- The fallback loop of extract_method_action.py lines 73-84: the first
standard action equal to the name, or to the name minus an `All`/`ById`
suffix. -/
def actionFallback (name : Str) : Option Str :=
  STANDARD_ACTIONS.find? fun a =>
    name == a || name == a ++ ("All".data) || name == a ++ ("ById".data)

/-- `extract_method_action` of extract_method_action.py lines 47-86: the empty
name is rejected (`if not method_name`), then the `^([A-Z][a-z]+)By` capture is
accepted when it is a standard action (`if action in STANDARD_ACTIONS`), and
otherwise the exact/`All`/`ById` fallback loop runs. -/
def extract_method_action (name : Str) : Option Str :=
  if name = [] then none
  else
    match reActionBy name with
    | some act => if act ∈ STANDARD_ACTIONS then some act else actionFallback name
    | none => actionFallback name

theorem actionByTry_sound (c0 : Char) (run rest : Str) :
    ∀ k g, actionByTry c0 run rest k = some g →
      ∃ k', 1 ≤ k' ∧ k' ≤ k ∧ g = c0 :: run.take k' ∧
        beginsWith ("By".data) (run.drop k' ++ rest) = true := by
  intro k
  induction k with
  | zero => intro g h; simp [actionByTry] at h
  | succ k ih =>
    intro g h
    by_cases hb : beginsWith ("By".data) (run.drop (k + 1) ++ rest) = true
    · refine ⟨k + 1, Nat.succ_le_succ (Nat.zero_le _), Nat.le_refl _, ?_, hb⟩
      simp [actionByTry, hb] at h
      exact h.symm
    · simp only [actionByTry, if_neg hb] at h
      obtain ⟨k', h1, h2, h3, h4⟩ := ih g h
      exact ⟨k', h1, Nat.le_succ_of_le h2, h3, h4⟩

theorem drop_length_takeWhile (p : Char → Bool) (l : Str) :
    l.drop (l.takeWhile p).length = l.dropWhile p := by
  calc l.drop (l.takeWhile p).length
      = (l.takeWhile p ++ l.dropWhile p).drop (l.takeWhile p).length := by
        rw [List.takeWhile_append_dropWhile]
    _ = l.dropWhile p := List.drop_left _ _

theorem reActionBy_sound (name g : Str) (h : reActionBy name = some g) :
    beginsWith (g ++ ("By".data)) name = true := by
  cases name with
  | nil => simp [reActionBy] at h
  | cons c rest =>
    simp only [reActionBy] at h
    by_cases hu : isUpperC c = true
    · simp only [if_pos hu] at h
      obtain ⟨k', _, _, hg, hb⟩ := actionByTry_sound c _ _ _ g h
      subst hg
      rw [drop_length_takeWhile] at hb
      obtain ⟨t, ht⟩ := (beginsWith_iff _ _).mp hb
      refine (beginsWith_iff _ _).mpr ⟨t, ?_⟩
      have hsplit : (rest.takeWhile isLowerC).take k' ++
          ((rest.takeWhile isLowerC).drop k' ++ rest.dropWhile isLowerC) = rest := by
        rw [← List.append_assoc, List.take_append_drop, List.takeWhile_append_dropWhile]
      conv_lhs => rw [← hsplit, ht]
      simp
    · simp [if_neg hu] at h

theorem takeWhile_all_append (p : Char → Bool) (tl rest : Str)
    (h1 : ∀ c ∈ tl, p c = true) (h2 : ∀ hc : rest ≠ [], p (rest.head hc) = false) :
    (tl ++ rest).takeWhile p = tl := by
  rw [List.takeWhile_append_of_pos h1]
  cases rest with
  | nil => simp
  | cons r rs =>
    have := h2 (by simp)
    simp only [List.head_cons] at this
    simp [List.takeWhile_cons, this]

theorem reActionBy_of_decomp (c0 : Char) (tl t : Str) (hu : isUpperC c0 = true)
    (hne : tl ≠ []) (hlow : ∀ c ∈ tl, isLowerC c = true) :
    reActionBy (c0 :: (tl ++ ('B' :: 'y' :: t))) = some (c0 :: tl) := by
  simp only [reActionBy, if_pos hu]
  have hrun : ((tl ++ ('B' :: 'y' :: t)).takeWhile isLowerC) = tl := by
    apply takeWhile_all_append isLowerC tl _ hlow
    intro _
    simp [isLowerC]
  rw [hrun]
  have hdrop : (tl ++ ('B' :: 'y' :: t)).drop tl.length = 'B' :: 'y' :: t :=
    List.drop_left tl _
  rw [hdrop]
  cases htl : tl with
  | nil => exact absurd htl hne
  | cons a as =>
    have hlen : tl.length = as.length + 1 := by rw [htl]; simp
    rw [← htl, hlen]
    simp only [actionByTry]
    have : tl.drop (as.length + 1) = [] := by rw [htl]; simp
    rw [this]
    have hby : beginsWith ("By".data) (([] : Str) ++ ('B' :: 'y' :: t)) = true := by
      simp [beginsWith]
    rw [if_pos hby]
    have : tl.take (as.length + 1) = tl := by
      rw [htl]; simp
    rw [this]

theorem ema_of_startsBy (c0 : Char) (tl t : Str) (hu : isUpperC c0 = true)
    (hne : tl ≠ []) (hlow : ∀ c ∈ tl, isLowerC c = true)
    (hmem : (c0 :: tl) ∈ STANDARD_ACTIONS) :
    extract_method_action ((c0 :: tl) ++ ("By".data) ++ t) = some (c0 :: tl) := by
  have hshape : (c0 :: tl) ++ ("By".data) ++ t = c0 :: (tl ++ ('B' :: 'y' :: t)) := by
    simp
  rw [hshape]
  simp only [extract_method_action]
  rw [if_neg (by simp)]
  rw [reActionBy_of_decomp c0 tl t hu hne hlow]
  simp only [if_pos hmem]

theorem actionFallback_sound (name A : Str) (h : actionFallback name = some A) :
    A ∈ STANDARD_ACTIONS ∧
      (name = A ∨ name = A ++ ("All".data) ∨ name = A ++ ("ById".data)) := by
  refine ⟨List.mem_of_find?_eq_some h, ?_⟩
  have hp := List.find?_some h
  simp only [Bool.or_eq_true, beq_iff_eq] at hp
  tauto

theorem extract_method_action_iff (name A : Str) :
    extract_method_action name = some A ↔
      (A ∈ STANDARD_ACTIONS ∧
        (beginsWith (A ++ ("By".data)) name = true ∨ name = A ∨
          name = A ++ ("All".data) ∨ name = A ++ ("ById".data))) := by
  constructor
  · intro h
    simp only [extract_method_action] at h
    by_cases hnil : name = []
    · rw [if_pos hnil] at h; exact absurd h (by simp)
    · rw [if_neg hnil] at h
      cases hr : reActionBy name with
      | none =>
        rw [hr] at h
        have h' : actionFallback name = some A := h
        obtain ⟨h1, h2⟩ := actionFallback_sound name A h'
        exact ⟨h1, Or.inr h2⟩
      | some act =>
        rw [hr] at h
        have h' : (if act ∈ STANDARD_ACTIONS then some act else actionFallback name) = some A := h
        by_cases hc : act ∈ STANDARD_ACTIONS
        · rw [if_pos hc] at h'
          have : act = A := by simpa using h'
          subst this
          exact ⟨hc, Or.inl (reActionBy_sound name act hr)⟩
        · rw [if_neg hc] at h'
          obtain ⟨h1, h2⟩ := actionFallback_sound name A h'
          exact ⟨h1, Or.inr h2⟩
  · rintro ⟨hA, hcase⟩
    have hA' : A = ("Find".data) ∨ A = ("Delete".data) ∨ A = ("Save".data) ∨
        A = ("Update".data) ∨ A = ("Exists".data) ∨ A = ("Count".data) := by
      simpa [STANDARD_ACTIONS] using hA
    rcases hcase with hst | rfl | rfl | rfl
    · obtain ⟨t, rfl⟩ := (beginsWith_iff _ _).mp hst
      rcases hA' with rfl | rfl | rfl | rfl | rfl | rfl <;>
        exact ema_of_startsBy _ _ t (by decide) (by decide) (by decide) (by decide)
    · rcases hA' with rfl | rfl | rfl | rfl | rfl | rfl <;> decide
    · rcases hA' with rfl | rfl | rfl | rfl | rfl | rfl <;> decide
    · rcases hA' with rfl | rfl | rfl | rfl | rfl | rfl <;> decide

/-- C5: `extract_method_action` returns action `A` exactly when `A` is one of
the six standard actions {Find, Delete, Save, Update, Exists, Count} and the
name either starts with `A` immediately followed by `By`, or equals `A`,
`A ++ "All"` or `A ++ "ById"`; every other string yields `none`.  In
particular `FindByLastName ↦ Find`, `DeleteById ↦ Delete`, `Save ↦ Save`,
`CountByStatus ↦ Count`, and `RandomHelper ↦ none`. -/
theorem c5_method_action_characterization :
    (∀ name A : Str, extract_method_action name = some A ↔
      (A ∈ STANDARD_ACTIONS ∧
        (beginsWith (A ++ ("By".data)) name = true ∨ name = A ∨
          name = A ++ ("All".data) ∨ name = A ++ ("ById".data)))) ∧
    extract_method_action ("FindByLastName".data) = some ("Find".data) ∧
    extract_method_action ("DeleteById".data) = some ("Delete".data) ∧
    extract_method_action ("Save".data) = some ("Save".data) ∧
    extract_method_action ("CountByStatus".data) = some ("Count".data) ∧
    extract_method_action ("RandomHelper".data) = none :=
  ⟨extract_method_action_iff, by decide, by decide, by decide, by decide, by decide⟩

/-- C5 witness: the characterization applied at a concrete input. -/
theorem c5_method_action_characterization_witness :
    extract_method_action ("ExistsByEmail".data) = some ("Exists".data) :=
  (c5_method_action_characterization.1 _ _).mpr ⟨by decide, Or.inl (by decide)⟩

/-! ## serialization/S2_extract_dto_fields.py and inject_primary_key_methods.py:
the class/enum boundary locator.

`find_class_boundaries` appears twice in the sources with the identical scanning
loop (S2_extract_dto_fields.py lines 14-61 and inject_primary_key_methods.py
lines 32-79); the two copies differ only in the handling of an unreadable file
(S2 swallows the exception and leaves the local `lines` unassigned, the
primary-key copy returns `None`).  The shared loop is `find_class_boundaries_core`;
the two file-level behaviours are the wrappers below. -/

/-- The continuation of `\s+` matching inside `re.search(rf'class\s+{name}', s)`:
having already consumed at least one whitespace character, either the literal
(`re.escape`d) class name starts here, or one more whitespace character is
consumed. -/
def wsLitAux (name : Str) : Str → Bool
  | [] => beginsWith name []
  | c :: t => beginsWith name (c :: t) || (isWsC c && wsLitAux name t)

/-- `class` has been matched; `\s+{name}` must follow: at least one whitespace
character, then the literal name. -/
def classFollows (name : Str) : Str → Bool
  | [] => false
  | c :: t => isWsC c && wsLitAux name t

/-- `re.search(rf'class\s+{re.escape(class_name)}', s)` as used by both copies
of `find_class_boundaries` (S2 line 36/46, primary-key copy line 54/64): some
position of `s` starts with the literal `class`, followed by one-or-more
whitespace, followed by the literal class name.  Note there is no trailing
word boundary after the name. -/
def class_search (name : Str) : Str → Bool
  | [] => false
  | c :: t =>
    (beginsWith ("class".data) (c :: t) && classFollows name ((c :: t).drop 5)) ||
      class_search name t

/-- Comment-line skip of the boundary locator (S2 line 42, primary-key copy
line 60): stripped lines starting with `//`, `/*` or `*` are skipped. -/
def line_skipped_s2 (stripped : Str) : Bool :=
  beginsWith ("//".data) stripped || beginsWith ("/*".data) stripped ||
    beginsWith ("*".data) stripped

/-- `stripped_line.count('{') - stripped_line.count('}')` as an integer. -/
def braceDelta (s : Str) : Int := (s.count '\x7b' : Int) - (s.count '\x7d' : Int)

/-- The scanning loop of `find_class_boundaries` (S2 lines 31-61): `n` is the
1-based number of the next line, the `Option Nat` state is `class_start` when
`in_class`, `bal` the running brace balance.  A skipped (comment) line updates
nothing; the first non-skipped line matching the class pattern starts the span
and initialises the balance from its own braces; afterwards every non-skipped
line adds its brace delta, and the first time the balance reaches zero while
in the class the span is returned. -/
def fcb_loop (name : Str) : Doc → Nat → Option Nat → Int → Option (Nat × Nat)
  | [], _, _, _ => none
  | l :: rest, n, st, bal =>
    let s := stripL l
    if line_skipped_s2 s then fcb_loop name rest (n + 1) st bal
    else
      match st with
      | none =>
        if class_search name s then
          let b := braceDelta s
          if b = 0 then some (n, n) else fcb_loop name rest (n + 1) (some n) b
        else fcb_loop name rest (n + 1) none bal
      | some s0 =>
        let b := bal + braceDelta s
        if b = 0 then some (s0, n) else fcb_loop name rest (n + 1) (some s0) b

/-- The common boundary-locator loop applied to the whole file. -/
def find_class_boundaries_core (lines : Doc) (name : Str) : Option (Nat × Nat) :=
  fcb_loop name lines 1 none 0

/-- A Python exception escaping a function of the scripts. -/
inductive PyErr where
  /-- `UnboundLocalError`: a local variable referenced before assignment. -/
  | unboundLocal
deriving DecidableEq, Repr

/-- `find_class_boundaries` of S2_extract_dto_fields.py lines 14-61.  On an
unreadable file the `except` handler only `pass`es, leaving the local `lines`
unassigned, and the subsequent `for line_num, line in enumerate(lines, 1)`
raises `UnboundLocalError`. -/
def find_class_boundaries_s2 (content : Option Doc) (name : Str) :
    Except PyErr (Option (Nat × Nat)) :=
  match content with
  | none => Except.error PyErr.unboundLocal
  | some lines => Except.ok (find_class_boundaries_core lines name)

/-- `find_class_boundaries` of inject_primary_key_methods.py lines 32-79: this
copy returns `None` on an unreadable file (its handler has `return None`). -/
def find_class_boundaries_pk (content : Option Doc) (name : Str) : Option (Nat × Nat) :=
  match content with
  | none => none
  | some lines => find_class_boundaries_core lines name

/-- Net brace delta of a line as counted by the boundary locator: comment lines
are skipped, others contribute `count('{') - count('}')` of the stripped line. -/
def lineBal (l : Str) : Int :=
  if line_skipped_s2 (stripL l) then 0 else braceDelta (stripL l)

/-- Net brace count of a list of lines under the locator's skip rule. -/
def docBal : Doc → Int
  | [] => 0
  | l :: r => lineBal l + docBal r

/-- Net brace count accumulated by the locator across lines `s..k` (1-based,
inclusive) of the file. -/
def span_bal (lines : Doc) (s k : Nat) : Int :=
  docBal ((lines.drop (s - 1)).take (k + 1 - s))

theorem docBal_take_succ (l : Str) (r : Doc) (j : Nat) :
    docBal ((l :: r).take (j + 1)) = lineBal l + docBal (r.take j) := by
  simp [docBal]

theorem fcb_loop_inclass (name : Str) : ∀ (ls : Doc) (n s0 : Nat) (bal : Int) (s e : Nat),
    bal ≠ 0 →
    fcb_loop name ls n (some s0) bal = some (s, e) →
    s = s0 ∧ n ≤ e ∧
      bal + docBal (ls.take (e + 1 - n)) = 0 ∧
      ∀ j, j < e + 1 - n → bal + docBal (ls.take j) ≠ 0 := by
  intro ls
  induction ls with
  | nil =>
    intro n s0 bal s e hbal h
    simp [fcb_loop] at h
  | cons l rest ih =>
    intro n s0 bal s e hbal h
    simp only [fcb_loop] at h
    by_cases hskip : line_skipped_s2 (stripL l) = true
    · rw [if_pos hskip] at h
      obtain ⟨hs, hn, hsum, hmid⟩ := ih (n + 1) s0 bal s e hbal h
      have hle : n ≤ e := Nat.le_of_succ_le hn
      have harith : e + 1 - n = (e + 1 - (n + 1)) + 1 := by omega
      refine ⟨hs, hle, ?_, ?_⟩
      · rw [harith, docBal_take_succ]
        simpa [lineBal, hskip] using hsum
      · intro j hj
        cases j with
        | zero => simpa [docBal] using hbal
        | succ j' =>
          rw [docBal_take_succ]
          have hj' : j' < e + 1 - (n + 1) := by omega
          simpa [lineBal, hskip] using hmid j' hj'
    · rw [if_neg hskip] at h
      by_cases hz : bal + braceDelta (stripL l) = 0
      · simp only [hz, if_pos rfl] at h
        have hinj := Option.some.inj h
        have h1 : s0 = s := congrArg Prod.fst hinj
        have h2 : n = e := congrArg Prod.snd hinj
        subst h1
        subst h2
        refine ⟨rfl, Nat.le_refl _, ?_, ?_⟩
        · have ha : n + 1 - n = 1 := by omega
          rw [ha]
          have hb : ((l :: rest).take 1) = [l] := by simp
          rw [hb]
          simpa [docBal, lineBal, hskip] using hz
        · intro j hj
          have ha : n + 1 - n = 1 := by omega
          rw [ha] at hj
          have : j = 0 := by omega
          subst this
          simpa [docBal] using hbal
      · rw [if_neg hz] at h
        obtain ⟨hs, hn, hsum, hmid⟩ := ih (n + 1) s0 _ s e hz h
        have hle : n ≤ e := Nat.le_of_succ_le hn
        have harith : e + 1 - n = (e + 1 - (n + 1)) + 1 := by omega
        have hlb : lineBal l = braceDelta (stripL l) := by simp [lineBal, hskip]
        refine ⟨hs, hle, ?_, ?_⟩
        · rw [harith, docBal_take_succ, hlb, ← add_assoc]
          exact hsum
        · intro j hj
          cases j with
          | zero => simpa [docBal] using hbal
          | succ j' =>
            rw [docBal_take_succ, hlb, ← add_assoc]
            have hj' : j' < e + 1 - (n + 1) := by omega
            exact hmid j' hj'

instance {e a : Type} [DecidableEq e] [DecidableEq a] : DecidableEq (Except e a) := fun x y =>
  match x, y with
  | .ok u, .ok v =>
    if h : u = v then .isTrue (by rw [h]) else .isFalse (by intro hc; cases hc; exact h rfl)
  | .error u, .error v =>
    if h : u = v then .isTrue (by rw [h]) else .isFalse (by intro hc; cases hc; exact h rfl)
  | .ok _, .error _ => .isFalse (by intro hc; cases hc)
  | .error _, .ok _ => .isFalse (by intro hc; cases hc)

theorem fcb_loop_start (name : Str) : ∀ (ls : Doc) (n : Nat) (bal : Int) (s e : Nat),
    fcb_loop name ls n none bal = some (s, e) →
    n ≤ s ∧ s ≤ e ∧
    ∃ l rest', ls.drop (s - n) = l :: rest' ∧
      line_skipped_s2 (stripL l) = false ∧
      class_search name (stripL l) = true ∧
      ((braceDelta (stripL l) = 0 ∧ e = s) ∨
       (braceDelta (stripL l) ≠ 0 ∧
        fcb_loop name rest' (s + 1) (some s) (braceDelta (stripL l)) = some (s, e))) := by
  intro ls
  induction ls with
  | nil =>
    intro n bal s e h
    simp [fcb_loop] at h
  | cons l rest ih =>
    intro n bal s e h
    simp only [fcb_loop] at h
    by_cases hskip : line_skipped_s2 (stripL l) = true
    · rw [if_pos hskip] at h
      obtain ⟨hn, hse, l', rest', hdrop, hrest⟩ := ih (n + 1) bal s e h
      refine ⟨Nat.le_of_succ_le hn, hse, l', rest', ?_, hrest⟩
      have : s - n = (s - (n + 1)) + 1 := by omega
      rw [this, List.drop_succ_cons]
      exact hdrop
    · rw [if_neg hskip] at h
      by_cases hcs : class_search name (stripL l) = true
      · rw [if_pos hcs] at h
        by_cases hz : braceDelta (stripL l) = 0
        · rw [if_pos hz] at h
          have hinj := Option.some.inj h
          have h1 : n = s := congrArg Prod.fst hinj
          have h2 : n = e := congrArg Prod.snd hinj
          subst h1
          have h2' : e = n := h2.symm
          subst h2'
          refine ⟨Nat.le_refl _, Nat.le_refl _, l, rest, ?_, by simpa using hskip, hcs,
            Or.inl ⟨hz, rfl⟩⟩
          simp
        · rw [if_neg hz] at h
          have hincl := fcb_loop_inclass name rest (n + 1) n _ s e hz h
          obtain ⟨hs, hne, _, _⟩ := hincl
          subst hs
          refine ⟨Nat.le_refl _, Nat.le_of_succ_le hne, l, rest, by simp,
            by simpa using hskip, hcs, Or.inr ⟨hz, h⟩⟩
      · rw [if_neg hcs] at h
        obtain ⟨hn, hse, l', rest', hdrop, hrest⟩ := ih (n + 1) bal s e h
        refine ⟨Nat.le_of_succ_le hn, hse, l', rest', ?_, hrest⟩
        have : s - n = (s - (n + 1)) + 1 := by omega
        rw [this, List.drop_succ_cons]
        exact hdrop

theorem find_class_boundaries_core_spec (lines : Doc) (name : Str) (s e : Nat)
    (h : find_class_boundaries_core lines name = some (s, e)) :
    1 ≤ s ∧ s ≤ e ∧
    (∃ l, lines[s - 1]? = some l ∧ line_skipped_s2 (stripL l) = false ∧
      class_search name (stripL l) = true) ∧
    span_bal lines s e = 0 ∧
    ∀ k, s ≤ k → k < e → span_bal lines s k ≠ 0 := by
  obtain ⟨h1, hse, l, rest', hdrop, hskip, hcs, hrest⟩ := fcb_loop_start name lines 1 0 s e h
  have hget : lines[s - 1]? = some l := by
    have := List.getElem?_drop lines (s - 1) 0
    rw [hdrop] at this
    simpa using this.symm
  refine ⟨h1, hse, ⟨l, hget, hskip, hcs⟩, ?_, ?_⟩
  · rcases hrest with ⟨hz, rfl⟩ | ⟨hz, hloop⟩
    · have ha : e + 1 - e = 1 := by omega
      unfold span_bal
      rw [hdrop, ha]
      simp [docBal, lineBal, hskip, hz]
    · obtain ⟨_, _, hsum, _⟩ := fcb_loop_inclass name rest' (s + 1) s _ s e hz hloop
      unfold span_bal
      rw [hdrop]
      have ha : e + 1 - s = (e + 1 - (s + 1)) + 1 := by omega
      rw [ha, docBal_take_succ]
      have hlb : lineBal l = braceDelta (stripL l) := by simp [lineBal, hskip]
      rw [hlb]
      omega
  · intro k hk1 hk2
    rcases hrest with ⟨hz, rfl⟩ | ⟨hz, hloop⟩
    · omega
    · obtain ⟨_, _, _, hmid⟩ := fcb_loop_inclass name rest' (s + 1) s _ s e hz hloop
      unfold span_bal
      rw [hdrop]
      have ha : k + 1 - s = (k - s) + 1 := by omega
      rw [ha, docBal_take_succ]
      have hlb : lineBal l = braceDelta (stripL l) := by simp [lineBal, hskip]
      rw [hlb]
      have hj : k - s < e + 1 - (s + 1) := by omega
      have := hmid (k - s) hj
      omega

/-- The two-line file `class FooBar {` / `}`: the identifier `FooBar` merely has
`Foo` as a proper prefix. -/
def c3File : Doc := [("class FooBar \x7b".data), ("\x7d".data)]

/-- C3 counterexample: the claim says that searching for `Foo` in a file whose
only declaration is `class FooBar` must return "not found"; both copies of
`find_class_boundaries` in fact return the span `(1, 2)`, because the pattern
`class\s+Foo` has no trailing word boundary and matches inside `class FooBar`. -/
theorem c3_counterexample :
    find_class_boundaries_s2 (some c3File) ("Foo".data) = Except.ok (some (1, 2)) ∧
    find_class_boundaries_pk (some c3File) ("Foo".data) = some (1, 2) := by decide

/-- C3 (amended): the boundary locator matches the declaration line by plain
substring search for `class`, whitespace, then the name, with no word boundary
after the name — so a declaration whose identifier has the target as a proper
prefix DOES start a span: whenever a span is returned its start line matches
that substring pattern, and on `class FooBar` the search for `Foo` returns the
span `(1, 2)` in both copies of the function. -/
theorem c3_no_word_boundary_amended :
    (∀ (lines : Doc) (name : Str) (s e : Nat),
      find_class_boundaries_core lines name = some (s, e) →
      ∃ l, lines[s - 1]? = some l ∧ class_search name (stripL l) = true) ∧
    find_class_boundaries_s2 (some c3File) ("Foo".data) = Except.ok (some (1, 2)) ∧
    find_class_boundaries_pk (some c3File) ("Foo".data) = some (1, 2) := by
  refine ⟨?_, by decide, by decide⟩
  intro lines name s e h
  obtain ⟨_, _, ⟨l, hget, _, hcs⟩, _, _⟩ := find_class_boundaries_core_spec lines name s e h
  exact ⟨l, hget, hcs⟩

/-- C3 witness: the amended universal statement applied to the `class FooBar`
file. -/
theorem c3_no_word_boundary_amended_witness :
    ∃ l, c3File[0]? = some l ∧ class_search ("Foo".data) (stripL l) = true :=
  c3_no_word_boundary_amended.1 c3File ("Foo".data) 1 2 (by decide)

/-- The three-line file `class Foo {` / `}}` / `{`: the balance dips to `-1` on
line 2 and returns to zero on line 3. -/
def c4File : Doc := [("class Foo \x7b".data), ("\x7d\x7d".data), ("\x7b".data)]

/-- C4 counterexample: the claim says the running brace balance never goes
negative at an intermediate line of a returned span; on `c4File` the locator
returns the span `(1, 3)` although the balance after line 2 is `-1`. -/
theorem c4_counterexample :
    find_class_boundaries_core c4File ("Foo".data) = some (1, 3) ∧
    span_bal c4File 1 2 = -1 := by decide

/-- C4 (amended): whenever `find_class_boundaries` returns a span `(s, e)`,
then `s ≤ e`, the line at `s` matches the class-declaration pattern for the
target name, and the net brace count over the non-comment lines of `[s, e]`
is exactly zero at `e` and nonzero (though possibly negative) at every
intermediate line — the original claim's "never goes negative" is replaced by
"never returns to zero before `e`". -/
theorem c4_typespan_invariant_amended :
    ∀ (lines : Doc) (name : Str) (s e : Nat),
      find_class_boundaries_core lines name = some (s, e) →
      s ≤ e ∧
      (∃ l, lines[s - 1]? = some l ∧ class_search name (stripL l) = true) ∧
      span_bal lines s e = 0 ∧
      ∀ k, s ≤ k → k < e → span_bal lines s k ≠ 0 := by
  intro lines name s e h
  obtain ⟨_, hse, ⟨l, hget, _, hcs⟩, hz, hmid⟩ := find_class_boundaries_core_spec lines name s e h
  exact ⟨hse, ⟨l, hget, hcs⟩, hz, hmid⟩

/-- C4 witness: the amended invariant applied to the concrete file `c4File`. -/
theorem c4_typespan_invariant_amended_witness :
    (1 : Nat) ≤ 3 ∧ span_bal c4File 1 3 = 0 :=
  ⟨(c4_typespan_invariant_amended c4File ("Foo".data) 1 3 (by decide)).1,
   (c4_typespan_invariant_amended c4File ("Foo".data) 1 3 (by decide)).2.2.1⟩

/-! ## repository/extract_findby_variable_name.py -/

/-- Regex class `[A-Za-z_]`. -/
def alphaUnd (c : Char) : Bool := isUpperC c || isLowerC c || c = '_'

/-- Regex class `[A-Za-z0-9_<>:&*,\s]` (the return-type class of the method
declaration pattern). -/
def rtChar (c : Char) : Bool :=
  isIdentC c || c = '<' || c = '>' || c = ':' || c = '&' || c = '*' || c = ',' || isWsC c

/-- `pascal_to_camel` of extract_findby_variable_name.py lines 32-49: lowercase
the first character when it is uppercase, leave everything else unchanged
(`isupper`/`lower` behave on ASCII input as the ASCII predicates used here). -/
def pascal_to_camel (s : Str) : Str :=
  match s with
  | [] => []
  | c :: t => if isUpperC c then c.toLower :: t else c :: t

/-- Ordered alternation for an optional group `(?:a₁|a₂|...)?`: each literal
alternative is tried in order with the continuation `k`; if every alternative
fails the group matches empty. -/
def tryAlts (k : Str → Option Str) : List Str → Str → Option Str
  | [], s => k s
  | a :: rest, s =>
    match (if beginsWith a s then k (s.drop a.length) else none) with
    | some r => some r
    | none => tryAlts k rest s

/-- Greedy `\s*`: consume the longest whitespace run first, backtracking one
character at a time. -/
def tryWsStarAux (k : Str → Option Str) : Nat → Str → Option Str
  | 0, s => k s
  | j + 1, s =>
    match k (s.drop (j + 1)) with
    | some r => some r
    | none => tryWsStarAux k j s

/-- Greedy `\s*` (entry point). -/
def tryWsStar (k : Str → Option Str) (s : Str) : Option Str :=
  tryWsStarAux k (s.takeWhile isWsC).length s

/-- Greedy `\s+`: like `\s*` but at least one whitespace character. -/
def tryWsPlusAux (k : Str → Option Str) : Nat → Str → Option Str
  | 0, _ => none
  | j + 1, s =>
    match k (s.drop (j + 1)) with
    | some r => some r
    | none => tryWsPlusAux k j s

/-- Greedy `\s+` (entry point). -/
def tryWsPlus (k : Str → Option Str) (s : Str) : Option Str :=
  tryWsPlusAux k (s.takeWhile isWsC).length s

/-- The optional group `(?:Virtual\s+|Static\s+)?` of the declaration pattern. -/
def tryOpt2 (k : Str → Option Str) (s : Str) : Option Str :=
  match (if beginsWith ("Virtual".data) s then tryWsPlus k (s.drop 7) else none) with
  | some r => some r
  | none =>
    match (if beginsWith ("Static".data) s then tryWsPlus k (s.drop 6) else none) with
    | some r => some r
    | none => k s

/-- Greedy `[A-Za-z_][A-Za-z0-9_<>:&*,\s]+` (the return-type part): one
alpha/underscore character, then at least one class character, longest first. -/
def tryRTAux (k : Str → Option Str) : Nat → Str → Option Str
  | 0, _ => none
  | j + 1, t =>
    match k (t.drop (j + 1)) with
    | some r => some r
    | none => tryRTAux k j t

/-- Entry point of the return-type part. -/
def tryRT (k : Str → Option Str) (s : Str) : Option Str :=
  match s with
  | [] => none
  | c :: t => if alphaUnd c then tryRTAux k (t.takeWhile rtChar).length t else none

/-- Tail of the declaration pattern: `([A-Za-z_][A-Za-z0-9_]*)\s*\(`, returning
the captured method name.  The greedy name run and the greedy `\s*` are
deterministic here: shortening the name leaves an identifier character where
`\s*\(` must match, and shortening the whitespace run leaves a whitespace
character where `(` must match. -/
def nameParen (s : Str) : Option Str :=
  match s with
  | [] => none
  | c :: t =>
    if alphaUnd c then
      let run := t.takeWhile isIdentC
      match (t.drop run.length).dropWhile isWsC with
      | '(' :: _ => some (c :: run)
      | _ => none
    else none

/-- The method-declaration pattern of extract_findby_variable_name.py line 81,
`(?:Public|Private|Protected|Virtual)?\s*(?:Virtual\s+|Static\s+)?`
`[A-Za-z_][A-Za-z0-9_<>:&*,\s]+\s+([A-Za-z_][A-Za-z0-9_]*)\s*\(`, matched at
one fixed position with full backtracking in Python's priority order. -/
def declMatchHere (s : Str) : Option Str :=
  tryAlts
    (fun s1 => tryWsStar
      (fun s2 => tryOpt2
        (fun s3 => tryRT (fun s4 => tryWsPlus nameParen s4) s3) s2) s1)
    [("Public".data), ("Private".data), ("Protected".data), ("Virtual".data)] s

/-- `re.search`: try every start position left to right. -/
def declSearch : Str → Option Str
  | [] => none
  | c :: t =>
    match declMatchHere (c :: t) with
    | some r => some r
    | none => declSearch t

/-- `extract_method_name_from_declaration` of extract_findby_variable_name.py
lines 52-87. -/
def extract_method_name_from_declaration (d : Str) : Option Str :=
  if d = [] then none else declSearch d

/-- Case-insensitive literal prefix (`re.IGNORECASE`; ASCII case folding). -/
def beginsWithCaseless : Str → Str → Bool
  | [], _ => true
  | _ :: _, [] => false
  | a :: as, b :: bs => (a.toLower = b.toLower) && beginsWithCaseless as bs

/-- `re.match(r'^FindBy(.+)$', name, re.IGNORECASE)` of
extract_findby_variable_name.py lines 113-114, returning the group.  `.` does
not match a newline and `$` matches at the end of the string or just before a
final newline, so the greedy `(.+)` captures the whole rest minus at most one
final newline, and the capture must be nonempty and newline-free. -/
def reFindBy (name : Str) : Option Str :=
  if beginsWithCaseless ("FindBy".data) name then
    let rest := name.drop 6
    let rest' := if rest.getLast? = some '\n' then rest.dropLast else rest
    if rest' ≠ [] ∧ '\n' ∉ rest' then some rest' else none
  else none

/-- `extract_findby_variable_name` of extract_findby_variable_name.py lines
90-125: empty input is rejected; a method name is extracted from the input as
a declaration, falling back to the stripped input itself; the name must match
`FindBy<Suffix>` case-insensitively and the suffix is converted by
`pascal_to_camel`. -/
def extract_findby_variable_name (input : Str) : Option Str :=
  if input = [] then none
  else
    let mn :=
      match extract_method_name_from_declaration input with
      | some nm => nm
      | none => stripL input
    match reFindBy mn with
    | none => none
    | some suffix => some (pascal_to_camel suffix)

/-- C6: `extract_findby_variable_name` accepts a bare method name or a full
declaration; on a declaration it first extracts the method name from the
return-type/name/parameter grammar, requires the (possibly fallen-back) name
to match `FindBy<Suffix>` case-insensitively, and returns
`pascal_to_camel <Suffix>` (lowercasing only an uppercase first character);
any input whose method name is not a FindBy method yields `none`.  In
particular `FindByLastName ↦ lastName` and
`Public Virtual Entity FindByRollNo(int rollNo) = 0; ↦ rollNo`. -/
theorem c6_findby_variable_extraction :
    extract_findby_variable_name ("FindByLastName".data) = some ("lastName".data) ∧
    extract_findby_variable_name
      ("Public Virtual Entity FindByRollNo(int rollNo) = 0;".data) =
      some ("rollNo".data) ∧
    (∀ input : Str, input ≠ [] →
      extract_findby_variable_name input =
        match reFindBy ((extract_method_name_from_declaration input).getD (stripL input)) with
        | none => none
        | some suffix => some (pascal_to_camel suffix)) ∧
    extract_findby_variable_name ("findbyname".data) = some ("name".data) ∧
    extract_findby_variable_name ("Virtual Entity GetAll() = 0;".data) = none := by
  refine ⟨by decide, by decide, ?_, by decide, by decide⟩
  intro input h
  simp only [extract_findby_variable_name, if_neg h, Option.getD]
  cases extract_method_name_from_declaration input <;> rfl

/-- C6 witness: the compositional characterization applied at a concrete
input. -/
theorem c6_findby_variable_extraction_witness :
    extract_findby_variable_name ("FindByAge".data) = some ("age".data) := by
  rw [c6_findby_variable_extraction.2.2.1 ("FindByAge".data) (by decide)]
  decide

/-! ## repository/detect_repository.py -/

/-- Scan every suffix position of a string (`re.search` over a text that is
modelled as a single `Str` including its newlines): true when the position
matcher accepts some suffix. -/
def anyPos (p : Str → Bool) : Str → Bool
  | [] => p []
  | c :: t => p (c :: t) || anyPos p t

/-- `re.search` returning the first (leftmost) capture. -/
def firstPos {α : Type} (p : Str → Option α) : Str → Option α
  | [] => p []
  | c :: t =>
    match p (c :: t) with
    | some r => some r
    | none => firstPos p t

/-- One position of `///\s*@Repository\b` (detect_repository.py line 46): the
literal `///`, greedy whitespace (deterministic: `@` is not whitespace), the
literal `@Repository`, then a word boundary — the next character, if any, is
not a word character. -/
def tripleRepoAt (s : Str) : Bool :=
  if beginsWith ("///".data) s then
    let r := (s.drop 3).dropWhile isWsC
    if beginsWith ("@Repository".data) r then
      match r.drop 11 with
      | [] => true
      | c :: _ => !isIdentC c
    else false
  else false

/-- One position of `/\*\s*@Repository\s*\*/` (detect_repository.py line 51):
both `\s*` are deterministic because they are followed by non-whitespace
literals. -/
def procRepoAt (s : Str) : Bool :=
  if beginsWith ("/*".data) s then
    let r := (s.drop 2).dropWhile isWsC
    if beginsWith ("@Repository".data) r then
      beginsWith ("*/".data) ((r.drop 11).dropWhile isWsC)
    else false
  else false

/-- `re.search(r'/\*\s*@Repository\s*\*/', content)` — the processed-marker
check of `find_repository_annotation` and of `process_repository`. -/
def repo_processed_search (content : Str) : Bool := anyPos procRepoAt content

/-- `find_repository_annotation` of detect_repository.py lines 41-57: true
exactly when an unprocessed `/// @Repository` marker is found and no processed
`/* @Repository */` marker exists anywhere in the content. -/
def find_repository_annot (content : Str) : Bool :=
  if anyPos tripleRepoAt content then
    if repo_processed_search content then false else true
  else false

/-- Python `content.split('\n')`. -/
def splitNl : Str → List Str
  | [] => [[]]
  | c :: t =>
    if c = '\n' then [] :: splitNl t
    else
      match splitNl t with
      | h :: r => (c :: h) :: r
      | [] => [[c]]

/-- Python `'\n'.join(lines)`. -/
def joinNl : List Str → Str
  | [] => []
  | [l] => l
  | l :: r => l ++ '\n' :: joinNl r

/-- `re.sub(r'//.*?$', '', content, flags=re.MULTILINE)` truncates every line
at its first `//` (the lazy `.*?` must still reach the end-of-line anchor, and
`.` cannot cross a newline). -/
def cutLineComment : Str → Str
  | [] => []
  | c :: t => if beginsWith ("//".data) (c :: t) then [] else c :: cutLineComment t

/-- Find the closing `*/` and return the text after it. -/
def findBlockClose : Str → Option Str
  | [] => none
  | c :: t =>
    if beginsWith ("*/".data) (c :: t) then some ((c :: t).drop 2)
    else findBlockClose t

theorem findBlockClose_le : ∀ (s r : Str), findBlockClose s = some r → r.length + 2 ≤ s.length := by
  intro s
  induction s with
  | nil => intro r h; simp [findBlockClose] at h
  | cons c t ih =>
    intro r h
    simp only [findBlockClose] at h
    by_cases hb : beginsWith ("*/".data) (c :: t) = true
    · rw [if_pos hb] at h
      have hr := Option.some.inj h
      subst hr
      cases t with
      | nil => simp [beginsWith] at hb
      | cons d u => simp
    · rw [if_neg hb] at h
      have := ih r h
      simp only [List.length_cons]
      omega

/-- `re.sub(r'/\*.*?\*/', '', content, flags=re.DOTALL)`: remove every lazy
`/*...*/` span, left to right; an unclosed `/*` is left in place. -/
def cutBlockComment : Str → Str
  | [] => []
  | c :: t =>
    if beginsWith ("/*".data) (c :: t) then
      match h : findBlockClose ((c :: t).drop 2) with
      | some r => cutBlockComment r
      | none => c :: t
    else c :: cutBlockComment t
termination_by s => s.length
decreasing_by
  · have := findBlockClose_le _ _ h
    simp only [List.drop_succ_cons, List.length_drop, List.length_cons] at this ⊢
    omega
  · simp only [List.length_cons]
    omega

/-- `remove_comments` of detect_repository.py lines 30-38: line comments are
removed first (per line), then block comments. -/
def remove_comments (content : Str) : Str :=
  cutBlockComment (joinNl ((splitNl content).map cutLineComment))

/-- One position of `DefineStandardPointers\s*\(\s*(\w+)\s*\)`
(detect_repository.py line 62).  Every `\s*` is followed by a non-whitespace
literal and the greedy `\w+` is followed by `\s*\)` (word characters are
neither whitespace nor `)`), so the greedy quantifiers are deterministic. -/
def dspAt (s : Str) : Option Str :=
  if beginsWith ("DefineStandardPointers".data) s then
    match (s.drop 22).dropWhile isWsC with
    | '(' :: r2 =>
      let r3 := r2.dropWhile isWsC
      let nm := r3.takeWhile isIdentC
      if nm = [] then none
      else
        match (r3.drop nm.length).dropWhile isWsC with
        | ')' :: _ => some nm
        | _ => none
    | _ => none
  else none

/-- `extract_class_name_from_define_standard_pointers` of detect_repository.py
lines 60-66. -/
def extract_class_name_from_dsp (content : Str) : Option Str :=
  firstPos dspAt content

/-- Greedy `\s*` with backtracking, generic in the result type. -/
def wsStarBAux {α : Type} (k : Str → Option α) : Nat → Str → Option α
  | 0, s => k s
  | j + 1, s =>
    match k (s.drop (j + 1)) with
    | some r => some r
    | none => wsStarBAux k j s

/-- Greedy `\s*` with backtracking (entry point). -/
def wsStarB {α : Type} (k : Str → Option α) (s : Str) : Option α :=
  wsStarBAux k (s.takeWhile isWsC).length s

/-- Greedy `\s+` with backtracking, generic in the result type. -/
def wsPlusBAux {α : Type} (k : Str → Option α) : Nat → Str → Option α
  | 0, _ => none
  | j + 1, s =>
    match k (s.drop (j + 1)) with
    | some r => some r
    | none => wsPlusBAux k j s

/-- Greedy `\s+` with backtracking (entry point). -/
def wsPlusB {α : Type} (k : Str → Option α) (s : Str) : Option α :=
  wsPlusBAux k (s.takeWhile isWsC).length s

/-- Greedy `cls+` capture with backtracking: the continuation receives the
captured run and the rest. -/
def capPlusBAux {α : Type} (k : Str → Str → Option α) : Nat → Str → Option α
  | 0, _ => none
  | j + 1, s =>
    match k (s.take (j + 1)) (s.drop (j + 1)) with
    | some r => some r
    | none => capPlusBAux k j s

/-- Greedy `cls+` capture (entry point). -/
def capPlusB {α : Type} (cls : Char → Bool) (k : Str → Str → Option α) (s : Str) : Option α :=
  capPlusBAux k (s.takeWhile cls).length s

/-- An optional literal followed by `\s+`, e.g. `(?:final\s+)?`: the present
alternative is preferred. -/
def optLitWsPlusB {α : Type} (lit : Str) (k : Str → Option α) (s : Str) : Option α :=
  match (if beginsWith lit s then wsPlusB k (s.drop lit.length) else none) with
  | some r => some r
  | none => k s

/-- Regex class `[^,<>]`. -/
def tplChar (c : Char) : Bool := !(c = ',' || c = '<' || c = '>')

/-- One position of the pattern of `extract_cpaRepository_info`
(detect_repository.py line 74):
`class\s+{name}\s+(?:final\s+)?:\s*public\s+(?:virtual\s+)?`
`CpaRepository\s*<\s*([^,<>]+)\s*,\s*([^,<>]+)\s*>`, with full backtracking;
the two captures are stripped as in the Python source. -/
def cpaAt (name : Str) (s : Str) : Option (Str × Str) :=
  if beginsWith ("class".data) s then
    wsPlusB (fun r1 =>
      if beginsWith name r1 then
        wsPlusB (fun r3 =>
          optLitWsPlusB ("final".data) (fun r4 =>
            match r4 with
            | ':' :: r5 =>
              wsStarB (fun r6 =>
                if beginsWith ("public".data) r6 then
                  wsPlusB (fun r7 =>
                    optLitWsPlusB ("virtual".data) (fun r8 =>
                      if beginsWith ("CpaRepository".data) r8 then
                        wsStarB (fun r9 =>
                          match r9 with
                          | '<' :: r10 =>
                            wsStarB (fun r11 =>
                              capPlusB tplChar (fun g1 r12 =>
                                wsStarB (fun r13 =>
                                  match r13 with
                                  | ',' :: r14 =>
                                    wsStarB (fun r15 =>
                                      capPlusB tplChar (fun g2 r16 =>
                                        wsStarB (fun r17 =>
                                          match r17 with
                                          | '>' :: _ => some (stripL g1, stripL g2)
                                          | _ => none) r16) r15) r14
                                  | _ => none) r12) r11) r10
                          | _ => none) (r8.drop 13)
                      else none) r7) (r6.drop 6)
                else none) r5
            | _ => none) r3) (r1.drop name.length)
      else none) (s.drop 5)
  else none

/-- `extract_cpaRepository_info` of detect_repository.py lines 69-81. -/
def extract_cpaRepository_info (content : Str) (name : Str) : Option (Str × Str) :=
  firstPos (cpaAt name) content

/-- One position of `template\s*<\s*[^>]+\s*>\s*class\s+{name}`
(detect_repository.py line 91).  There are no captures, so the pattern matches
here exactly when at least one character stands between `<` and the first
following `>`, and `\s*class\s+{name}` follows that `>`. -/
def tplAt (name : Str) (s : Str) : Bool :=
  if beginsWith ("template".data) s then
    match (s.drop 8).dropWhile isWsC with
    | '<' :: r2 =>
      let inner := r2.takeWhile (fun c => !(c = '>'))
      if inner = [] then false
      else
        match r2.drop inner.length with
        | '>' :: r3 =>
          let r4 := r3.dropWhile isWsC
          beginsWith ("class".data) r4 && classFollows name (r4.drop 5)
        | _ => false
    | _ => false
  else false

/-- `is_class_templated` of detect_repository.py lines 84-92. -/
def is_class_templated (content : Str) (name : Str) : Bool :=
  anyPos (tplAt name) (remove_comments content)

/-- `detect_repository` of detect_repository.py lines 95-131: `none` models
both an unreadable file and every "not found" outcome. -/
def detect_repository (content : Option Str) : Option (Str × Str × Str × Bool) :=
  match content with
  | none => none
  | some c =>
    if find_repository_annot c = true then
      match extract_class_name_from_dsp c with
      | none => none
      | some cls =>
        let templ := is_class_templated c cls
        match extract_cpaRepository_info (remove_comments c) cls with
        | none => none
        | some (t1, t2) => some (cls, t1, t2, templ)
    else none

/-- A file that carries both an unprocessed `/// @Repository` marker and a
processed `/* @Repository */` marker, plus everything detection would
otherwise need. -/
def c10File : Str :=
  ("/// @Repository\nDefineStandardPointers(UserRepo)\nclass UserRepo : public CpaRepository<User, int>\n/* @Repository */\n".data)

/-- C10: a single processed `/* @Repository */` marker anywhere in the content
makes `find_repository_annotation` return false and `detect_repository` return
`None`, even when a separate unprocessed `/// @Repository` marker is also
present (the concrete `c10File` carries both, along with an otherwise fully
detectable repository declaration). -/
theorem c10_processed_marker_suppresses_detection :
    (∀ content : Str, repo_processed_search content = true →
      find_repository_annot content = false ∧ detect_repository (some content) = none) ∧
    (anyPos tripleRepoAt c10File = true ∧
      find_repository_annot c10File = false ∧ detect_repository (some c10File) = none) := by
  constructor
  · intro content h
    have h1 : find_repository_annot content = false := by
      unfold find_repository_annot
      rw [h]
      by_cases hx : anyPos tripleRepoAt content = true
      · rw [if_pos hx]; rfl
      · rw [if_neg hx]
    refine ⟨h1, ?_⟩
    show (if find_repository_annot content = true then _ else none :
      Option (Str × Str × Str × Bool)) = none
    rw [h1]
    simp
  · exact ⟨by decide, by decide, by decide⟩

/-- C10 witness: the suppression applied to the concrete two-marker file. -/
theorem c10_processed_marker_suppresses_detection_witness :
    find_repository_annot c10File = false ∧ detect_repository (some c10File) = none :=
  c10_processed_marker_suppresses_detection.1 c10File (by decide)

/-! ## Marker-processed mutators: `mark_dto_annotation_processed`
(S3_inject_serialization.py lines 415-466) and
`comment_repository_annotation` (process_repository.py lines 112-177). -/

/-- `re.match(r'^/\*--\s*{ann}\s*--\*/\s*$', stripped)` (S3 line 431, applied
to the stripped line, which carries no trailing newline): the literal `/*--`,
whitespace, the annotation name (`@Entity` or `@Serializable`), whitespace,
the literal `--*/`, then only whitespace up to the end.  Every `\s*` is
followed by a non-whitespace literal or the end anchor, so the matching is
deterministic. -/
def parseExactProcessed (ann : Str) (s : Str) : Bool :=
  if beginsWith ("/*--".data) s then
    let r := (s.drop 4).dropWhile isWsC
    if beginsWith ann r then
      let r2 := (r.drop ann.length).dropWhile isWsC
      if beginsWith ("--*/".data) r2 then (r2.drop 4).all isWsC else false
    else false
  else false

/-- `re.match(r'^/\*\s*{ann}\s*\*/\s*$', stripped)` (S3 line 432). -/
def parseExactAnnotLine (ann : Str) (s : Str) : Bool :=
  if beginsWith ("/*".data) s then
    let r := (s.drop 2).dropWhile isWsC
    if beginsWith ann r then
      let r2 := (r.drop ann.length).dropWhile isWsC
      if beginsWith ("*/".data) r2 then (r2.drop 2).all isWsC else false
    else false
  else false

/-- The processed form written by the Entity mutator: `/*--{ann}--*/`. -/
def processedForm (ann : Str) : Str := ("/*--".data) ++ ann ++ ("--*/".data)

/-- The per-line action of `mark_dto_annotation_processed` (S3 lines 434-455):
an already processed line is kept; an exact unprocessed marker line is
replaced by the processed form, indented by `leading-whitespace-count` spaces
but only when the line starts with a space character; every other line is
kept. -/
def markLine (ann : Str) (l : Str) : Str :=
  let s := stripL l
  if parseExactProcessed ann s then l
  else if parseExactAnnotLine ann s then
    (if l.head? = some ' ' then List.replicate (leadingWsLen l) ' ' else []) ++ processedForm ann
  else l

/-- `mark_dto_annotation_processed` of S3_inject_serialization.py lines
415-466 (the pure part: the loop appends one output line per input line; the
function itself then returns `True` regardless of whether anything was
modified). -/
def mark_dto_annot_processed (lines : Doc) (ann : Str) : Doc :=
  match lines with
  | [] => []
  | l :: rest => markLine ann l :: mark_dto_annot_processed rest ann

/-- `re.match(r'^///\s*@Repository\s*$', stripped)` (process_repository.py
line 137). -/
def parseRepoAnnotLine (s : Str) : Bool :=
  if beginsWith ("///".data) s then
    let r := (s.drop 3).dropWhile isWsC
    if beginsWith ("@Repository".data) r then (r.drop 11).all isWsC else false
  else false

/-- `re.match(r'^/\*\s*@Repository\s*\*/\s*$', stripped)` (process_repository.py
line 155). -/
def parseRepoProcessedLine (s : Str) : Bool :=
  if beginsWith ("/*".data) s then
    let r := (s.drop 2).dropWhile isWsC
    if beginsWith ("@Repository".data) r then
      let r2 := (r.drop 11).dropWhile isWsC
      if beginsWith ("*/".data) r2 then (r2.drop 2).all isWsC else false
    else false
  else false

/-- The replacement line written by the repository mutator
(process_repository.py lines 139-145). -/
def rewriteRepoLine (l : Str) : Str :=
  (if l.head? = some ' ' then List.replicate (leadingWsLen l) ' ' else []) ++
    ("/* @Repository */".data)

/-- The search-and-replace loop of `comment_repository_annotation`
(process_repository.py lines 134-148): rewrite the first line matching the
unprocessed pattern (the loop `break`s after it), `none` when no line
matches. -/
def crAnnotLoop : Doc → Option Doc
  | [] => none
  | l :: rest =>
    if parseRepoAnnotLine (stripL l) then some (rewriteRepoLine l :: rest)
    else
      match crAnnotLoop rest with
      | some rest' => some (l :: rest')
      | none => none

/-- `comment_repository_annotation` of process_repository.py lines 112-177
(pure part): the possibly rewritten lines together with the returned boolean
(`True` when a marker was rewritten, otherwise `True` exactly when some line
is already in processed form). -/
def comment_repository_annot (lines : Doc) : Doc × Bool :=
  match crAnnotLoop lines with
  | some lines' => (lines', true)
  | none => (lines, lines.any fun l => parseRepoProcessedLine (stripL l))

/-- A file with two exact unprocessed `@Entity` markers. -/
def c8File : Doc := [("/* @Entity */".data), ("int x;".data), ("/* @Entity */".data)]

/-- C8 counterexample: the claim says each invocation rewrites at most the
first matching occurrence, leaving later unprocessed occurrences unchanged;
the Entity mutator in fact rewrites every exact marker line — on `c8File`
both marker lines become processed, not only the first. -/
theorem c8_counterexample :
    mark_dto_annot_processed c8File ("@Entity".data) =
      [("/*--@Entity--*/".data), ("int x;".data), ("/*--@Entity--*/".data)] ∧
    mark_dto_annot_processed c8File ("@Entity".data) ≠
      [("/*--@Entity--*/".data), ("int x;".data), ("/* @Entity */".data)] := by
  constructor
  · decide
  · decide

theorem mark_dto_annot_processed_eq_map (lines : Doc) (ann : Str) :
    mark_dto_annot_processed lines ann = lines.map (markLine ann) := by
  induction lines with
  | nil => rfl
  | cons l rest ih => simp [mark_dto_annot_processed, ih]

theorem crAnnotLoop_eq_none_iff (lines : Doc) :
    crAnnotLoop lines = none ↔
      List.findIdx? (fun l => parseRepoAnnotLine (stripL l)) lines = none := by
  induction lines with
  | nil => simp [crAnnotLoop]
  | cons l rest ih =>
    by_cases hp : parseRepoAnnotLine (stripL l) = true
    · simp [crAnnotLoop, hp]
    · simp only [crAnnotLoop, if_neg hp, List.findIdx?_cons, hp, Bool.false_eq_true, if_false,
        List.findIdx?_succ]
      cases hrec : crAnnotLoop rest with
      | none =>
        have := ih.mp hrec
        simp [this]
      | some rest' =>
        have : List.findIdx? (fun l => parseRepoAnnotLine (stripL l)) rest ≠ none := by
          intro hc
          rw [← ih] at hc
          rw [hrec] at hc
          exact absurd hc (by simp)
        cases hfi : List.findIdx? (fun l => parseRepoAnnotLine (stripL l)) rest with
        | none => exact absurd hfi this
        | some j => simp

/-- C8 (amended): the Entity mutator acts line by line and rewrites EVERY
exact-form unprocessed marker line (the original claim's "at most the first
occurrence" holds only for the repository mutator); a line already in
processed form is left untouched (and the call reports success); leading
whitespace is reproduced as that many space characters only when the line
starts with a space — a tab-indented marker line is rewritten without its
indentation.  The repository mutator rewrites exactly the first matching line
(every other line, including later matches, is preserved), and when no line
matches it leaves the file unchanged and still reports success if a processed
line exists. -/
theorem c8_marker_mutator_amended :
    (∀ (ann : Str) (lines : Doc) (i : Nat),
      (mark_dto_annot_processed lines ann)[i]? = (lines[i]?).map (markLine ann)) ∧
    (∀ (ann : Str) (l : Str), parseExactProcessed ann (stripL l) = true →
      markLine ann l = l) ∧
    (∀ (ann : Str) (l : Str), parseExactProcessed ann (stripL l) = false →
      parseExactAnnotLine ann (stripL l) = true →
      markLine ann l =
        (if l.head? = some ' ' then List.replicate (leadingWsLen l) ' ' else []) ++
          processedForm ann) ∧
    markLine ("@Entity".data) ("  /* @Entity */".data) = ("  /*--@Entity--*/".data) ∧
    markLine ("@Entity".data) ("\t/* @Entity */".data) = ("/*--@Entity--*/".data) ∧
    (∀ (lines : Doc) (i : Nat),
      List.findIdx? (fun l => parseRepoAnnotLine (stripL l)) lines = some i →
      ∃ l, lines[i]? = some l ∧
        comment_repository_annot lines = (lines.set i (rewriteRepoLine l), true)) ∧
    (∀ lines : Doc,
      List.findIdx? (fun l => parseRepoAnnotLine (stripL l)) lines = none →
      comment_repository_annot lines =
        (lines, lines.any fun l => parseRepoProcessedLine (stripL l))) := by
  refine ⟨?_, ?_, ?_, by decide, by decide, ?_, ?_⟩
  · intro ann lines i
    rw [mark_dto_annot_processed_eq_map, List.getElem?_map]
  · intro ann l h
    unfold markLine
    rw [if_pos h]
  · intro ann l h1 h2
    unfold markLine
    rw [if_neg (by simp [h1]), if_pos h2]
  · intro lines
    induction lines with
    | nil => intro i h; simp [List.findIdx?] at h
    | cons l rest ih =>
      intro i h
      by_cases hp : parseRepoAnnotLine (stripL l) = true
      · have hi : i = 0 := by
          rw [List.findIdx?_cons] at h
          simp [hp] at h
          exact h.symm
        subst hi
        refine ⟨l, by simp, ?_⟩
        unfold comment_repository_annot crAnnotLoop
        rw [if_pos hp]
        simp
      · rw [List.findIdx?_cons] at h
        simp only [hp, Bool.false_eq_true, if_false] at h
        rw [List.findIdx?_succ] at h
        cases hrec : List.findIdx? (fun l => parseRepoAnnotLine (stripL l)) rest with
        | none => rw [hrec] at h; simp at h
        | some j =>
          rw [hrec] at h
          have hij : i = j + 1 := by
            simp at h
            omega
          subst hij
          obtain ⟨l', hget, hcr⟩ := ih j hrec
          refine ⟨l', by simpa using hget, ?_⟩
          show (match crAnnotLoop (l :: rest) with
            | some lines' => (lines', true)
            | none => (l :: rest, (l :: rest).any fun x => parseRepoProcessedLine (stripL x))) =
            ((l :: rest).set (j + 1) (rewriteRepoLine l'), true)
          have hstep : crAnnotLoop (l :: rest) =
              match crAnnotLoop rest with
              | some rest' => some (l :: rest')
              | none => none := by
            show (if parseRepoAnnotLine (stripL l) = true then some (rewriteRepoLine l :: rest)
              else match crAnnotLoop rest with
                | some rest' => some (l :: rest')
                | none => none) =
              match crAnnotLoop rest with
              | some rest' => some (l :: rest')
              | none => none
            rw [if_neg hp]
          cases hloop : crAnnotLoop rest with
          | none =>
            have := (crAnnotLoop_eq_none_iff rest).mp hloop
            rw [this] at hrec
            exact absurd hrec (by simp)
          | some rest' =>
            rw [hstep, hloop]
            unfold comment_repository_annot at hcr
            rw [hloop] at hcr
            have hr' : rest' = rest.set j (rewriteRepoLine l') := by
              have := congrArg Prod.fst hcr
              simpa using this
            simp [hr', List.set_cons_succ]
  · intro lines h
    unfold comment_repository_annot
    rw [(crAnnotLoop_eq_none_iff lines).mpr h]

/-- C8 witness: the repository mutator applied to a file with two unprocessed
markers rewrites only the first line; the second marker line is preserved. -/
theorem c8_marker_mutator_amended_witness :
    ∃ l, ([("/// @Repository".data), ("/// @Repository".data)] : Doc)[0]? = some l ∧
      comment_repository_annot [("/// @Repository".data), ("/// @Repository".data)] =
        ([("/* @Repository */".data), ("/// @Repository".data)], true) := by
  obtain ⟨l, h1, h2⟩ := c8_marker_mutator_amended.2.2.2.2.2.1
    [("/// @Repository".data), ("/// @Repository".data)] 0 (by decide)
  refine ⟨l, h1, ?_⟩
  have hl : l = ("/// @Repository".data) := by
    simpa using h1.symm
  rw [h2, hl]
  decide

/-! ## serialization/S2_extract_dto_fields.py: field extraction -/

/-- A field as extracted by S2 (`{'type': ..., 'name': ...}`). -/
structure FieldD where
  type : Str
  name : Str
deriving DecidableEq, Repr

/-- Regex class `[A-Za-z0-9_<>*&,\s]` (the S2/S7/id-fields field-type class). -/
def s2TypeChar (c : Char) : Bool :=
  isIdentC c || c = '<' || c = '>' || c = '*' || c = '&' || c = ',' || isWsC c

/-- The tail `\s+([A-Za-z_][A-Za-z0-9_]*)\s*[;=]` of the field patterns,
returning the captured name.  All quantifiers here are deterministic: the
name starts with a non-whitespace character after the greedy `\s+`, shortening
the greedy name run leaves an identifier character where `\s*[;=]` must match,
and shortening the final `\s*` leaves a whitespace character where `[;=]`
must match. -/
def fieldTail (s : Str) : Option Str :=
  match s with
  | [] => none
  | c :: t =>
    if isWsC c then
      match t.dropWhile isWsC with
      | [] => none
      | d :: u =>
        if alphaUnd d then
          let run := u.takeWhile isIdentC
          match (u.drop run.length).dropWhile isWsC with
          | ';' :: _ => some (d :: run)
          | '=' :: _ => some (d :: run)
          | _ => none
        else none
    else none

/-- The lazy group `([A-Za-z_][A-Za-z0-9_<>*&,\s]*?)` followed by the field
tail: the shortest extension of the type group whose remainder matches the
tail wins (`*?` prefers not to consume).  `acc` is the reversed type group so
far (at least the leading `[A-Za-z_]` character). -/
def fieldScan (acc : Str) : Str → Option (Str × Str)
  | [] => none
  | c :: t =>
    match fieldTail (c :: t) with
    | some nm => some (acc.reverse, nm)
    | none => if s2TypeChar c then fieldScan (c :: acc) t else none

/-- The shared core `([A-Za-z_][A-Za-z0-9_<>*&,\s]*?)\s+([A-Za-z_][A-Za-z0-9_]*)\s*[;=]`
of the S2/S7/id-fields field patterns, at a fixed position. -/
def fieldCore (r : Str) : Option (Str × Str) :=
  match r with
  | [] => none
  | c :: t => if alphaUnd c then fieldScan [c] t else none

/-- `re.search(r'^\s*([A-Za-z_][A-Za-z0-9_<>*&,\s]*?)\s+([A-Za-z_][A-Za-z0-9_]*)\s*[;=]', s)`
(S2_extract_dto_fields.py line 95), returning the raw type group and the name
group.  The leading `\s*` is deterministic because the type group starts with
a non-whitespace character. -/
def s2FieldMatch (s : Str) : Option (Str × Str) :=
  fieldCore (s.dropWhile isWsC)

/-- `re.search(r'^\s*(public|private|protected)\s*:', s, re.IGNORECASE)`
(S2 line 93): returns the lowercased keyword.  At most one of the three
(pairwise prefix-incompatible) keywords can match a given position, and the
`\s*`s are deterministic. -/
def accessMatch (s : Str) : Option Str :=
  let r := s.dropWhile isWsC
  let tryKw := fun (kw : Str) =>
    if beginsWithCaseless kw r then
      match (r.drop kw.length).dropWhile isWsC with
      | ':' :: _ => some kw
      | _ => none
    else none
  match tryKw ("public".data) with
  | some k => some k
  | none =>
    match tryKw ("private".data) with
    | some k => some k
    | none => tryKw ("protected".data)

/-- The per-line loop of `extract_all_fields` (S2 lines 97-126).  The access
region is tracked by the source but does not influence which fields are
collected, so it is omitted here. -/
def eafLoop : Doc → List FieldD
  | [] => []
  | l :: rest =>
    let str := stripL l
    if beginsWith ("//".data) str || beginsWith ("/*".data) str then eafLoop rest
    else if str = [] then eafLoop rest
    else
      match accessMatch str with
      | some _ => eafLoop rest
      | none =>
        match s2FieldMatch str with
        | some (g1, g2) =>
          if ¬str.contains '(' ∧ ¬str.contains ')' ∧
              g2 ∉ [("public".data), ("private".data), ("protected".data)] then
            ⟨stripL g1, g2⟩ :: eafLoop rest
          else eafLoop rest
        | none => eafLoop rest

/-- `extract_all_fields` of S2_extract_dto_fields.py lines 64-127 (the part
after the file has been read; the caller in the pipeline always has a readable
file). -/
def extract_all_fields (lines : Doc) (cls : Str) : List FieldD :=
  match find_class_boundaries_core lines cls with
  | none => []
  | some (s, e) => eafLoop ((lines.drop (s - 1)).take (e + 1 - s))

/-! ## serialization/S1_check_dto_macro.py: annotation detection -/

/-- One position of `/\*\s*{ann}\s*\*/` (S1_check_dto_macro.py line 44): the
`\s*`s are deterministic because the annotation name starts with `@` and the
closing literal starts with `*`, neither of which is whitespace. -/
def annotSearchAt (ann : Str) (s : Str) : Bool :=
  if beginsWith ("/*".data) s then
    let r := (s.drop 2).dropWhile isWsC
    if beginsWith ann r then
      beginsWith ("*/".data) ((r.drop ann.length).dropWhile isWsC)
    else false
  else false

/-- `re.search` of the annotation pattern over a (stripped) line. -/
def annot_search (ann : Str) (s : Str) : Bool := anyPos (annotSearchAt ann) s

/-- One position of `/\*--\s*{ann}\s*--\*/` (S1 line 45). -/
def procSearchAt (ann : Str) (s : Str) : Bool :=
  if beginsWith ("/*--".data) s then
    let r := (s.drop 4).dropWhile isWsC
    if beginsWith ann r then
      beginsWith ("--*/".data) ((r.drop ann.length).dropWhile isWsC)
    else false
  else false

/-- `re.search` of the processed pattern over a (stripped) line. -/
def proc_search (ann : Str) (s : Str) : Bool := anyPos (procSearchAt ann) s

/-- One position of `class\s+([A-Za-z_][A-Za-z0-9_]*)\s*(?:[:{])` (S1 line
48), returning the capture.  The greedy quantifiers are deterministic: the
capture starts with a non-whitespace character, shortening the capture run
leaves an identifier character where `\s*[:{]` must match, and shortening the
final `\s*` leaves whitespace where `[:{]` must match. -/
def classCapAt (s : Str) : Option Str :=
  if beginsWith ("class".data) s then
    match s.drop 5 with
    | [] => none
    | c :: t =>
      if isWsC c then
        match t.dropWhile isWsC with
        | [] => none
        | d :: u =>
          if alphaUnd d then
            let run := u.takeWhile isIdentC
            match (u.drop run.length).dropWhile isWsC with
            | ':' :: _ => some (d :: run)
            | '\x7b' :: _ => some (d :: run)
            | _ => none
          else none
      else none
  else none

/-- `re.search` of the class-capture pattern. -/
def class_cap_search (s : Str) : Option Str := firstPos classCapAt s

/-- `re.match(r'^[A-Z][A-Za-z0-9_]*\s*(?:\(|$)', s)` (S1 line 96): an
uppercase-initial identifier, optional whitespace, then `(` or the end.
Deterministic for the same reasons as `classCapAt`. -/
def upperIdentParenOrEnd (s : Str) : Bool :=
  match s with
  | [] => false
  | c :: t =>
    if isUpperC c then
      match (t.drop (t.takeWhile isIdentC).length).dropWhile isWsC with
      | [] => true
      | '(' :: _ => true
      | _ => false
    else false

/-- `next_line.startswith(('COMPONENT', 'SCOPE', 'VALIDATE', 'Dto'))`
(S1 lines 94-95). -/
def knownAnnotStart (s : Str) : Bool :=
  beginsWith ("COMPONENT".data) s || beginsWith ("SCOPE".data) s ||
    beginsWith ("VALIDATE".data) s || beginsWith ("Dto".data) s

/-- The lookahead of `check_dto_annotation` (S1 lines 69-98) over the window
of at most 11 lines starting at the marker line itself; `i` is the 1-based
line number of the head of the remaining window.  Returns the class name and
its line, or `none` when the window is exhausted or a disqualifying line is
hit. -/
def cdLook (ann : Str) : Doc → Nat → Option (Str × Nat)
  | [], _ => none
  | l :: rest, i =>
    let nl := stripL l
    if beginsWith ("/*".data) nl ∧ ¬annot_search ann nl then cdLook ann rest (i + 1)
    else if beginsWith ("//".data) nl then cdLook ann rest (i + 1)
    else
      match class_cap_search nl with
      | some cls => some (cls, i)
      | none =>
        if nl ≠ [] ∧ ¬(knownAnnotStart nl = true ∨ upperIdentParenOrEnd nl = true ∨
            annot_search ann nl = true) then none
        else cdLook ann rest (i + 1)

/-- The outer scan of `check_dto_annotation` (S1 lines 50-102): processed
lines are skipped; comment lines without the annotation are skipped; a line
containing the annotation starts the lookahead (whose window
`range(line_num, min(line_num + 11, len + 1))` is the marker line and the 10
following ones); a failed lookahead resumes the outer scan. -/
def cdScan (ann : Str) (all : Doc) : Doc → Nat → Option (Str × Nat × Nat)
  | [], _ => none
  | l :: rest, n =>
    let s := stripL l
    if proc_search ann s then cdScan ann all rest (n + 1)
    else if beginsWith ("/*".data) s ∧ ¬annot_search ann s then cdScan ann all rest (n + 1)
    else if beginsWith ("//".data) s then cdScan ann all rest (n + 1)
    else if annot_search ann s then
      match cdLook ann ((all.drop (n - 1)).take 11) n with
      | some (cls, i) => some (cls, n, i)
      | none => cdScan ann all rest (n + 1)
    else cdScan ann all rest (n + 1)

/-- `check_dto_annotation` of S1_check_dto_macro.py lines 14-102 for a readable
file, parameterized by the derived annotation name (`@Entity` for the default
`_Entity` identifier).  `none` models the `{'has_dto': False}` result; a
`some (cls, dtoLine, classLine)` models the found dictionary. -/
def check_dto_annot (lines : Doc) (ann : Str) : Option (Str × Nat × Nat) :=
  cdScan ann lines lines 1

/-! ## serialization/S7_extract_validation_fields.py -/

/-- A validation-annotated field as collected by S7 (`{'type', 'name',
'access', 'function_name'}`). -/
structure VField where
  type : Str
  name : Str
  access : Str
  function_name : Str
deriving DecidableEq, Repr

/-- The validation-macro table (`Dict[str, str]`, macro name to validation
function name; insertion-ordered like a Python dict). -/
abbrev VTable := List (Str × Str)

/-- The per-macro extraction result (`Dict[str, List[...]]`). -/
abbrev VMap := List (Str × List VField)

/-- The group `(.+)>` of the optional-inner-type patterns: `.` does not match
a newline and the group is greedy, so the capture runs to the last `>` that
lies before any newline, and must be nonempty. -/
def optGroup (r : Str) : Option Str :=
  let bound := r.takeWhile (fun c => ¬(c = '\n'))
  match bound.reverse.findIdx? (fun c => c = '>') with
  | some k =>
    let j := bound.length - 1 - k
    if 1 ≤ j then some (bound.take j) else none
  | none => none

/-- `re.search(r'(?:std::)?optional<(.+)>', t, re.IGNORECASE)` of
`is_string_type` (S7 line 31), returning the stripped capture. -/
def optInnerCaseless (t : Str) : Option Str :=
  firstPos
    (fun r =>
      if beginsWithCaseless ("std::optional<".data) r then optGroup (r.drop 14)
      else if beginsWithCaseless ("optional<".data) r then optGroup (r.drop 9)
      else none) t

/-- `is_string_type` of S7_extract_validation_fields.py lines 26-38. -/
def is_string_type (t : Str) : Bool :=
  let tc := stripL t
  let tc2 :=
    if occursIn ("optional<".data) (tc.map Char.toLower) then
      match optInnerCaseless tc with
      | some inner => stripL inner
      | none => tc
    else tc
  let low := tc2.map Char.toLower
  occursIn ("stdstring".data) low || occursIn ("cstdstring".data) low ||
    occursIn ("std::string".data) low || occursIn ("const std::string".data) low ||
    occursIn ("string".data) low

/-- `requires_string_type` of `get_validation_function_info` (S7 line 47). -/
def requiresStringType (fn : Str) : Bool :=
  occursIn ("NotBlank".data) fn || occursIn ("NotEmpty".data) fn ||
    occursIn ("String".data) fn

/-- Python's `\b` after a word character: the next character, if any, is not a
word character (`prev` is the character just before the boundary). -/
def wordBoundaryAfter (prev : Char) : Str → Bool
  | [] => isIdentC prev
  | c :: _ => !(isIdentC prev == isIdentC c)

/-- One position of `///\s*@{re.escape(m)}\b` (S7 line 76). -/
def vmAnnotAt (m : Str) (s : Str) : Bool :=
  if beginsWith ("///".data) s then
    match (s.drop 3).dropWhile isWsC with
    | '@' :: r2 =>
      if beginsWith m r2 then
        wordBoundaryAfter ((m.getLast?).getD '@') (r2.drop m.length)
      else false
    | _ => false
  else false

/-- `re.search` of one macro's annotation pattern over a line. -/
def valAnnotSearch (m : Str) (s : Str) : Bool := anyPos (vmAnnotAt m) s

/-- The combined alternation `validation_pattern` (S7 lines 78-79): some
macro's pattern matches. -/
def vmatch (vt : VTable) (s : Str) : Bool := vt.any fun p => valAnnotSearch p.1 s

/-- The `for macro_name, pattern in annotation_patterns.items()` search (S7
lines 113-115): the first table entry whose pattern matches. -/
def firstMatchingKey (vt : VTable) (s : Str) : Option (Str × Str) :=
  vt.findSome? fun p => if valAnnotSearch p.1 s then some p else none

/-- The six hard-coded annotation alternatives of S7 lines 128 and 161. -/
def hardAnnotNames : List Str :=
  [("NotNull".data), ("NotEmpty".data), ("NotBlank".data), ("Id".data),
   ("Entity".data), ("Serializable".data)]

/-- One position of `///\s*@(NotNull|NotEmpty|NotBlank|Id|Entity|Serializable)\b`
(S7 line 128). -/
def hardAnnotAt (s : Str) : Bool :=
  if beginsWith ("///".data) s then
    match (s.drop 3).dropWhile isWsC with
    | '@' :: r2 =>
      hardAnnotNames.any fun alt =>
        beginsWith alt r2 && wordBoundaryAfter ((alt.getLast?).getD '@') (r2.drop alt.length)
    | _ => false
  else false

/-- `re.search` of the hard-coded annotation pattern. -/
def hardAnnotSearch (s : Str) : Bool := anyPos hardAnnotAt s

/-- `re.search(r'^\s*(Dto|Serializable|COMPONENT|SCOPE|VALIDATE|///\s*@(NotNull|NotEmpty|NotBlank|Id|Entity|Serializable))\s*$', s)`
(S7 line 161): one of the alternatives at the start (after whitespace),
followed only by whitespace. -/
def stopLineMatch (s : Str) : Bool :=
  let r := s.dropWhile isWsC
  let litAlt := fun (lit : Str) => beginsWith lit r && (r.drop lit.length).all isWsC
  litAlt ("Dto".data) || litAlt ("Serializable".data) || litAlt ("COMPONENT".data) ||
    litAlt ("SCOPE".data) || litAlt ("VALIDATE".data) ||
    (if beginsWith ("///".data) r then
      match (r.drop 3).dropWhile isWsC with
      | '@' :: r2 =>
        hardAnnotNames.any fun alt =>
          beginsWith alt r2 && (r2.drop alt.length).all isWsC
      | _ => false
    else false)

/-- `re.search(r'^\s*(?:Public|Private|Protected)?\s*([A-Za-z_][A-Za-z0-9_<>*&,\s]*?)\s+([A-Za-z_][A-Za-z0-9_]*)\s*[;=]', s)`
(S7 line 82): like the S2 field pattern but with an optional access keyword.
The present-keyword alternative is preferred; if it fails to complete, the
keyword is retried as part of the type group. -/
def s7FieldMatch (s : Str) : Option (Str × Str) :=
  let s1 := s.dropWhile isWsC
  let kwTry := fun (kw : Str) =>
    if beginsWith kw s1 then fieldCore ((s1.drop kw.length).dropWhile isWsC) else none
  match kwTry ("Public".data) with
  | some r => some r
  | none =>
    match kwTry ("Private".data) with
    | some r => some r
    | none =>
      match kwTry ("Protected".data) with
      | some r => some r
      | none => fieldCore s1

/-- The lookahead of `extract_validation_fields` (S7 lines 123-162) over the
window of at most 10 lines following the annotation line.  `cur` is the
access region at the time of the annotation, `m`/`fn` the matched macro and
its function, `reqStr` its `requires_string_type` flag.  Returns the field to
append, or `none` (window exhausted, disqualified field, or stop line). -/
def evfLook (vt : VTable) (cur : Option Str) (fn : Str) (reqStr : Bool) :
    Doc → Option VField
  | [] => none
  | l :: rest =>
    let nl := stripL l
    if beginsWith ("/*".data) nl then evfLook vt cur fn reqStr rest
    else if beginsWith ("//".data) nl ∧ ¬hardAnnotSearch nl then evfLook vt cur fn reqStr rest
    else if nl = [] then evfLook vt cur fn reqStr rest
    else if vmatch vt nl then evfLook vt cur fn reqStr rest
    else
      match s7FieldMatch nl with
      | some (g1, g2) =>
        if ¬nl.contains '(' ∧ ¬nl.contains ')' ∧
            g2 ∉ [("public".data), ("private".data), ("protected".data)] then
          let ft := stripL g1
          if reqStr then
            if is_string_type ft then
              some ⟨ft, g2, cur.getD ("none".data), fn⟩
            else none
          else some ⟨ft, g2, cur.getD ("none".data), fn⟩
        else none
      | none =>
        if nl ≠ [] ∧ ((accessMatch nl).isSome = true ∨ stopLineMatch nl = true) then none
        else evfLook vt cur fn reqStr rest

/-- The outer `while` loop of `extract_validation_fields` (S7 lines 89-167),
returning the `(macro, field)` append events in order. -/
def evfLoop (vt : VTable) : Doc → Option Str → List (Str × VField)
  | [], _ => []
  | l :: rest, cur =>
    let str := stripL l
    if beginsWith ("/*".data) str then evfLoop vt rest cur
    else if beginsWith ("//".data) str ∧ ¬vmatch vt str then evfLoop vt rest cur
    else if str = [] then evfLoop vt rest cur
    else
      match accessMatch str with
      | some kw => evfLoop vt rest (some kw)
      | none =>
        if vmatch vt str then
          match firstMatchingKey vt str with
          | some (m, fn) =>
            match evfLook vt cur fn (requiresStringType fn) (rest.take 10) with
            | some f => (m, f) :: evfLoop vt rest cur
            | none => evfLoop vt rest cur
          | none => evfLoop vt rest cur
        else evfLoop vt rest cur

/-- Rebuild the per-macro dictionary from the append events, dropping empty
entries while preserving the table order (`{k: v for k, v in result.items()
if v}`, S7 line 169). -/
def evf_result (vt : VTable) (evs : List (Str × VField)) : VMap :=
  (vt.map fun p => (p.1, evs.filterMap fun q => if q.1 = p.1 then some q.2 else none)).filter
    fun r => ¬r.2.isEmpty

/-- `extract_validation_fields` of S7_extract_validation_fields.py lines
55-169.  The file is opened with an exception-swallowing handler that leaves
the local `lines` unassigned; the subsequent call into S2's
`find_class_boundaries` raises `UnboundLocalError` on the same unreadable
file, and that exception propagates out of this function. -/
def extract_validation_fields (content : Option Doc) (cls : Str) (vt : VTable) :
    Except PyErr VMap :=
  match find_class_boundaries_s2 content cls with
  | Except.error e => Except.error e
  | Except.ok none => Except.ok []
  | Except.ok (some (s, e)) =>
    let lines := content.getD []
    let classLines := (lines.drop (s - 1)).take (e + 1 - s)
    if vt = [] then Except.ok []
    else Except.ok (evf_result vt (evfLoop vt classLines none))

/-- A file with no `Customer` declaration. -/
def c2NoDeclFile : Doc := [("int x;".data), ("\x7b \x7d".data)]

/-- A file whose braces never re-balance. -/
def c2UnbalancedFile : Doc := [("class Customer \x7b".data), ("    int x;".data)]

/-- A one-entry validation table used in the C2 statement. -/
def c2Table : VTable := [(("NotNull".data), ("ValidateNotNull".data))]

/-- C2: the boundary locator and its callers on failure inputs.  The claim
says an unreadable file yields `None`/an empty result with no exception; in
the code the `except` handler of S2's `find_class_boundaries` only `pass`es,
so the local `lines` is unassigned and the loop header raises
`UnboundLocalError`, which `extract_validation_fields` propagates.  The
no-declaration and never-rebalancing cases do return not-found/empty, and the
function is total once the file is readable. -/
theorem c2_boundary_locator_error_behaviour :
    find_class_boundaries_s2 none ("Customer".data) = Except.error PyErr.unboundLocal ∧
    extract_validation_fields none ("Customer".data) c2Table =
      Except.error PyErr.unboundLocal ∧
    (∀ (lines : Doc) (name : Str),
      ∃ r, find_class_boundaries_s2 (some lines) name = Except.ok r) ∧
    (∀ (lines : Doc) (name : Str) (vt : VTable),
      ∃ r, extract_validation_fields (some lines) name vt = Except.ok r) ∧
    find_class_boundaries_core c2NoDeclFile ("Customer".data) = none ∧
    find_class_boundaries_core c2UnbalancedFile ("Customer".data) = none ∧
    extract_validation_fields (some c2NoDeclFile) ("Customer".data) c2Table =
      Except.ok [] ∧
    find_class_boundaries_pk none ("Customer".data) = none := by
  refine ⟨rfl, rfl, ?_, ?_, by decide, by decide, by decide, rfl⟩
  · intro lines name
    exact ⟨find_class_boundaries_core lines name, rfl⟩
  · intro lines name vt
    unfold extract_validation_fields
    split
    · rename_i e heq
      exact absurd heq (by simp [find_class_boundaries_s2])
    · exact ⟨[], rfl⟩
    · rename_i s e heq
      dsimp only
      split
      · exact ⟨[], rfl⟩
      · exact ⟨_, rfl⟩

/-! ## extract_id_fields.py -/

/-- An `@Id` field (`{'type', 'name'}` plus the optional `validation_macros`
list, modelled as a possibly empty list). -/
structure IdField where
  type : Str
  name : Str
  vmarks : List Str
deriving DecidableEq, Repr

/-- The id-fields stop pattern
`^\s*(Dto|Serializable|_Entity|COMPONENT|SCOPE|VALIDATE|///\s*@(Id|Entity|Serializable|NotNull|NotEmpty|NotBlank))\s*$'`
(extract_id_fields.py line 306). -/
def idStopLineMatch (s : Str) : Bool :=
  let r := s.dropWhile isWsC
  let litAlt := fun (lit : Str) => beginsWith lit r && (r.drop lit.length).all isWsC
  litAlt ("Dto".data) || litAlt ("Serializable".data) || litAlt ("_Entity".data) ||
    litAlt ("COMPONENT".data) || litAlt ("SCOPE".data) || litAlt ("VALIDATE".data) ||
    (if beginsWith ("///".data) r then
      match (r.drop 3).dropWhile isWsC with
      | '@' :: r2 =>
        [("Id".data), ("Entity".data), ("Serializable".data), ("NotNull".data),
         ("NotEmpty".data), ("NotBlank".data)].any fun alt =>
          beginsWith alt r2 && (r2.drop alt.length).all isWsC
      | _ => false
    else false)

/-- The field core preceded by an optional `const\s+` (preferred when
present, retried as part of the type group on failure). -/
def fieldCoreConst (r : Str) : Option (Str × Str) :=
  match
    (if beginsWith ("const".data) r then
      match r.drop 5 with
      | c :: t => if isWsC c then fieldCore ((c :: t).dropWhile isWsC) else none
      | [] => none
    else none) with
  | some v => some v
  | none => fieldCore r

/-- `re.search(r'^\s*(?:Public|Private|Protected)?\s*(?:const\s+)?([A-Za-z_][A-Za-z0-9_<>*&,\s]*?)\s+([A-Za-z_][A-Za-z0-9_]*)\s*[;=]', s)`
(extract_id_fields.py line 221): the S2 core preceded by an optional access
keyword and an optional `const` (each present alternative preferred, each
retried as part of the type group on failure). -/
def idFieldMatch (s : Str) : Option (Str × Str) :=
  let s1 := s.dropWhile isWsC
  let kwTry := fun (kw : Str) =>
    if beginsWith kw s1 then fieldCoreConst ((s1.drop kw.length).dropWhile isWsC) else none
  match kwTry ("Public".data) with
  | some r => some r
  | none =>
    match kwTry ("Private".data) with
    | some r => some r
    | none =>
      match kwTry ("Protected".data) with
      | some r => some r
      | none => fieldCoreConst s1

/-- Does some table macro's block annotation `/\*\s*@{m}\s*\*/` match the
line (extract_id_fields.py lines 207-212)? -/
def idVmatch (vt : VTable) (s : Str) : Bool :=
  vt.any fun p => annot_search ('@' :: p.1) s

/-- The lookahead of `extract_id_fields` (extract_id_fields.py lines 253-311)
over the 15-line window after an `@Id` line; `acc` accumulates the validation
macros found between the `@Id` and the field. -/
def idLook (vt : VTable) : Doc → List Str → Option IdField
  | [], _ => none
  | l :: rest, acc =>
    let nl := stripL l
    if beginsWith ("/*".data) nl ∧
        ¬(annot_search ("@Id".data) nl = true ∨ idVmatch vt nl = true) then
      idLook vt rest acc
    else if beginsWith ("//".data) nl then idLook vt rest acc
    else if nl = [] then idLook vt rest acc
    else if idVmatch vt nl then
      match vt.findSome? (fun p => if annot_search ('@' :: p.1) nl then some p.1 else none) with
      | some m => idLook vt rest (acc ++ [m])
      | none => idLook vt rest acc
    else
      match idFieldMatch nl with
      | some (g1, g2) =>
        if ¬nl.contains '(' ∧ ¬nl.contains ')' ∧
            g2 ∉ [("public".data), ("private".data), ("protected".data)] then
          some ⟨stripL g1, g2, acc⟩
        else none
      | none =>
        if nl ≠ [] ∧ ((accessMatch nl).isSome = true ∨ idStopLineMatch nl = true) then none
        else idLook vt rest acc

/-- The outer `while` loop of `extract_id_fields` (lines 226-316). -/
def idLoop (vt : VTable) : Doc → List IdField
  | [] => []
  | l :: rest =>
    let str := stripL l
    if beginsWith ("/*".data) str ∧ ¬annot_search ("@Id".data) str then idLoop vt rest
    else if beginsWith ("//".data) str then idLoop vt rest
    else if str = [] then idLoop vt rest
    else if proc_search ("@Id".data) str then idLoop vt rest
    else if annot_search ("@Id".data) str then
      match idLook vt (rest.take 15) [] with
      | some f => f :: idLoop vt rest
      | none => idLoop vt rest
    else idLoop vt rest

/-- `extract_id_fields` of extract_id_fields.py lines 138-318 for a readable
file (the pipeline wraps the call in `try/except` anyway), with the validation
table passed explicitly (the source discovers the same table via S6 when the
argument is `None`). -/
def extract_id_fields (lines : Doc) (cls : Str) (vt : VTable) : List IdField :=
  match find_class_boundaries_core lines cls with
  | none => []
  | some (s, e) => idLoop vt ((lines.drop (s - 1)).take (e + 1 - s))

/-! ## serialization/S3_inject_serialization.py: the generator -/

/-- `is_optional_type` of S3_inject_serialization.py lines 75-78. -/
def is_optional_type (t : Str) : Bool :=
  occursIn ("optional<".data) (stripL t) || occursIn ("std::optional<".data) (stripL t)

/-- `re.search(r'(?:std::)?optional<(.+)>', t)` of
`extract_inner_type_from_optional` (S3 lines 81-86), case sensitive, with the
stripped capture; no match returns the input unchanged. -/
def extract_inner_type_from_optional (t : Str) : Str :=
  match firstPos
      (fun r =>
        if beginsWith ("std::optional<".data) r then optGroup (r.drop 14)
        else if beginsWith ("optional<".data) r then optGroup (r.drop 9)
        else none) t with
  | some g => stripL g
  | none => t

/-- `primitive_types` of S3 lines 157-159 (same list at each of its four
occurrences in the file). -/
def primitive_types : List Str :=
  [("int".data), ("Int".data), ("CInt".data), ("long".data), ("Long".data), ("CLong".data),
   ("float".data), ("Float".data), ("CFloat".data), ("double".data), ("Double".data),
   ("CDouble".data), ("bool".data), ("Bool".data), ("CBool".data), ("char".data),
   ("Char".data), ("CChar".data), ("unsigned".data), ("UInt".data), ("CUInt".data),
   ("short".data), ("Short".data), ("CShort".data)]

/-- `any(prim in inner_type for prim in primitive_types)`. -/
def is_primitive_inner (inner : Str) : Bool :=
  primitive_types.any fun p => occursIn p inner

/-- Lowercase a string (Python `.lower()`, ASCII). -/
def lowC (s : Str) : Str := s.map Char.toLower

/-- `'StdString' in inner or 'CStdString' in inner or 'string' in inner.lower()`. -/
def is_string_inner (inner : Str) : Bool :=
  occursIn ("StdString".data) inner || occursIn ("CStdString".data) inner ||
    occursIn ("string".data) (lowC inner)

/-- The optional fields of a field list (S3 line 161/309). -/
def optionalFields (fields : List FieldD) : List FieldD :=
  fields.filter fun f => is_optional_type (stripL f.type)

/-- One optional field's block of the `Serialize()` body (S3 lines 166-202). -/
def serFieldBlock (f : FieldD) : List Str :=
  let n := f.name
  let inner := extract_inner_type_from_optional (stripL f.type)
  let isS := is_string_inner inner
  let isP := is_primitive_inner inner
  [("        // Serialize optional field: ".data) ++ n,
   ("        if (".data) ++ n ++ (".has_value()) \x7b".data)] ++
  (if isS then
    [("            doc[\"".data) ++ n ++ ("\"] = ".data) ++ n ++ (".value().c_str();".data)]
   else if isP then
    [("            doc[\"".data) ++ n ++ ("\"] = ".data) ++ n ++ (".value();".data)]
   else
    [("            // Serialize nested object or enum: ".data) ++ n,
     ("            // SerializeValue will use template specialization for enums (returns string like \"Off\")".data),
     ("            // or call .Serialize() for complex objects (returns JSON string)".data),
     ("            StdString ".data) ++ n ++ ("_json = nayan::serializer::SerializeValue(".data) ++ n ++ (".value());".data),
     ("            // Try to parse as JSON object (for complex objects)".data),
     ("            JsonDocument ".data) ++ n ++ ("_doc;".data),
     ("            DeserializationError ".data) ++ n ++ ("_error = deserializeJson(".data) ++ n ++ ("_doc, ".data) ++ n ++ ("_json.c_str());".data),
     ("            if (".data) ++ n ++ ("_error == DeserializationError::Ok && ".data) ++ n ++ ("_doc.is<JsonObject>()) \x7b".data),
     ("                // Complex object - add parsed JSON object".data),
     ("                doc[\"".data) ++ n ++ ("\"] = ".data) ++ n ++ ("_doc.as<JsonObject>();".data),
     ("            \x7d else \x7b".data),
     ("                // Enum (serialized as plain string like \"Off\" or \"On\") - add directly as string value".data),
     ("                // This ensures enums are stored as strings, not integers".data),
     ("                doc[\"".data) ++ n ++ ("\"] = ".data) ++ n ++ ("_json.c_str();".data),
     ("            \x7d".data)]) ++
  [("        \x7d else \x7b".data),
   ("            doc[\"".data) ++ n ++ ("\"] = nullptr;".data),
   ("        \x7d".data)]

/-- The `Serialize()` section (S3 lines 149-211). -/
def serSection (fields : List FieldD) : List Str :=
  [("    // Serialization method".data),
   ("    Public StdString Serialize() const \x7b".data),
   ("        // Create JSON document".data),
   ("        JsonDocument doc;".data),
   ([])] ++
  (if (optionalFields fields).isEmpty then
    [("        // No optional fields to serialize".data)]
   else (optionalFields fields).flatMap serFieldBlock) ++
  [([]),
   ("        // Serialize to string".data),
   ("        StdString output;".data),
   ("        serializeJson(doc, output);".data),
   ([]),
   ("        return StdString(output.c_str());".data),
   ("    \x7d".data),
   ([])]

/-- `qualified_function_name` (S3 lines 262-264). -/
def qualifiedFn (fn : Str) : Str :=
  if beginsWith ("nayan::".data) fn then fn else ("nayan::validation::".data) ++ fn

/-- One validated field's block of `ValidateFields` (S3 lines 229-267). -/
def valFieldBlock (m : Str) (f : VField) : List Str :=
  let n := f.name
  let ft := stripL f.type
  let nested : Option Str :=
    if is_optional_type ft then
      let inner := extract_inner_type_from_optional ft
      if ¬is_primitive_inner inner ∧ ¬is_string_inner inner then some inner else none
    else none
  (match nested with
   | some nt =>
     [("        // First validate nested object: ".data) ++ n,
      ("        if (!doc[\"".data) ++ n ++ ("\"].isNull()) \x7b".data),
      ("            // Extract nested object and convert to JsonDocument for validation".data),
      ("            JsonObject ".data) ++ n ++ ("_obj = doc[\"".data) ++ n ++ ("\"].template as<JsonObject>();".data),
      ("            JsonDocument ".data) ++ n ++ ("_doc;".data),
      ("            // Copy the JsonObject into JsonDocument".data),
      ("            ".data) ++ n ++ ("_doc.set(".data) ++ n ++ ("_obj);".data),
      ("            // Validate nested object's fields".data),
      ("            StdString ".data) ++ n ++ ("_nested_errors = ".data) ++ nt ++ ("::ValidateFields(".data) ++ n ++ ("_doc);".data),
      ("            if (!".data) ++ n ++ ("_nested_errors.empty()) \x7b".data),
      ("                if (!validationErrors.empty()) validationErrors += \",\\n\";".data),
      ("                validationErrors += \"Validation errors in nested object '".data) ++ n ++ ("': \";".data),
      ("                validationErrors += ".data) ++ n ++ ("_nested_errors;".data),
      ("            \x7d".data),
      ("        \x7d".data),
      ([])]
   | none => []) ++
  [("        // Validate ".data) ++ m ++ (" field: ".data) ++ n,
   ("        ".data) ++ qualifiedFn f.function_name ++ ("(doc, \"".data) ++ n ++ ("\", validationErrors);".data)]

/-- The `ValidateFields` section (S3 lines 213-275). -/
def valSection (vmap : VMap) : List Str :=
  [("        // Validation method for all validation macros".data),
   ("        #pragma GCC diagnostic push".data),
   ("        #pragma GCC diagnostic ignored \"-Wunused-parameter\"".data),
   ("        Public template<typename DocType>".data),
   ("        Static StdString ValidateFields(DocType& doc) \x7b".data),
   ("        StdString validationErrors;".data),
   ([])] ++
  (if vmap.isEmpty then [("        // No validation macros defined for this class".data)]
   else vmap.flatMap fun p => p.2.flatMap (valFieldBlock p.1)) ++
  [([]),
   ("        return validationErrors;".data),
   ("    \x7d".data),
   ("        #pragma GCC diagnostic pop".data),
   ([])]

/-- `validated_field_names` membership (S3 lines 311-314). -/
def isValidatedName (vmap : VMap) (n : Str) : Bool :=
  vmap.any fun p => p.2.any fun f => f.name = n

/-- The macros listing a field, joined with `+` (S3 lines 329-333). -/
def joinPlus : List Str → Str
  | [] => []
  | [x] => x
  | x :: r => x ++ '+' :: joinPlus r

/-- `validation_desc` of a validated field (S3 line 333). -/
def descOf (vmap : VMap) (n : Str) : Str :=
  let ms := vmap.filterMap fun p => if p.2.any (fun f => f.name = n) then some p.1 else none
  if ms.isEmpty then ("validated".data) else joinPlus ms

/-- `'bool' in inner.lower() or 'Bool' in inner` and the analogous tests of
S3 lines 338-347. -/
def innerBool (inner : Str) : Bool :=
  occursIn ("bool".data) (lowC inner) || occursIn ("Bool".data) inner

def innerInt (inner : Str) : Bool :=
  occursIn ("int".data) (lowC inner) || occursIn ("Int".data) inner

def innerFloat (inner : Str) : Bool :=
  occursIn ("float".data) (lowC inner) || occursIn ("Float".data) inner

def innerDouble (inner : Str) : Bool :=
  occursIn ("double".data) (lowC inner) || occursIn ("Double".data) inner

def innerChar (inner : Str) : Bool :=
  occursIn ("char".data) (lowC inner) || occursIn ("Char".data) inner

/-- The primitive-assignment line chosen by the `bool/int/float/double/char`
cascade of the `Deserialize` body (S3 lines 337-349 and 370-382), with the
given indentation. -/
def desPrimLine (ind : Str) (n inner : Str) : Str :=
  if innerBool inner then ind ++ ("obj.".data) ++ n ++ (" = doc[\"".data) ++ n ++ ("\"].as<bool>();".data)
  else if innerInt inner then ind ++ ("obj.".data) ++ n ++ (" = doc[\"".data) ++ n ++ ("\"].as<int>();".data)
  else if innerFloat inner then ind ++ ("obj.".data) ++ n ++ (" = doc[\"".data) ++ n ++ ("\"].as<float>();".data)
  else if innerDouble inner then ind ++ ("obj.".data) ++ n ++ (" = doc[\"".data) ++ n ++ ("\"].as<double>();".data)
  else if innerChar inner then ind ++ ("obj.".data) ++ n ++ (" = doc[\"".data) ++ n ++ ("\"].as<char>();".data)
  else ind ++ ("obj.".data) ++ n ++ (" = doc[\"".data) ++ n ++ ("\"].as<".data) ++ inner ++ (">();".data)

/-- One optional field's block of the `Deserialize` body (S3 lines 319-398):
a field named in the validation map is assigned unconditionally (it was
already validated), any other optional field behind an `isNull` guard. -/
def desFieldBlock (vmap : VMap) (f : FieldD) : List Str :=
  let n := f.name
  let inner := extract_inner_type_from_optional (stripL f.type)
  let isS := is_string_inner inner
  let isP := is_primitive_inner inner
  if isValidatedName vmap n then
    [("        // Deserialize ".data) ++ descOf vmap n ++ (" field: ".data) ++ n ++ (" (already validated)".data)] ++
    (if isS then
      [("        obj.".data) ++ n ++ (" = StdString(doc[\"".data) ++ n ++ ("\"].as<const char*>());".data)]
     else if isP then [desPrimLine ("        ".data) n inner]
     else
      [("        // Deserialize nested object or enum: ".data) ++ n,
       ("        StdString ".data) ++ n ++ ("_json;".data),
       ("        if (doc[\"".data) ++ n ++ ("\"].is<const char*>()) \x7b".data),
       ("            // Enum or string value - extract directly".data),
       ("            ".data) ++ n ++ ("_json = StdString(doc[\"".data) ++ n ++ ("\"].as<const char*>());".data),
       ("        \x7d else \x7b".data),
       ("            // Complex object - serialize to JSON string".data),
       ("            JsonObject ".data) ++ n ++ ("_obj = doc[\"".data) ++ n ++ ("\"].as<JsonObject>();".data),
       ("            serializeJson(".data) ++ n ++ ("_obj, ".data) ++ n ++ ("_json);".data),
       ("        \x7d".data),
       ("        obj.".data) ++ n ++ (" = nayan::serializer::DeserializeValue<".data) ++ inner ++ (">(".data) ++ n ++ ("_json);".data)])
  else
    [("        // Deserialize optional field: ".data) ++ n,
     ("        if (!doc[\"".data) ++ n ++ ("\"].isNull()) \x7b".data)] ++
    (if isS then
      [("            obj.".data) ++ n ++ (" = StdString(doc[\"".data) ++ n ++ ("\"].as<const char*>());".data)]
     else if isP then [desPrimLine ("            ".data) n inner]
     else
      [("            // Deserialize nested object or enum: ".data) ++ n,
       ("            StdString ".data) ++ n ++ ("_json;".data),
       ("            if (doc[\"".data) ++ n ++ ("\"].is<const char*>()) \x7b".data),
       ("                // Enum or string value - extract directly".data),
       ("                ".data) ++ n ++ ("_json = StdString(doc[\"".data) ++ n ++ ("\"].as<const char*>());".data),
       ("            \x7d else \x7b".data),
       ("                // Complex object - serialize to JSON string".data),
       ("                JsonObject ".data) ++ n ++ ("_obj = doc[\"".data) ++ n ++ ("\"].as<JsonObject>();".data),
       ("                serializeJson(".data) ++ n ++ ("_obj, ".data) ++ n ++ ("_json);".data),
       ("            \x7d".data),
       ("            obj.".data) ++ n ++ (" = nayan::serializer::DeserializeValue<".data) ++ inner ++ (">(".data) ++ n ++ ("_json);".data)]) ++
    [("        \x7d".data)]

/-- The `Deserialize` section (S3 lines 277-403). -/
def desSection (cls : Str) (fields : List FieldD) (vmap : VMap) : List Str :=
  [("    // Deserialization method".data),
   ("    Public Static ".data) ++ cls ++ (" Deserialize(const StdString& input) \x7b".data),
   ("        // Create JSON document".data),
   ("        JsonDocument doc;".data),
   ([]),
   ("        // Deserialize JSON string".data),
   ("        DeserializationError error = deserializeJson(doc, input.c_str());".data),
   ([]),
   ("        if (error) \x7b".data),
   ("            StdString errorMsg = \"JSON parse error: \";".data),
   ("            errorMsg += error.c_str();".data),
   ("            throw std::runtime_error(errorMsg.c_str());".data),
   ("        \x7d".data),
   ([]),
   ("        // Validate all fields with validation macros".data),
   ("        StdString validationErrors = ValidateFields(doc);".data),
   ("        if (!validationErrors.empty()) \x7b".data),
   ("            throw std::runtime_error(validationErrors.c_str());".data),
   ("        \x7d".data),
   ([]),
   ("        // Create object with default constructor".data),
   ("        ".data) ++ cls ++ (" obj;".data),
   ([]),
   ("        // Assign values from JSON if present (only optional fields)".data)] ++
  (if (optionalFields fields).isEmpty then
    [("        // No optional fields to deserialize".data)]
   else (optionalFields fields).flatMap (desFieldBlock vmap)) ++
  [([]),
   ("        return obj;".data),
   ("    \x7d".data),
   ([])]

/-- `generate_primary_key_methods` of S3 lines 89-138 (as its line list; the
source joins these lines with newlines and `generate_serialization_methods`
immediately splits them again). -/
def generate_primary_key_methods (cls : Str) (idf : List IdField) : List Str :=
  (match idf with
   | f :: _ =>
     [("    inline ".data) ++ f.type ++ (" GetPrimaryKey() \x7b".data),
      ("        return ".data) ++ f.name ++ (";".data),
      ("    \x7d".data),
      ([]),
      ("    inline Static StdString GetPrimaryKeyName() \x7b".data),
      ("        return \"".data) ++ f.name ++ ("\";".data),
      ("    \x7d".data)]
   | [] =>
     [("    inline int GetPrimaryKey() \x7b".data),
      ("        return 0;".data),
      ("    \x7d".data),
      ([]),
      ("    inline Static StdString GetPrimaryKeyName() \x7b".data),
      ("        return \"\";".data),
      ("    \x7d".data)]) ++
  [([]),
   ("    inline Static StdString GetTableName() \x7b".data),
   ("        return \"".data) ++ cls ++ ("\";".data),
   ("    \x7d".data)]

/-- `generate_serialization_methods` of S3 lines 141-412, as the list of
generated lines (`code_lines`; the source returns their newline-join, and the
injector splits on newlines again — no generated line contains a newline). -/
def generate_serialization_methods (cls : Str) (fields : List FieldD) (vmap : VMap)
    (idf : List IdField) : List Str :=
  serSection fields ++ valSection vmap ++ desSection cls fields vmap ++
    [("    // Primary key methods".data)] ++ generate_primary_key_methods cls idf

/-! ## S3: include handling and the injector -/

/-- `check_include_exists` of S3 lines 32-39: a plain/`<>`/`""` substring
check on the file content.  The searched strings contain no newline, so an
occurrence in the newline-joined content is an occurrence inside a single
line. -/
def check_include_exists (lines : Doc) (pat : Str) : Bool :=
  lines.any fun l =>
    occursIn pat l || occursIn ('<' :: (pat ++ ['>'])) l ||
      occursIn ('"' :: (pat ++ ['"'])) l

/-- Last index whose stripped line starts with `#include` (S3 lines 51-55). -/
def lastIncludeIdx (lines : Doc) : Option Nat :=
  match lines.reverse.findIdx? (fun l => beginsWith ("#include".data) (stripL l)) with
  | some k => some (lines.length - 1 - k)
  | none => none

/-- First index whose stripped line starts with `#define` and whose raw line
contains `_H` (S3 lines 62-63). -/
def firstDefineHIdx (lines : Doc) : Option Nat :=
  lines.findIdx? fun l =>
    beginsWith ("#define".data) (stripL l) && occursIn ("_H".data) l

/-- `add_include_if_needed` of S3 lines 42-72: no-op when the include (with
angle/quote delimiters removed) already occurs; otherwise the include line is
inserted after the last `#include`, or after the header-guard `#define`, or
nowhere. -/
def add_include_if_needed (lines : Doc) (incl : Str) : Doc :=
  let pat := incl.filter fun c => ¬(c = '<' ∨ c = '>' ∨ c = '"')
  if check_include_exists lines pat then lines
  else
    let inclLine := ("#include ".data) ++ incl
    match lastIncludeIdx lines with
    | some i => lines.take (i + 1) ++ [inclLine] ++ lines.drop (i + 1)
    | none =>
      match firstDefineHIdx lines with
      | some i => lines.take (i + 1) ++ [inclLine] ++ lines.drop (i + 1)
      | none => lines

/-- Is line `i` a non-blank, non-`//`, non-`/*` line (S3 line 499)? -/
def isCodeLine (lines : Doc) (i : Nat) : Bool :=
  let st := stripL ((lines[i]?).getD [])
  ¬(st = []) && ¬beginsWith ("//".data) st && ¬beginsWith ("/*".data) st

/-- The backwards scan of S3 lines 497-501: from `hi` down to `lo`, the first
(i.e. highest) code line `i` yields insertion index `i + 1`. -/
def injDown (lines : Doc) (lo : Nat) : Nat → Option Nat
  | 0 => if lo = 0 then (if isCodeLine lines 0 then some 1 else none) else none
  | h + 1 =>
    if lo ≤ h + 1 then
      (if isCodeLine lines (h + 1) then some (h + 2) else injDown lines lo h)
    else none

/-- `insert_idx` of `inject_methods_into_class` (S3 lines 496-501): the scan
runs over `range(closing_line_idx - 1, start_line - 2, -1)`, which is empty
when the span is a single line (`e = s`), and defaults to the closing line's
index. -/
def injInsertIdx (lines : Doc) (s e : Nat) : Nat :=
  if s < e then
    match injDown lines (s - 1) (e - 2) with
    | some v => v
    | none => e - 1
  else e - 1

/-- The already-injected guard of S3 lines 489-491 on the class lines. -/
def injGuard (classLines : Doc) : Bool :=
  (classLines.any fun l => occursIn ("Serialize()".data) l) &&
    (classLines.any fun l => occursIn ("Deserialize(".data) l) &&
      (classLines.any fun l => occursIn ("GetPrimaryKey()".data) l)

/-- The indentation of S3 lines 504-508: the leading whitespace of the line
before the insertion point when there is one (a newline-terminated line is
always truthy in the source's `lines[insert_idx - 1]` test), else four
spaces. -/
def injIndent (lines : Doc) (insertIdx : Nat) : Str :=
  if 0 < insertIdx then
    let prev := (lines[insertIdx - 1]?).getD []
    let k := leadingWsLen prev
    if 0 < k then prev.take k else ("    ".data)
  else ("    ".data)

/-- `inject_methods_into_class` of S3 lines 474-524 (pure part): `none` is
failure (unreadable file is not modelled here — the pipeline re-reads the
same content), `some` the possibly rewritten lines.  The guard case returns
the lines unchanged (the source returns `True` without writing). -/
def inject_methods_into_class (lines : Doc) (cls : Str) (mlines : List Str) : Option Doc :=
  match find_class_boundaries_core lines cls with
  | none => none
  | some (s, e) =>
    if injGuard ((lines.drop (s - 1)).take (e + 1 - s)) then some lines
    else
      let k := injInsertIdx lines s e
      let ind := injIndent lines k
      let indented := mlines.map fun ml => if ¬(stripL ml).isEmpty then ind ++ ml else []
      some (lines.take k ++ ([] :: indented) ++ lines.drop k)

/-! ## serialization/00_process_serializable_classes.py: the per-file pipeline -/

/-- The per-file Entity pipeline of
00_process_serializable_classes.py lines 238-292 (the enum path S8 is absent:
that module is loaded from a sibling library and is `None` here), with the
validation-macro table passed explicitly (the source discovers it once per
run via S6 from the project files) and the annotation fixed to the default
`@Entity`.  Steps: detect the first annotated class; extract its fields,
validation fields and `@Id` fields; generate the method text; add the
`<optional>` include when an optional field exists; inject; on success mark
the annotation processed. -/
def pipeline (vt : VTable) (lines : Doc) : Doc :=
  match check_dto_annot lines ("@Entity".data) with
  | none => lines
  | some (cls, _, _) =>
    let fields := extract_all_fields lines cls
    let vmap :=
      match extract_validation_fields (some lines) cls vt with
      | Except.ok m => m
      | Except.error _ => []
    let idf := extract_id_fields lines cls vt
    let mcode := generate_serialization_methods cls fields vmap idf
    let lines1 :=
      if ¬(optionalFields fields).isEmpty then add_include_if_needed lines ("<optional>".data)
      else lines
    match inject_methods_into_class lines1 cls mcode with
    | none => lines1
    | some lines2 => mark_dto_annot_processed lines2 ("@Entity".data)

/-! ## C9: the injector's insertion point and frame -/

/-- A three-line class whose closing line `};` is itself a code line. -/
def c9File : Doc := [("class A \x7b".data), ("    int x;".data), ("\x7d;".data)]

/-- The lines actually produced by the injector on `c9File`. -/
def c9Out : Doc :=
  [("class A \x7b".data), ("    int x;".data), [], ("    M();".data), ("\x7d;".data)]

/-- The backwards scan of S3 lines 497-501 characterized: a successful scan
returns `i + 1` for the highest code line `i` in `[lo, h]`. -/
theorem injDown_some_spec (lines : Doc) (lo : Nat) :
    ∀ h v, injDown lines lo h = some v →
      ∃ i, v = i + 1 ∧ lo ≤ i ∧ i ≤ h ∧ isCodeLine lines i = true ∧
        ∀ j, i < j → j ≤ h → isCodeLine lines j = false := by
  intro h
  induction h with
  | zero =>
    intro v hv
    by_cases hlo : lo = 0
    · subst hlo
      by_cases hc : isCodeLine lines 0 = true
      · refine ⟨0, ?_, Nat.le_refl 0, Nat.le_refl 0, hc, ?_⟩
        · simp [injDown, hc] at hv
          omega
        · intro j h1 h2
          omega
      · simp [injDown, hc] at hv
    · simp [injDown, hlo] at hv
  | succ h ih =>
    intro v hv
    by_cases hlo : lo ≤ h + 1
    · by_cases hc : isCodeLine lines (h + 1) = true
      · refine ⟨h + 1, ?_, hlo, Nat.le_refl _, hc, ?_⟩
        · simp [injDown, hlo, hc] at hv
          omega
        · intro j h1 h2
          omega
      · have hv' : injDown lines lo h = some v := by
          simpa [injDown, hlo, hc] using hv
        obtain ⟨i, hvi, hli, hih, hcode, hrest⟩ := ih v hv'
        refine ⟨i, hvi, hli, Nat.le_succ_of_le hih, hcode, ?_⟩
        intro j h1 h2
        rcases Nat.lt_or_ge j (h + 1) with hj | hj
        · exact hrest j h1 (by omega)
        · have : j = h + 1 := by omega
          subst this
          simpa using hc
    · simp [injDown, hlo] at hv

/-- The backwards scan fails exactly when no line of `[lo, h]` is a code
line. -/
theorem injDown_none_spec (lines : Doc) (lo : Nat) :
    ∀ h, injDown lines lo h = none →
      ∀ j, lo ≤ j → j ≤ h → isCodeLine lines j = false := by
  intro h
  induction h with
  | zero =>
    intro hv j h1 h2
    have hj : j = 0 := by omega
    subst hj
    by_cases hlo : lo = 0
    · subst hlo
      by_cases hc : isCodeLine lines 0 = true
      · simp [injDown, hc] at hv
      · simpa using hc
    · omega
  | succ h ih =>
    intro hv j h1 h2
    by_cases hlo : lo ≤ h + 1
    · by_cases hc : isCodeLine lines (h + 1) = true
      · simp [injDown, hlo, hc] at hv
      · rcases Nat.lt_or_ge j (h + 1) with hj | hj
        · have hv' : injDown lines lo h = none := by
            simpa [injDown, hlo, hc] using hv
          exact ih hv' j h1 (by omega)
        · have : j = h + 1 := by omega
          subst this
          simpa using hc
    · omega

/-- C9 counterexample: the claim places the insertion "immediately after the
last non-blank, non-comment line at or before the span's closing line".  On
`c9File` the closing line `};` (line 3) is itself such a line, so the claimed
position is after line 3 and the first three lines would be preserved; the
scan of S3 line 497 runs over `range(closing_line_idx - 1, start_line - 2,
-1)`, i.e. only lines strictly before the closing line, so the text (with its
preceding blank line) lands before `};` and the third output line is blank. -/
theorem c9_counterexample :
    inject_methods_into_class c9File ("A".data) [("M();".data)] = some c9Out ∧
    c9Out.take 3 ≠ c9File := by
  constructor
  · decide
  · decide

/-- C9 (amended): when the injector succeeds on a located class span (and the
already-injected guard does not fire), the output is exactly the original
lines with a blank line followed by the reindented method lines spliced in at
the insertion index — everything before and after is preserved in order —
and that index is characterized by the source's scan
`range(closing_line_idx - 1, start_line - 2, -1)`: it is `i + 1` for the last
non-blank, non-comment line `i` STRICTLY BEFORE the closing line (within the
span), or the closing line's own index when no such line exists or the span
is a single line.  The original claim's "at or before the span's closing
line" is corrected to "strictly before". -/
theorem c9_injector_frame_amended (lines : Doc) (cls : Str) (mlines : List Str)
    (out : Doc) (s e : Nat)
    (hb : find_class_boundaries_core lines cls = some (s, e))
    (hg : injGuard ((lines.drop (s - 1)).take (e + 1 - s)) = false)
    (h : inject_methods_into_class lines cls mlines = some out) :
    ∃ k, k = injInsertIdx lines s e ∧
      out = lines.take k ++
        ([] :: mlines.map fun ml =>
          if ¬(stripL ml).isEmpty then injIndent lines k ++ ml else []) ++
        lines.drop k ∧
      ((s < e ∧ ∃ i, k = i + 1 ∧ s - 1 ≤ i ∧ i ≤ e - 2 ∧ isCodeLine lines i = true ∧
          ∀ j, i < j → j ≤ e - 2 → isCodeLine lines j = false) ∨
       (k = e - 1 ∧ (s < e → ∀ j, s - 1 ≤ j → j ≤ e - 2 → isCodeLine lines j = false))) := by
  simp only [inject_methods_into_class, hb, hg, Bool.false_eq_true, if_false] at h
  refine ⟨injInsertIdx lines s e, rfl, (Option.some_inj.mp h).symm, ?_⟩
  by_cases hse : s < e
  · cases hd : injDown lines (s - 1) (e - 2) with
    | some v =>
      left
      refine ⟨hse, ?_⟩
      have hk : injInsertIdx lines s e = v := by
        simp [injInsertIdx, hse, hd]
      rw [hk]
      exact injDown_some_spec lines (s - 1) (e - 2) v hd
    | none =>
      right
      constructor
      · simp [injInsertIdx, hse, hd]
      · intro _
        exact injDown_none_spec lines (s - 1) (e - 2) hd
  · right
    constructor
    · simp [injInsertIdx, hse]
    · intro hc
      exact absurd hc hse

/-- C9 witness: the amended frame theorem applied to the concrete `c9File`,
with every hypothesis discharged by evaluation. -/
theorem c9_injector_frame_amended_witness :
    find_class_boundaries_core c9File ("A".data) = some (1, 3) ∧
    injGuard ((c9File.drop (1 - 1)).take (3 + 1 - 1)) = false ∧
    inject_methods_into_class c9File ("A".data) [("M();".data)] = some c9Out ∧
    (∃ k, k = injInsertIdx c9File 1 3 ∧
      c9Out = c9File.take k ++
        ([] :: ([("M();".data)] : List Str).map fun ml =>
          if ¬(stripL ml).isEmpty then injIndent c9File k ++ ml else []) ++
        c9File.drop k ∧
      ((1 < 3 ∧ ∃ i, k = i + 1 ∧ 1 - 1 ≤ i ∧ i ≤ 3 - 2 ∧ isCodeLine c9File i = true ∧
          ∀ j, i < j → j ≤ 3 - 2 → isCodeLine c9File j = false) ∨
       (k = 3 - 1 ∧ (1 < 3 → ∀ j, 1 - 1 ≤ j → j ≤ 3 - 2 → isCodeLine c9File j = false)))) :=
  ⟨by decide, by decide, by decide,
    c9_injector_frame_amended c9File ("A".data) [("M();".data)] c9Out 1 3
      (by decide) (by decide) (by decide)⟩

/-! ## C7: generator field exclusion -/

/-- Two fields, one plain and one optional-wrapped, used in the concrete part
of C7. -/
def c7Fields : List FieldD :=
  [⟨("int".data), ("ssn".data)⟩, ⟨("std::optional<int>".data), ("age".data)⟩]

theorem take_append_le {p a : Str} {k : Nat} (hk : k ≤ p.length) :
    (p ++ a).take k = p.take k := by
  conv_lhs => rw [← List.take_append_drop k p]
  rw [List.append_assoc]
  exact List.take_left' (by simp [List.length_take]; omega)

/-- Two appends with incompatible prefixes are different lists. -/
theorem take_clash {p q a b : Str} (k : Nat) (h : p ++ a = q ++ b)
    (hk1 : k ≤ p.length) (hk2 : k ≤ q.length) (hne : p.take k ≠ q.take k) : False := by
  apply hne
  rw [← take_append_le hk1, ← take_append_le hk2, h]

/-- An append whose left part is not the corresponding prefix of a fixed list
is different from it. -/
theorem fixed_clash {p a L : Str} (h : p ++ a = L) (hne : L.take p.length ≠ p) : False := by
  apply hne
  rw [← h, List.take_left]

/-- `qualified_function_name` always yields a string starting with `n`
(either the name already starts with `nayan::` or that prefix is added). -/
theorem qualifiedFn_head (fn : Str) : ∃ t, qualifiedFn fn = 'n' :: t := by
  unfold qualifiedFn
  by_cases hb : beginsWith ("nayan::".data) fn = true
  · rw [if_pos hb]
    obtain ⟨t, ht⟩ := (beginsWith_iff _ fn).mp hb
    exact ⟨("ayan::".data) ++ t, by rw [ht]; rfl⟩
  · rw [if_neg hb]
    exact ⟨_, rfl⟩

theorem optionalFields_idem (fields : List FieldD) :
    optionalFields (optionalFields fields) = optionalFields fields := by
  simp [optionalFields, List.filter_filter]

/-- Dropping a common-length prefix from both sides of an append equation. -/
theorem drop_append_le {p a : Str} {k : Nat} (hk : k ≤ p.length) :
    (p ++ a).drop k = p.drop k ++ a := by
  conv_lhs => rw [← List.take_append_drop k p]
  rw [List.append_assoc]
  exact List.drop_left' (by simp [List.length_take]; omega)

/-- Cancel a leading literal of an append equation. -/
theorem lit_cancel {P q a b : Str} (h : P ++ a = q ++ b) (hk : q.length ≤ P.length) :
    P.drop q.length ++ a = b := by
  have h2 := congrArg (List.drop q.length) h
  rwa [drop_append_le hk, List.drop_left] at h2

/-- Two appends whose visible head characters differ are different lists. -/
theorem head_clash {d c : Char} {p t a b : Str} (h : (d :: p) ++ a = (c :: t) ++ b)
    (hne : d ≠ c) : False := by
  simp only [List.cons_append] at h
  injection h with h1 _
  exact hne h1

/-- Every branch of the primitive-assignment cascade produces
`ind ++ "obj." ++ name ++ ...`. -/
theorem desPrimLine_shape (ind n inner : Str) :
    ∃ t, desPrimLine ind n inner = ind ++ (("obj.".data) ++ (n ++ t)) := by
  unfold desPrimLine
  by_cases h1 : innerBool inner = true
  · rw [if_pos h1]
    exact ⟨(" = doc[\"".data) ++ (n ++ ("\"].as<bool>();".data)), by simp [List.append_assoc]⟩
  · rw [if_neg h1]
    by_cases h2 : innerInt inner = true
    · rw [if_pos h2]
      exact ⟨(" = doc[\"".data) ++ (n ++ ("\"].as<int>();".data)), by simp [List.append_assoc]⟩
    · rw [if_neg h2]
      by_cases h3 : innerFloat inner = true
      · rw [if_pos h3]
        exact ⟨(" = doc[\"".data) ++ (n ++ ("\"].as<float>();".data)),
          by simp [List.append_assoc]⟩
      · rw [if_neg h3]
        by_cases h4 : innerDouble inner = true
        · rw [if_pos h4]
          exact ⟨(" = doc[\"".data) ++ (n ++ ("\"].as<double>();".data)),
            by simp [List.append_assoc]⟩
        · rw [if_neg h4]
          by_cases h5 : innerChar inner = true
          · rw [if_pos h5]
            exact ⟨(" = doc[\"".data) ++ (n ++ ("\"].as<char>();".data)),
              by simp [List.append_assoc]⟩
          · rw [if_neg h5]
            exact ⟨(" = doc[\"".data) ++
                (n ++ (("\"].as<".data) ++ (inner ++ (">();".data)))),
              by simp [List.append_assoc]⟩

/-- No line of a `ValidateFields` field block is a `Serialize optional field`
comment line. -/
theorem c7_not_in_valFieldBlock (m : Str) (f : VField) (n : Str) :
    (("        // Serialize optional field: ".data) ++ n) ∉ valFieldBlock m f := by
  intro h
  simp only [valFieldBlock] at h
  rcases List.mem_append.mp h with h1 | h2
  · split at h1
    · simp only [List.mem_cons, List.not_mem_nil, or_false, List.append_assoc] at h1
      rcases h1 with e|e|e|e|e|e|e|e|e|e|e|e|e|e|e|e
      <;> first
        | exact fixed_clash e (by decide)
        | exact take_clash 9 e (by decide) (by decide) (by decide)
        | exact take_clash 12 e (by decide) (by decide) (by decide)
    · simp at h1
  · simp only [List.mem_cons, List.not_mem_nil, or_false, List.append_assoc] at h2
    rcases h2 with e|e
    · exact take_clash 12 e (by decide) (by decide) (by decide)
    · have e' := lit_cancel e (by decide)
      obtain ⟨t, ht⟩ := qualifiedFn_head f.function_name
      rw [ht] at e'
      exact head_clash e' (by decide)

/-- No line of a `Deserialize` field block is a `Serialize optional field`
comment line. -/
theorem c7_not_in_desFieldBlock (vmap : VMap) (f : FieldD) (n : Str) :
    (("        // Serialize optional field: ".data) ++ n) ∉ desFieldBlock vmap f := by
  intro h
  simp only [desFieldBlock] at h
  split at h
  · rcases List.mem_append.mp h with h1 | h2
    · simp only [List.mem_cons, List.not_mem_nil, or_false, List.append_assoc] at h1
      exact take_clash 12 h1 (by decide) (by decide) (by decide)
    · split at h2
      · simp only [List.mem_cons, List.not_mem_nil, or_false, List.append_assoc] at h2
        exact take_clash 9 h2 (by decide) (by decide) (by decide)
      · split at h2
        · simp only [List.mem_cons, List.not_mem_nil, or_false] at h2
          obtain ⟨t, ht⟩ := desPrimLine_shape ("        ".data) f.name
            (extract_inner_type_from_optional (stripL f.type))
          rw [ht] at h2
          exact head_clash (lit_cancel h2 (by decide)) (by decide)
        · simp only [List.mem_cons, List.not_mem_nil, or_false, List.append_assoc] at h2
          rcases h2 with e|e|e|e|e|e|e|e|e|e|e
          <;> first
            | exact fixed_clash e (by decide)
            | exact take_clash 9 e (by decide) (by decide) (by decide)
            | exact take_clash 12 e (by decide) (by decide) (by decide)
  · rcases List.mem_append.mp h with h12 | h3
    · rcases List.mem_append.mp h12 with h1 | h2
      · simp only [List.mem_cons, List.not_mem_nil, or_false, List.append_assoc] at h1
        rcases h1 with e|e
        · exact take_clash 12 e (by decide) (by decide) (by decide)
        · exact take_clash 9 e (by decide) (by decide) (by decide)
      · split at h2
        · simp only [List.mem_cons, List.not_mem_nil, or_false, List.append_assoc] at h2
          exact take_clash 9 h2 (by decide) (by decide) (by decide)
        · split at h2
          · simp only [List.mem_cons, List.not_mem_nil, or_false] at h2
            obtain ⟨t, ht⟩ := desPrimLine_shape ("            ".data) f.name
              (extract_inner_type_from_optional (stripL f.type))
            rw [ht] at h2
            exact take_clash 9 h2 (by decide) (by decide) (by decide)
          · simp only [List.mem_cons, List.not_mem_nil, or_false, List.append_assoc] at h2
            rcases h2 with e|e|e|e|e|e|e|e|e|e|e
            <;> first
              | exact fixed_clash e (by decide)
              | exact take_clash 9 e (by decide) (by decide) (by decide)
              | exact take_clash 12 e (by decide) (by decide) (by decide)
    · simp only [List.mem_cons, List.not_mem_nil, or_false] at h3
      exact fixed_clash h3 (by decide)

/-- No line of the `ValidateFields` section is a `Serialize optional field`
comment line. -/
theorem c7_not_in_valSection (vmap : VMap) (n : Str) :
    (("        // Serialize optional field: ".data) ++ n) ∉ valSection vmap := by
  intro h
  unfold valSection at h
  rcases List.mem_append.mp h with h12 | h3
  · rcases List.mem_append.mp h12 with h1 | h2
    · simp only [List.mem_cons, List.not_mem_nil, or_false] at h1
      rcases h1 with e|e|e|e|e|e|e
      <;> exact fixed_clash e (by decide)
    · split at h2
      · simp only [List.mem_cons, List.not_mem_nil, or_false] at h2
        exact fixed_clash h2 (by decide)
      · obtain ⟨p, hp, hline⟩ := List.mem_flatMap.mp h2
        obtain ⟨f, hf, hl⟩ := List.mem_flatMap.mp hline
        exact c7_not_in_valFieldBlock p.1 f n hl
  · simp only [List.mem_cons, List.not_mem_nil, or_false] at h3
    rcases h3 with e|e|e|e|e
    <;> exact fixed_clash e (by decide)

/-- No line of the `Deserialize` section is a `Serialize optional field`
comment line (the class name is an identifier). -/
theorem c7_not_in_desSection (cls : Str) (fields : List FieldD) (vmap : VMap) (n : Str)
    (Hcls : ∀ c ∈ cls, isIdentC c = true) :
    (("        // Serialize optional field: ".data) ++ n) ∉ desSection cls fields vmap := by
  intro h
  unfold desSection at h
  rcases List.mem_append.mp h with h12 | h3
  · rcases List.mem_append.mp h12 with h1 | h2
    · simp only [List.mem_cons, List.not_mem_nil, or_false, List.append_assoc] at h1
      rcases h1 with e|e|e|e|e|e|e|e|e|e|e|e|e|e|e|e|e|e|e|e|e|ecls|e|e
      all_goals first
        | exact fixed_clash e (by decide)
        | exact take_clash 5 e (by decide) (by decide) (by decide)
        | skip
      have e' := lit_cancel ecls (by decide)
      cases cls with
      | nil =>
        simp only [List.nil_append] at e'
        exact fixed_clash e' (by decide)
      | cons c cs =>
        have hc := Hcls c (List.mem_cons_self c cs)
        refine head_clash e' ?_
        intro hdc
        rw [← hdc] at hc
        exact absurd hc (by decide)
    · split at h2
      · simp only [List.mem_cons, List.not_mem_nil, or_false] at h2
        exact fixed_clash h2 (by decide)
      · obtain ⟨f, hf, hl⟩ := List.mem_flatMap.mp h2
        exact c7_not_in_desFieldBlock vmap f n hl
  · simp only [List.mem_cons, List.not_mem_nil, or_false] at h3
    rcases h3 with e|e|e|e
    <;> exact fixed_clash e (by decide)

/-- No line of the primary-key section is a `Serialize optional field`
comment line. -/
theorem c7_not_in_pk (cls : Str) (idf : List IdField) (n : Str) :
    (("        // Serialize optional field: ".data) ++ n) ∉
      generate_primary_key_methods cls idf := by
  intro h
  unfold generate_primary_key_methods at h
  rcases List.mem_append.mp h with h1 | h2
  · cases idf with
    | nil =>
      simp only [List.mem_cons, List.not_mem_nil, or_false] at h1
      rcases h1 with e|e|e|e|e|e|e
      <;> exact fixed_clash e (by decide)
    | cons f r =>
      simp only [List.mem_cons, List.not_mem_nil, or_false, List.append_assoc] at h1
      rcases h1 with e|e|e|e|e|e|e
      <;> first
        | exact fixed_clash e (by decide)
        | exact take_clash 5 e (by decide) (by decide) (by decide)
        | exact take_clash 9 e (by decide) (by decide) (by decide)
  · simp only [List.mem_cons, List.not_mem_nil, or_false, List.append_assoc] at h2
    rcases h2 with e|e|e|e
    <;> first
      | exact fixed_clash e (by decide)
      | exact take_clash 9 e (by decide) (by decide) (by decide)

/-- A `Serialize optional field` comment line in the `Serialize()` section
names an optional field. -/
theorem c7_in_serSection (fields : List FieldD) (n : Str)
    (h : (("        // Serialize optional field: ".data) ++ n) ∈ serSection fields) :
    ∃ f, f ∈ fields ∧ f.name = n ∧ is_optional_type (stripL f.type) = true := by
  unfold serSection at h
  rcases List.mem_append.mp h with h12 | h3
  · rcases List.mem_append.mp h12 with h1 | h2
    · simp only [List.mem_cons, List.not_mem_nil, or_false] at h1
      rcases h1 with e|e|e|e|e
      <;> exact (fixed_clash e (by decide)).elim
    · split at h2
      · simp only [List.mem_cons, List.not_mem_nil, or_false] at h2
        exact (fixed_clash h2 (by decide)).elim
      · obtain ⟨f, hf, hl⟩ := List.mem_flatMap.mp h2
        simp only [serFieldBlock] at hl
        rcases List.mem_append.mp hl with hl12 | hl3
        · rcases List.mem_append.mp hl12 with hl1 | hl2
          · simp only [List.mem_cons, List.not_mem_nil, or_false, List.append_assoc] at hl1
            rcases hl1 with e|e
            · have hn := List.append_cancel_left e
              unfold optionalFields at hf
              obtain ⟨hmem, hopt⟩ := List.mem_filter.mp hf
              exact ⟨f, hmem, hn.symm, hopt⟩
            · exact (take_clash 9 e (by decide) (by decide) (by decide)).elim
          · split at hl2
            · simp only [List.mem_cons, List.not_mem_nil, or_false, List.append_assoc] at hl2
              exact (take_clash 9 hl2 (by decide) (by decide) (by decide)).elim
            · split at hl2
              · simp only [List.mem_cons, List.not_mem_nil, or_false,
                  List.append_assoc] at hl2
                exact (take_clash 9 hl2 (by decide) (by decide) (by decide)).elim
              · simp only [List.mem_cons, List.not_mem_nil, or_false,
                  List.append_assoc] at hl2
                rcases hl2 with e|e|e|e|e|e|e|e|e|e|e|e|e|e|e
                <;> first
                  | exact (fixed_clash e (by decide)).elim
                  | exact (take_clash 9 e (by decide) (by decide) (by decide)).elim
        · simp only [List.mem_cons, List.not_mem_nil, or_false, List.append_assoc] at hl3
          rcases hl3 with e|e|e
          <;> first
            | exact (fixed_clash e (by decide)).elim
            | exact (take_clash 9 e (by decide) (by decide) (by decide)).elim
  · simp only [List.mem_cons, List.not_mem_nil, or_false] at h3
    rcases h3 with e|e|e|e|e|e|e|e
    <;> exact (fixed_clash e (by decide)).elim

set_option maxRecDepth 40000 in
/-- C7: field exclusion of the serialization generator.  (i) The generated
text depends on the field list only through its optional-wrapped fields:
replacing the field list by its optional-typed sublist produces the identical
output, so non-optional fields never contribute to the `Serialize`/
`Deserialize` bodies.  (ii) Every `// Serialize optional field:` marker line
in the output names an optional-wrapped field of the input list (for an
identifier class name).  (iii) Concretely, for a class with a plain
`int ssn` and an `std::optional<int> age`, no generated line mentions `ssn`
while some line mentions `age`. -/
theorem c7_field_exclusion (cls : Str) (fields : List FieldD) (vmap : VMap)
    (idf : List IdField) (Hcls : ∀ c ∈ cls, isIdentC c = true) :
    generate_serialization_methods cls fields vmap idf =
      generate_serialization_methods cls (optionalFields fields) vmap idf ∧
    (∀ n, (("        // Serialize optional field: ".data) ++ n) ∈
        generate_serialization_methods cls fields vmap idf →
      ∃ f, f ∈ fields ∧ f.name = n ∧ is_optional_type (stripL f.type) = true) ∧
    ((generate_serialization_methods ("Person".data) c7Fields [] []).all
        fun l => !occursIn ("ssn".data) l) = true ∧
    ((generate_serialization_methods ("Person".data) c7Fields [] []).any
        fun l => occursIn ("age".data) l) = true := by
  refine ⟨?_, ?_, by decide, by decide⟩
  · simp only [generate_serialization_methods, serSection, desSection, optionalFields_idem]
  · intro n hmem
    unfold generate_serialization_methods at hmem
    rcases List.mem_append.mp hmem with h4 | hpk
    · rcases List.mem_append.mp h4 with h3 | hhdr
      · rcases List.mem_append.mp h3 with h2 | hdes
        · rcases List.mem_append.mp h2 with hser | hval
          · exact c7_in_serSection fields n hser
          · exact absurd hval (c7_not_in_valSection vmap n)
        · exact absurd hdes (c7_not_in_desSection cls fields vmap n Hcls)
      · simp only [List.mem_cons, List.not_mem_nil, or_false] at hhdr
        exact (fixed_clash hhdr (by decide)).elim
    · exact absurd hpk (c7_not_in_pk cls idf n)

set_option maxRecDepth 40000 in
/-- C7 witness: the exclusion theorem applied at the concrete two-field
class. -/
theorem c7_field_exclusion_witness :
    (∀ c ∈ ("Person".data), isIdentC c = true) ∧
    (generate_serialization_methods ("Person".data) c7Fields [] [] =
      generate_serialization_methods ("Person".data) (optionalFields c7Fields) [] [] ∧
    (∀ n, (("        // Serialize optional field: ".data) ++ n) ∈
        generate_serialization_methods ("Person".data) c7Fields [] [] →
      ∃ f, f ∈ c7Fields ∧ f.name = n ∧ is_optional_type (stripL f.type) = true) ∧
    ((generate_serialization_methods ("Person".data) c7Fields [] []).all
        fun l => !occursIn ("ssn".data) l) = true ∧
    ((generate_serialization_methods ("Person".data) c7Fields [] []).any
        fun l => occursIn ("age".data) l) = true) :=
  ⟨by decide, c7_field_exclusion ("Person".data) c7Fields [] [] (by decide)⟩

/-! ## C1: pipeline idempotence — substring infrastructure -/

theorem beginsWith_isPrefix (p s : Str) : beginsWith p s = true ↔ p <+: s := by
  rw [beginsWith_iff]
  constructor
  · rintro ⟨t, rfl⟩
    exact ⟨t, rfl⟩
  · rintro ⟨t, rfl⟩
    exact ⟨t, rfl⟩

theorem occursIn_iff (p : Str) : ∀ s, occursIn p s = true ↔ p <:+: s := by
  intro s
  induction s with
  | nil =>
    simp only [occursIn, beginsWith_isPrefix]
    constructor
    · intro h
      exact h.isInfix
    · intro h
      exact (List.infix_nil.mp h) ▸ List.nil_prefix
  | cons c t ih =>
    simp only [occursIn, Bool.or_eq_true, beginsWith_isPrefix, ih, List.infix_cons_iff]

theorem stripL_isInfix (l : Str) : stripL l <:+: l := by
  have h1 : l.dropWhile isWsC <:+ l := List.dropWhile_suffix _
  have h2 : (l.dropWhile isWsC).reverse.dropWhile isWsC <:+ (l.dropWhile isWsC).reverse :=
    List.dropWhile_suffix _
  have h3 : stripL l <+: l.dropWhile isWsC := by
    have h4 := List.reverse_prefix.mpr h2
    rwa [List.reverse_reverse] at h4
  exact List.infix_iff_prefix_suffix.mpr ⟨l.dropWhile isWsC, h3, h1⟩

theorem anyPos_iff (p : Str → Bool) : ∀ s, anyPos p s = true ↔ ∃ t, t <:+ s ∧ p t = true := by
  intro s
  induction s with
  | nil =>
    simp only [anyPos]
    constructor
    · intro h
      exact ⟨[], List.nil_suffix, h⟩
    · rintro ⟨t, ht, hp⟩
      rwa [List.suffix_nil.mp ht] at hp
  | cons c t ih =>
    simp only [anyPos, Bool.or_eq_true, ih]
    constructor
    · rintro (h | ⟨u, hu, hp⟩)
      · exact ⟨c :: t, List.suffix_refl _, h⟩
      · exact ⟨u, hu.trans (List.suffix_cons c t), hp⟩
    · rintro ⟨u, hu, hp⟩
      rcases List.suffix_cons_iff.mp hu with rfl | hu'
      · exact Or.inl hp
      · exact Or.inr ⟨u, hu', hp⟩

theorem firstPos_some {α : Type} (p : Str → Option α) :
    ∀ s v, firstPos p s = some v → ∃ t, t <:+ s ∧ p t = some v := by
  intro s
  induction s with
  | nil =>
    intro v h
    exact ⟨[], List.nil_suffix, h⟩
  | cons c t ih =>
    intro v h
    simp only [firstPos] at h
    cases hp : p (c :: t) with
    | some r =>
      rw [hp] at h
      have h2 : some r = some v := h
      exact ⟨c :: t, List.suffix_refl _, hp.trans h2⟩
    | none =>
      rw [hp] at h
      have h2 : firstPos p t = some v := h
      obtain ⟨u, hu, hpu⟩ := ih v h2
      exact ⟨u, hu.trans (List.suffix_cons c t), hpu⟩

theorem not_mem_append {c : Char} {a b : Str} (ha : c ∉ a) (hb : c ∉ b) : c ∉ a ++ b := by
  intro h
  rcases List.mem_append.mp h with h | h
  exacts [ha h, hb h]

/-- A two-character substring needs both its characters present. -/
theorem occursIn_two_mem {c1 c2 : Char} {s : Str} (h : occursIn [c1, c2] s = true) :
    c1 ∈ s ∧ c2 ∈ s := by
  have hi := (occursIn_iff _ s).mp h
  have hs := hi.subset
  exact ⟨hs (by simp), hs (by simp)⟩

theorem parseProc_begins {ann s : Str} (h : parseExactProcessed ann s = true) :
    beginsWith ("/*--".data) s = true := by
  unfold parseExactProcessed at h
  by_cases hb : beginsWith ("/*--".data) s = true
  · exact hb
  · rw [if_neg hb] at h
    exact absurd h (by simp)

theorem parseAnnot_begins {ann s : Str} (h : parseExactAnnotLine ann s = true) :
    beginsWith ("/*".data) s = true := by
  unfold parseExactAnnotLine at h
  by_cases hb : beginsWith ("/*".data) s = true
  · exact hb
  · rw [if_neg hb] at h
    exact absurd h (by simp)

theorem annotSearchAt_begins {ann s : Str} (h : annotSearchAt ann s = true) :
    beginsWith ("/*".data) s = true := by
  unfold annotSearchAt at h
  by_cases hb : beginsWith ("/*".data) s = true
  · exact hb
  · rw [if_neg hb] at h
    exact absurd h (by simp)

theorem annot_search_mem {ann s : Str} (h : annot_search ann s = true) :
    '/' ∈ s ∧ '*' ∈ s := by
  obtain ⟨t, ht, hp⟩ := (anyPos_iff _ s).mp h
  have hb := (beginsWith_isPrefix _ t).mp (annotSearchAt_begins hp)
  have hsub := (List.infix_iff_prefix_suffix.mpr ⟨t, hb, ht⟩).subset
  exact ⟨hsub (by decide), hsub (by decide)⟩

/-- An already-processed marker line does not match the unprocessed exact
pattern: after `/*--` the annotation literal `@Entity` cannot match at `--`. -/
theorem procNotAnnot_entity {s : Str} (h : parseExactProcessed ("@Entity".data) s = true) :
    parseExactAnnotLine ("@Entity".data) s = false := by
  obtain ⟨t, ht⟩ := (beginsWith_iff _ s).mp (parseProc_begins h)
  subst ht
  rfl

theorem annot_free_of_safe (s : Str) (hs : '/' ∉ s ∨ '*' ∉ s) :
    annot_search ("@Entity".data) s = false := by
  cases h : annot_search ("@Entity".data) s
  · rfl
  · exfalso
    obtain ⟨hs1, hs2⟩ := annot_search_mem h
    rcases hs with hx | hx
    exacts [hx hs1, hx hs2]

/-- A line without `/` or without `*` is left unchanged by the marker mutator
and cannot contain the annotation pattern. -/
theorem markLine_safe_line (l : Str) (hs : '/' ∉ l ∨ '*' ∉ l) :
    markLine ("@Entity".data) l = l ∧
    annot_search ("@Entity".data) (stripL (markLine ("@Entity".data) l)) = false := by
  have hsub := (stripL_isInfix l).subset
  have hstrip : '/' ∉ stripL l ∨ '*' ∉ stripL l := by
    rcases hs with hx | hx
    · exact Or.inl fun hc => hx (hsub hc)
    · exact Or.inr fun hc => hx (hsub hc)
  have hproc : parseExactProcessed ("@Entity".data) (stripL l) = false := by
    cases h : parseExactProcessed ("@Entity".data) (stripL l)
    · rfl
    · exfalso
      have hps := ((beginsWith_isPrefix _ _).mp (parseProc_begins h)).subset
      rcases hstrip with hx | hx
      · exact hx (hps (by decide))
      · exact hx (hps (by decide))
  have hann : parseExactAnnotLine ("@Entity".data) (stripL l) = false := by
    cases h : parseExactAnnotLine ("@Entity".data) (stripL l)
    · rfl
    · exfalso
      have hps := ((beginsWith_isPrefix _ _).mp (parseAnnot_begins h)).subset
      rcases hstrip with hx | hx
      · exact hx (hps (by decide))
      · exact hx (hps (by decide))
  have hid : markLine ("@Entity".data) l = l := by
    unfold markLine
    rw [if_neg (by simp [hproc]), if_neg (by simp [hann])]
  exact ⟨hid, by rw [hid]; exact annot_free_of_safe _ hstrip⟩

theorem dropWhile_replicate_space (k : Nat) (x : Str) :
    (List.replicate k ' ' ++ x).dropWhile isWsC = x.dropWhile isWsC := by
  induction k with
  | zero => simp
  | succ k ih =>
    have hr : (List.replicate (k + 1) ' ' ++ x) = ' ' :: (List.replicate k ' ' ++ x) := by
      rw [List.replicate_succ, List.cons_append]
    rw [hr, List.dropWhile_cons, if_pos (by decide)]
    exact ih

theorem stripL_replicate_space (k : Nat) (x : Str) :
    stripL (List.replicate k ' ' ++ x) = stripL x := by
  unfold stripL
  rw [dropWhile_replicate_space]

/-- After the marker mutator, a line whose only annotation occurrences were
exact marker lines carries no annotation pattern any more. -/
theorem markLine_annot_free (l : Str)
    (hx : annot_search ("@Entity".data) (stripL l) = true →
      parseExactAnnotLine ("@Entity".data) (stripL l) = true) :
    annot_search ("@Entity".data) (stripL (markLine ("@Entity".data) l)) = false := by
  unfold markLine
  by_cases hp : parseExactProcessed ("@Entity".data) (stripL l) = true
  · rw [if_pos hp]
    cases h : annot_search ("@Entity".data) (stripL l)
    · rfl
    · exact absurd (hx h) (by simp [procNotAnnot_entity hp])
  · rw [if_neg hp]
    by_cases hA : parseExactAnnotLine ("@Entity".data) (stripL l) = true
    · rw [if_pos hA]
      by_cases hh : l.head? = some ' '
      · rw [if_pos hh, stripL_replicate_space]
        decide
      · rw [if_neg hh]
        simp only [List.nil_append]
        decide
    · rw [if_neg hA]
      cases h : annot_search ("@Entity".data) (stripL l)
      · rfl
      · exact absurd (hx h) hA

theorem cdScan_none (all : Doc) :
    ∀ rest n, (∀ l ∈ rest, annot_search ("@Entity".data) (stripL l) = false) →
      cdScan ("@Entity".data) all rest n = none := by
  intro rest
  induction rest with
  | nil => intro n _; rfl
  | cons l r ih =>
    intro n hall
    have ha : annot_search ("@Entity".data) (stripL l) = false :=
      hall l (List.mem_cons_self l r)
    have hr : ∀ l' ∈ r, annot_search ("@Entity".data) (stripL l') = false :=
      fun l' hl' => hall l' (List.mem_cons_of_mem l hl')
    simp only [cdScan]
    split
    · exact ih (n + 1) hr
    · split
      · exact ih (n + 1) hr
      · split
        · exact ih (n + 1) hr
        · split
          · rename_i hannot
            rw [ha] at hannot
            exact absurd hannot (by decide)
          · exact ih (n + 1) hr

/-- When no line of the file contains the annotation pattern, detection
reports nothing. -/
theorem check_none_of_all (lines : Doc)
    (h : ∀ l ∈ lines, annot_search ("@Entity".data) (stripL l) = false) :
    check_dto_annot lines ("@Entity".data) = none :=
  cdScan_none lines lines 1 h

theorem alphaUnd_ident {c : Char} (h : alphaUnd c = true) : isIdentC c = true := by
  simp only [alphaUnd, Bool.or_eq_true] at h
  simp only [isIdentC, Bool.or_eq_true]
  tauto

theorem ident_s2 {c : Char} (h : isIdentC c = true) : s2TypeChar c = true := by
  simp [s2TypeChar, h]

theorem fieldTail_name : ∀ {s nm : Str}, fieldTail s = some nm → ∀ c ∈ nm, isIdentC c = true := by
  intro s nm h c hc
  simp only [fieldTail] at h
  split at h
  · exact absurd h (by simp)
  · split at h
    · split at h
      · exact absurd h (by simp)
      · split at h
        · split at h
          · rename_i d u _ _ _
            rw [Option.some_inj] at h
            subst h
            rcases List.mem_cons.mp hc with rfl | hc2
            · exact alphaUnd_ident (by assumption)
            · exact List.mem_takeWhile_imp hc2
          · rename_i d u _ _ _
            rw [Option.some_inj] at h
            subst h
            rcases List.mem_cons.mp hc with rfl | hc2
            · exact alphaUnd_ident (by assumption)
            · exact List.mem_takeWhile_imp hc2
          · exact absurd h (by simp)
        · exact absurd h (by simp)
    · exact absurd h (by simp)

theorem fieldScan_spec : ∀ (rest acc : Str) {g nm : Str},
    (∀ c ∈ acc, s2TypeChar c = true) → fieldScan acc rest = some (g, nm) →
    (∀ c ∈ g, s2TypeChar c = true) ∧ (∀ c ∈ nm, isIdentC c = true) ∧
      ∃ pre suf, rest = pre ++ suf ∧ g = acc.reverse ++ pre := by
  intro rest
  induction rest with
  | nil =>
    intro acc g nm _ h
    exact absurd h (by simp [fieldScan])
  | cons c t ih =>
    intro acc g nm hacc h
    unfold fieldScan at h
    cases hft : fieldTail (c :: t) with
    | some nm' =>
      rw [hft] at h
      have h2 : some (acc.reverse, nm') = some (g, nm) := h
      rw [Option.some_inj] at h2
      injection h2 with h3 h4
      subst h3
      subst h4
      refine ⟨?_, fieldTail_name hft, [], c :: t, rfl, by simp⟩
      intro x hx
      rw [List.mem_reverse] at hx
      exact hacc x hx
    | none =>
      rw [hft] at h
      have h2 : (if s2TypeChar c = true then fieldScan (c :: acc) t else none) =
          some (g, nm) := h
      split at h2
      · rename_i hsc
        have hacc2 : ∀ x ∈ c :: acc, s2TypeChar x = true := by
          intro x hx
          rcases List.mem_cons.mp hx with rfl | hx2
          exacts [hsc, hacc x hx2]
        obtain ⟨hg, hnm, pre, suf, hts, hgs⟩ := ih (c :: acc) hacc2 h2
        refine ⟨hg, hnm, c :: pre, suf, by rw [hts]; rfl, ?_⟩
        rw [hgs]
        simp
      · exact absurd h2 (by simp)

theorem fieldCore_spec {r g1 g2 : Str} (h : fieldCore r = some (g1, g2)) :
    (∀ c ∈ g1, s2TypeChar c = true) ∧ (∀ c ∈ g2, isIdentC c = true) ∧
      ∃ suf, r = g1 ++ suf := by
  unfold fieldCore at h
  split at h
  · exact absurd h (by simp)
  · rename_i c t
    split at h
    · rename_i hau
      have hacc : ∀ x ∈ ([c] : Str), s2TypeChar x = true := by
        intro x hx
        rw [List.mem_singleton] at hx
        subst hx
        exact ident_s2 (alphaUnd_ident hau)
      obtain ⟨hg, hnm, pre, suf, hts, hgs⟩ := fieldScan_spec t [c] hacc h
      refine ⟨hg, hnm, suf, ?_⟩
      rw [hgs]
      simp [hts]
    · exact absurd h (by simp)

theorem s2FieldMatch_spec {s g1 g2 : Str} (h : s2FieldMatch s = some (g1, g2)) :
    (∀ c ∈ g1, s2TypeChar c = true) ∧ (∀ c ∈ g2, isIdentC c = true) ∧ g1 <:+: s := by
  unfold s2FieldMatch at h
  obtain ⟨hg, hnm, suf, hr⟩ := fieldCore_spec h
  exact ⟨hg, hnm,
    List.infix_iff_prefix_suffix.mpr ⟨s.dropWhile isWsC, ⟨suf, hr.symm⟩,
      List.dropWhile_suffix _⟩⟩

theorem s7FieldMatch_spec {s g1 g2 : Str} (h : s7FieldMatch s = some (g1, g2)) :
    (∀ c ∈ g1, s2TypeChar c = true) ∧ (∀ c ∈ g2, isIdentC c = true) := by
  simp only [s7FieldMatch] at h
  split at h
  · rename_i r heq
    rw [Option.some_inj] at h
    subst h
    split at heq
    · exact ⟨(fieldCore_spec heq).1, (fieldCore_spec heq).2.1⟩
    · exact absurd heq (by simp)
  · split at h
    · rename_i r heq
      rw [Option.some_inj] at h
      subst h
      split at heq
      · exact ⟨(fieldCore_spec heq).1, (fieldCore_spec heq).2.1⟩
      · exact absurd heq (by simp)
    · split at h
      · rename_i r heq
        rw [Option.some_inj] at h
        subst h
        split at heq
        · exact ⟨(fieldCore_spec heq).1, (fieldCore_spec heq).2.1⟩
        · exact absurd heq (by simp)
      · exact ⟨(fieldCore_spec h).1, (fieldCore_spec h).2.1⟩

theorem fieldCoreConst_spec {r g1 g2 : Str} (h : fieldCoreConst r = some (g1, g2)) :
    (∀ c ∈ g1, s2TypeChar c = true) ∧ (∀ c ∈ g2, isIdentC c = true) := by
  unfold fieldCoreConst at h
  split at h
  · rename_i v heq
    rw [Option.some_inj] at h
    subst h
    split at heq
    · split at heq
      · split at heq
        · exact ⟨(fieldCore_spec heq).1, (fieldCore_spec heq).2.1⟩
        · exact absurd heq (by simp)
      · exact absurd heq (by simp)
    · exact absurd heq (by simp)
  · exact ⟨(fieldCore_spec h).1, (fieldCore_spec h).2.1⟩

theorem idFieldMatch_spec {s g1 g2 : Str} (h : idFieldMatch s = some (g1, g2)) :
    (∀ c ∈ g1, s2TypeChar c = true) ∧ (∀ c ∈ g2, isIdentC c = true) := by
  simp only [idFieldMatch] at h
  split at h
  · rename_i r heq
    rw [Option.some_inj] at h
    subst h
    split at heq
    · exact fieldCoreConst_spec heq
    · exact absurd heq (by simp)
  · split at h
    · rename_i r heq
      rw [Option.some_inj] at h
      subst h
      split at heq
      · exact fieldCoreConst_spec heq
      · exact absurd heq (by simp)
    · split at h
      · rename_i r heq
        rw [Option.some_inj] at h
        subst h
        split at heq
        · exact fieldCoreConst_spec heq
        · exact absurd heq (by simp)
      · exact fieldCoreConst_spec h

theorem eafLoop_spec : ∀ ls : Doc, ∀ f ∈ eafLoop ls,
    (∀ c ∈ f.type, s2TypeChar c = true) ∧ (∀ c ∈ f.name, isIdentC c = true) ∧
      ∃ l ∈ ls, f.type <:+: l := by
  intro ls
  induction ls with
  | nil =>
    intro f hf
    exact absurd hf (by simp [eafLoop])
  | cons l rest ih =>
    intro f hf
    simp only [eafLoop] at hf
    split at hf
    · obtain ⟨hg, hnm, l', hl', hin⟩ := ih f hf
      exact ⟨hg, hnm, l', List.mem_cons_of_mem l hl', hin⟩
    · split at hf
      · obtain ⟨hg, hnm, l', hl', hin⟩ := ih f hf
        exact ⟨hg, hnm, l', List.mem_cons_of_mem l hl', hin⟩
      · split at hf
        · obtain ⟨hg, hnm, l', hl', hin⟩ := ih f hf
          exact ⟨hg, hnm, l', List.mem_cons_of_mem l hl', hin⟩
        · split at hf
          · rename_i g1 g2 heq
            split at hf
            · rcases List.mem_cons.mp hf with rfl | hf2
              · obtain ⟨hg, hnm, hinf⟩ := s2FieldMatch_spec heq
                refine ⟨?_, hnm, l, List.mem_cons_self l rest, ?_⟩
                · intro c hc
                  exact hg c ((stripL_isInfix g1).subset hc)
                · exact ((stripL_isInfix g1).trans hinf).trans (stripL_isInfix l)
              · obtain ⟨hg, hnm, l', hl', hin⟩ := ih f hf2
                exact ⟨hg, hnm, l', List.mem_cons_of_mem l hl', hin⟩
            · obtain ⟨hg, hnm, l', hl', hin⟩ := ih f hf
              exact ⟨hg, hnm, l', List.mem_cons_of_mem l hl', hin⟩
          · obtain ⟨hg, hnm, l', hl', hin⟩ := ih f hf
            exact ⟨hg, hnm, l', List.mem_cons_of_mem l hl', hin⟩

theorem extract_all_fields_spec {lines : Doc} {cls : Str} :
    ∀ f ∈ extract_all_fields lines cls,
      (∀ c ∈ f.type, s2TypeChar c = true) ∧ (∀ c ∈ f.name, isIdentC c = true) ∧
        ∃ l ∈ lines, f.type <:+: l := by
  intro f hf
  unfold extract_all_fields at hf
  split at hf
  · exact absurd hf (by simp)
  · obtain ⟨hg, hnm, l', hl', hin⟩ := eafLoop_spec _ f hf
    exact ⟨hg, hnm, l', List.drop_subset _ _ (List.take_subset _ _ hl'), hin⟩

theorem classCapAt_spec {s nm : Str} (h : classCapAt s = some nm) :
    ∀ c ∈ nm, isIdentC c = true := by
  intro c hc
  simp only [classCapAt] at h
  split at h
  · split at h
    · exact absurd h (by simp)
    · split at h
      · split at h
        · exact absurd h (by simp)
        · split at h
          · split at h
            · rw [Option.some_inj] at h
              subst h
              rcases List.mem_cons.mp hc with rfl | hc2
              · exact alphaUnd_ident (by assumption)
              · exact List.mem_takeWhile_imp hc2
            · rw [Option.some_inj] at h
              subst h
              rcases List.mem_cons.mp hc with rfl | hc2
              · exact alphaUnd_ident (by assumption)
              · exact List.mem_takeWhile_imp hc2
            · exact absurd h (by simp)
          · exact absurd h (by simp)
      · exact absurd h (by simp)
  · exact absurd h (by simp)

theorem class_cap_search_spec {s nm : Str} (h : class_cap_search s = some nm) :
    ∀ c ∈ nm, isIdentC c = true := by
  obtain ⟨t, _, hp⟩ := firstPos_some _ s nm h
  exact classCapAt_spec hp

theorem cdLook_ident : ∀ (w : Doc) (i : Nat) {cls : Str} {j : Nat},
    cdLook ("@Entity".data) w i = some (cls, j) → ∀ c ∈ cls, isIdentC c = true := by
  intro w
  induction w with
  | nil =>
    intro i cls j h
    exact absurd h (by simp [cdLook])
  | cons l rest ih =>
    intro i cls j h
    simp only [cdLook] at h
    split at h
    · exact ih (i + 1) h
    · split at h
      · exact ih (i + 1) h
      · split at h
        · rename_i cls' heq
          rw [Option.some_inj] at h
          injection h with h1 h2
          subst h1
          exact class_cap_search_spec heq
        · split at h
          · exact absurd h (by simp)
          · exact ih (i + 1) h

theorem cdScan_ident (all : Doc) : ∀ (rest : Doc) (n : Nat) {cls : Str} {a b : Nat},
    cdScan ("@Entity".data) all rest n = some (cls, a, b) →
    ∀ c ∈ cls, isIdentC c = true := by
  intro rest
  induction rest with
  | nil =>
    intro n cls a b h
    exact absurd h (by simp [cdScan])
  | cons l r ih =>
    intro n cls a b h
    simp only [cdScan] at h
    split at h
    · exact ih (n + 1) h
    · split at h
      · exact ih (n + 1) h
      · split at h
        · exact ih (n + 1) h
        · split at h
          · split at h
            · rename_i cls' i heq
              rw [Option.some_inj] at h
              injection h with h1 h2
              subst h1
              exact cdLook_ident _ n heq
            · exact ih (n + 1) h
          · exact ih (n + 1) h

theorem check_dto_ident {lines : Doc} {cls : Str} {a b : Nat}
    (h : check_dto_annot lines ("@Entity".data) = some (cls, a, b)) :
    ∀ c ∈ cls, isIdentC c = true :=
  cdScan_ident lines lines 1 h

theorem evfLook_spec (vt : VTable) :
    ∀ (w : Doc) (cur : Option Str) (fn : Str) (rs : Bool) {f : VField},
      evfLook vt cur fn rs w = some f →
        f.function_name = fn ∧ (∀ c ∈ f.type, s2TypeChar c = true) ∧
          (∀ c ∈ f.name, isIdentC c = true) := by
  intro w
  induction w with
  | nil =>
    intro cur fn rs f h
    exact absurd h (by simp [evfLook])
  | cons l rest ih =>
    intro cur fn rs f h
    simp only [evfLook] at h
    split at h
    · exact ih cur fn rs h
    · split at h
      · exact ih cur fn rs h
      · split at h
        · exact ih cur fn rs h
        · split at h
          · exact ih cur fn rs h
          · split at h
            · rename_i g1 g2 heq
              obtain ⟨hg, hnm⟩ := s7FieldMatch_spec heq
              split at h
              · split at h
                · split at h
                  · rw [Option.some_inj] at h
                    subst h
                    refine ⟨rfl, ?_, hnm⟩
                    intro c hc
                    exact hg c ((stripL_isInfix g1).subset hc)
                  · exact absurd h (by simp)
                · rw [Option.some_inj] at h
                  subst h
                  refine ⟨rfl, ?_, hnm⟩
                  intro c hc
                  exact hg c ((stripL_isInfix g1).subset hc)
              · exact absurd h (by simp)
            · split at h
              · exact absurd h (by simp)
              · exact ih cur fn rs h

theorem firstMatchingKey_mem {vt : VTable} {s : Str} {m fn : Str}
    (h : firstMatchingKey vt s = some (m, fn)) : (m, fn) ∈ vt := by
  obtain ⟨p, hp, he⟩ := List.exists_of_findSome?_eq_some h
  split at he
  · rw [Option.some_inj] at he
    subst he
    exact hp
  · exact absurd he (by simp)

theorem evfLoop_spec (vt : VTable) : ∀ (ls : Doc) (cur : Option Str) {m : Str} {f : VField},
    (m, f) ∈ evfLoop vt ls cur →
      (∃ fn, (m, fn) ∈ vt ∧ f.function_name = fn) ∧
        (∀ c ∈ f.type, s2TypeChar c = true) ∧ (∀ c ∈ f.name, isIdentC c = true) := by
  intro ls
  induction ls with
  | nil =>
    intro cur m f h
    exact absurd h (by simp [evfLoop])
  | cons l rest ih =>
    intro cur m f h
    simp only [evfLoop] at h
    split at h
    · exact ih cur h
    · split at h
      · exact ih cur h
      · split at h
        · exact ih cur h
        · split at h
          · rename_i kw _
            exact ih (some kw) h
          · split at h
            · split at h
              · rename_i mname fname heq
                split at h
                · rename_i f' hlook
                  rcases List.mem_cons.mp h with he | h2
                  · injection he with he1 he2
                    subst he1
                    subst he2
                    obtain ⟨hfn, htyp, hnm⟩ := evfLook_spec vt _ cur _ _ hlook
                    exact ⟨⟨fname, firstMatchingKey_mem heq, hfn⟩, htyp, hnm⟩
                  · exact ih cur h2
                · exact ih cur h
              · exact ih cur h
            · exact ih cur h

theorem extract_validation_spec {lines : Doc} {cls : Str} {vt : VTable} {vmap : VMap}
    (h : extract_validation_fields (some lines) cls vt = Except.ok vmap)
    (Hvt : ∀ p ∈ vt, (∀ c ∈ p.1, isIdentC c = true) ∧
      (∀ c ∈ p.2, isIdentC c = true ∨ c = ':')) :
    ∀ p ∈ vmap, (∀ c ∈ p.1, isIdentC c = true) ∧
      ∀ g ∈ p.2, (∀ c ∈ g.type, s2TypeChar c = true) ∧ (∀ c ∈ g.name, isIdentC c = true) ∧
        (∀ c ∈ g.function_name, isIdentC c = true ∨ c = ':') := by
  simp only [extract_validation_fields] at h
  split at h
  · exact absurd h (by simp)
  · injection h with h2
    subst h2
    simp
  · split at h
    · injection h with h2
      subst h2
      simp
    · injection h with h2
      subst h2
      intro p hp
      unfold evf_result at hp
      obtain ⟨hp1, _⟩ := List.mem_filter.mp hp
      obtain ⟨q, hq, hpq⟩ := List.mem_map.mp hp1
      subst hpq
      refine ⟨(Hvt q hq).1, ?_⟩
      intro g hg
      obtain ⟨r, hr, hcond⟩ := List.mem_filterMap.mp hg
      split at hcond
      · rw [Option.some_inj] at hcond
        subst hcond
        obtain ⟨⟨fn, hfn, hgfn⟩, htyp, hnm⟩ := evfLoop_spec vt _ none (show (r.1, r.2) ∈ _ from hr)
        refine ⟨htyp, hnm, ?_⟩
        rw [hgfn]
        exact (Hvt (r.1, fn) hfn).2
      · exact absurd hcond (by simp)

theorem idLook_spec (vt : VTable) : ∀ (w : Doc) (acc : List Str) {f : IdField},
    idLook vt w acc = some f →
      (∀ c ∈ f.type, s2TypeChar c = true) ∧ (∀ c ∈ f.name, isIdentC c = true) := by
  intro w
  induction w with
  | nil =>
    intro acc f h
    exact absurd h (by simp [idLook])
  | cons l rest ih =>
    intro acc f h
    simp only [idLook] at h
    split at h
    · exact ih acc h
    · split at h
      · exact ih acc h
      · split at h
        · exact ih acc h
        · split at h
          · split at h
            · rename_i mname _
              exact ih (acc ++ [mname]) h
            · exact ih acc h
          · split at h
            · rename_i g1 g2 heq
              split at h
              · rw [Option.some_inj] at h
                subst h
                obtain ⟨hg, hnm⟩ := idFieldMatch_spec heq
                refine ⟨?_, hnm⟩
                intro c hc
                exact hg c ((stripL_isInfix g1).subset hc)
              · exact absurd h (by simp)
            · split at h
              · exact absurd h (by simp)
              · exact ih acc h

theorem idLoop_spec (vt : VTable) : ∀ (ls : Doc), ∀ f ∈ idLoop vt ls,
    (∀ c ∈ f.type, s2TypeChar c = true) ∧ (∀ c ∈ f.name, isIdentC c = true) := by
  intro ls
  induction ls with
  | nil =>
    intro f hf
    exact absurd hf (by simp [idLoop])
  | cons l rest ih =>
    intro f hf
    simp only [idLoop] at hf
    split at hf
    · exact ih f hf
    · split at hf
      · exact ih f hf
      · split at hf
        · exact ih f hf
        · split at hf
          · exact ih f hf
          · split at hf
            · split at hf
              · rename_i f' hlook
                rcases List.mem_cons.mp hf with rfl | hf2
                · exact idLook_spec vt _ [] hlook
                · exact ih f hf2
              · exact ih f hf
            · exact ih f hf

theorem extract_id_spec {lines : Doc} {cls : Str} {vt : VTable} :
    ∀ f ∈ extract_id_fields lines cls vt,
      (∀ c ∈ f.type, s2TypeChar c = true) ∧ (∀ c ∈ f.name, isIdentC c = true) := by
  intro f hf
  unfold extract_id_fields at hf
  split at hf
  · exact absurd hf (by simp)
  · exact idLoop_spec vt _ f hf

theorem ident_no_slash {n : Str} (h : ∀ c ∈ n, isIdentC c = true) : '/' ∉ n := by
  intro hc
  exact absurd (h '/' hc) (by decide)

theorem ident_no_star {n : Str} (h : ∀ c ∈ n, isIdentC c = true) : '*' ∉ n := by
  intro hc
  exact absurd (h '*' hc) (by decide)

theorem s2chars_no_slash {t : Str} (h : ∀ c ∈ t, s2TypeChar c = true) : '/' ∉ t := by
  intro hc
  exact absurd (h '/' hc) (by decide)

theorem fnchars_no_star {f : Str} (h : ∀ c ∈ f, isIdentC c = true ∨ c = ':') : '*' ∉ f := by
  intro hc
  rcases h '*' hc with h1 | h1
  · exact absurd h1 (by decide)
  · exact absurd h1 (by decide)

theorem qualifiedFn_no_star {f : Str} (hf : '*' ∉ f) : '*' ∉ qualifiedFn f := by
  unfold qualifiedFn
  split
  · exact hf
  · exact not_mem_append (by decide) hf

theorem optGroup_subset {r g : Str} (h : optGroup r = some g) : ∀ c ∈ g, c ∈ r := by
  intro c hc
  simp only [optGroup] at h
  split at h
  · split at h
    · rw [Option.some_inj] at h
      subst h
      exact (List.takeWhile_prefix _).subset (List.take_subset _ _ hc)
    · exact absurd h (by simp)
  · exact absurd h (by simp)

theorem extract_inner_subset (t : Str) : ∀ c ∈ extract_inner_type_from_optional t, c ∈ t := by
  intro c hc
  unfold extract_inner_type_from_optional at hc
  split at hc
  · rename_i g hfp
    obtain ⟨u, hu, hpu⟩ := firstPos_some _ t g hfp
    have hpu2 : (if beginsWith ("std::optional<".data) u = true then optGroup (u.drop 14)
        else if beginsWith ("optional<".data) u = true then optGroup (u.drop 9)
        else none) = some g := hpu
    have hc2 := (stripL_isInfix g).subset hc
    have hg : ∀ x ∈ g, x ∈ u := by
      intro x hx
      by_cases h14 : beginsWith ("std::optional<".data) u = true
      · rw [if_pos h14] at hpu2
        exact List.drop_subset _ _ (optGroup_subset hpu2 x hx)
      · rw [if_neg h14] at hpu2
        by_cases h9 : beginsWith ("optional<".data) u = true
        · rw [if_pos h9] at hpu2
          exact List.drop_subset _ _ (optGroup_subset hpu2 x hx)
        · rw [if_neg h9] at hpu2
          exact absurd hpu2 (by simp)
    exact hu.subset (hg c hc2)
  · exact hc

theorem joinPlus_no_star : ∀ {ms : List Str}, (∀ m ∈ ms, '*' ∉ m) → '*' ∉ joinPlus ms := by
  intro ms
  induction ms with
  | nil =>
    intro _
    simp [joinPlus]
  | cons m r ih =>
    intro h
    cases r with
    | nil =>
      simpa [joinPlus] using h m (List.mem_cons_self m [])
    | cons m2 r2 =>
      intro hc
      rcases List.mem_append.mp (by simpa [joinPlus] using hc) with h1 | h1
      · exact h m (List.mem_cons_self _ _) h1
      · exact ih (fun x hx => h x (List.mem_cons_of_mem _ hx)) h1

theorem descOf_no_star {vmap : VMap} {n : Str} (h : ∀ p ∈ vmap, '*' ∉ p.1) :
    '*' ∉ descOf vmap n := by
  simp only [descOf]
  split
  · decide
  · apply joinPlus_no_star
    intro m hm
    obtain ⟨p, hp, hcond⟩ := List.mem_filterMap.mp hm
    split at hcond
    · rw [Option.some_inj] at hcond
      subst hcond
      exact h p hp
    · exact absurd hcond (by simp)

theorem serFieldBlock_safe {f : FieldD} (hn : '*' ∉ f.name) :
    ∀ l ∈ serFieldBlock f, '*' ∉ l := by
  intro l hl
  simp only [serFieldBlock] at hl
  rcases List.mem_append.mp hl with h12 | h3
  · rcases List.mem_append.mp h12 with h1 | h2
    · simp only [List.mem_cons, List.not_mem_nil, or_false] at h1
      rcases h1 with rfl | rfl
      <;> (first
            | decide
            | (simp only [List.mem_append, not_or]
               repeat' apply And.intro
               all_goals first | exact hn | decide))
    · split at h2
      · simp only [List.mem_cons, List.not_mem_nil, or_false] at h2
        subst h2
        simp only [List.mem_append, not_or]
        repeat' apply And.intro
        all_goals first | exact hn | decide
      · split at h2
        · simp only [List.mem_cons, List.not_mem_nil, or_false] at h2
          subst h2
          simp only [List.mem_append, not_or]
          repeat' apply And.intro
          all_goals first | exact hn | decide
        · simp only [List.mem_cons, List.not_mem_nil, or_false] at h2
          rcases h2 with rfl|rfl|rfl|rfl|rfl|rfl|rfl|rfl|rfl|rfl|rfl|rfl|rfl|rfl|rfl
          <;> (first
                | decide
                | (simp only [List.mem_append, not_or]
                   repeat' apply And.intro
                   all_goals first | exact hn | decide))
  · simp only [List.mem_cons, List.not_mem_nil, or_false] at h3
    rcases h3 with rfl|rfl|rfl
    <;> (first
          | decide
          | (simp only [List.mem_append, not_or]
             repeat' apply And.intro
             all_goals first | exact hn | decide))

theorem serSection_safe {fields : List FieldD} (hf : ∀ f ∈ fields, '*' ∉ f.name) :
    ∀ l ∈ serSection fields, '/' ∉ l ∨ '*' ∉ l := by
  intro l hl
  unfold serSection at hl
  rcases List.mem_append.mp hl with h12 | h3
  · rcases List.mem_append.mp h12 with h1 | h2
    · simp only [List.mem_cons, List.not_mem_nil, or_false] at h1
      rcases h1 with rfl|rfl|rfl|rfl|rfl <;> decide
    · split at h2
      · simp only [List.mem_cons, List.not_mem_nil, or_false] at h2
        subst h2
        decide
      · obtain ⟨f, hfm, hline⟩ := List.mem_flatMap.mp h2
        have hf2 : f ∈ fields := by
          unfold optionalFields at hfm
          exact (List.mem_filter.mp hfm).1
        exact Or.inr (serFieldBlock_safe (hf f hf2) l hline)
  · simp only [List.mem_cons, List.not_mem_nil, or_false] at h3
    rcases h3 with rfl|rfl|rfl|rfl|rfl|rfl|rfl|rfl <;> decide

theorem desPrimLine_no_slash {ind n inner : Str} (hind : '/' ∉ ind) (hn : '/' ∉ n)
    (hi : '/' ∉ inner) : '/' ∉ desPrimLine ind n inner := by
  unfold desPrimLine
  split
  · simp only [List.mem_append, not_or]
    repeat' apply And.intro
    all_goals first | exact hind | exact hn | exact hi | decide
  · split
    · simp only [List.mem_append, not_or]
      repeat' apply And.intro
      all_goals first | exact hind | exact hn | exact hi | decide
    · split
      · simp only [List.mem_append, not_or]
        repeat' apply And.intro
        all_goals first | exact hind | exact hn | exact hi | decide
      · split
        · simp only [List.mem_append, not_or]
          repeat' apply And.intro
          all_goals first | exact hind | exact hn | exact hi | decide
        · split
          · simp only [List.mem_append, not_or]
            repeat' apply And.intro
            all_goals first | exact hind | exact hn | exact hi | decide
          · simp only [List.mem_append, not_or]
            repeat' apply And.intro
            all_goals first | exact hind | exact hn | exact hi | decide

theorem valFieldBlock_safe {m : Str} {f : VField} (hm : '*' ∉ m) (hnS : '/' ∉ f.name)
    (hnT : '*' ∉ f.name) (hfn : '*' ∉ f.function_name) (htS : '/' ∉ stripL f.type) :
    ∀ l ∈ valFieldBlock m f, '/' ∉ l ∨ '*' ∉ l := by
  intro l hl
  simp only [valFieldBlock] at hl
  rcases List.mem_append.mp hl with h1 | h2
  · split at h1
    · rename_i nt heq
      have hnt : '/' ∉ nt := by
        split at heq
        · split at heq
          · rw [Option.some_inj] at heq
            intro hc
            rw [← heq] at hc
            exact htS (extract_inner_subset _ _ hc)
          · exact absurd heq (by simp)
        · exact absurd heq (by simp)
      simp only [List.mem_cons, List.not_mem_nil, or_false] at h1
      rcases h1 with rfl|rfl|rfl|rfl|rfl|rfl|rfl|rfl|rfl|rfl|rfl|rfl|rfl|rfl|rfl|rfl
      <;> (first
            | (left
               first
                | decide
                | (simp only [List.mem_append, not_or]
                   repeat' apply And.intro
                   all_goals first | exact hnS | exact hnt | decide))
            | (right
               first
                | decide
                | (simp only [List.mem_append, not_or]
                   repeat' apply And.intro
                   all_goals first | exact hnT | decide)))
    · simp at h1
  · simp only [List.mem_cons, List.not_mem_nil, or_false] at h2
    rcases h2 with rfl | rfl
    · right
      simp only [List.mem_append, not_or]
      repeat' apply And.intro
      all_goals first | exact hm | exact hnT | decide
    · right
      simp only [List.mem_append, not_or]
      repeat' apply And.intro
      all_goals first | exact qualifiedFn_no_star hfn | exact hnT | decide

theorem valSection_safe {vmap : VMap}
    (Hv : ∀ p ∈ vmap, (∀ c ∈ p.1, isIdentC c = true) ∧
      ∀ g ∈ p.2, (∀ c ∈ g.type, s2TypeChar c = true) ∧ (∀ c ∈ g.name, isIdentC c = true) ∧
        (∀ c ∈ g.function_name, isIdentC c = true ∨ c = ':')) :
    ∀ l ∈ valSection vmap, '/' ∉ l ∨ '*' ∉ l := by
  intro l hl
  unfold valSection at hl
  rcases List.mem_append.mp hl with h12 | h3
  · rcases List.mem_append.mp h12 with h1 | h2
    · simp only [List.mem_cons, List.not_mem_nil, or_false] at h1
      rcases h1 with rfl|rfl|rfl|rfl|rfl|rfl|rfl <;> decide
    · split at h2
      · simp only [List.mem_cons, List.not_mem_nil, or_false] at h2
        subst h2
        decide
      · obtain ⟨p, hp, hline⟩ := List.mem_flatMap.mp h2
        obtain ⟨g, hg, hl2⟩ := List.mem_flatMap.mp hline
        obtain ⟨hkey, hfields⟩ := Hv p hp
        obtain ⟨htyp, hnm, hfn⟩ := hfields g hg
        exact valFieldBlock_safe (ident_no_star hkey) (ident_no_slash hnm)
          (ident_no_star hnm) (fnchars_no_star hfn)
          (fun hc => s2chars_no_slash htyp ((stripL_isInfix _).subset hc)) l hl2
  · simp only [List.mem_cons, List.not_mem_nil, or_false] at h3
    rcases h3 with rfl|rfl|rfl|rfl|rfl <;> decide

theorem desFieldBlock_safe {vmap : VMap} {f : FieldD} (hnS : '/' ∉ f.name)
    (hnT : '*' ∉ f.name) (hdesc : '*' ∉ descOf vmap f.name)
    (hinner : '/' ∉ extract_inner_type_from_optional (stripL f.type)) :
    ∀ l ∈ desFieldBlock vmap f, '/' ∉ l ∨ '*' ∉ l := by
  intro l hl
  simp only [desFieldBlock] at hl
  split at hl
  · rcases List.mem_append.mp hl with h1 | h2
    · simp only [List.mem_cons, List.not_mem_nil, or_false] at h1
      subst h1
      right
      simp only [List.mem_append, not_or]
      repeat' apply And.intro
      all_goals first | exact hdesc | exact hnT | decide
    · split at h2
      · simp only [List.mem_cons, List.not_mem_nil, or_false] at h2
        subst h2
        left
        simp only [List.mem_append, not_or]
        repeat' apply And.intro
        all_goals first | exact hnS | decide
      · split at h2
        · simp only [List.mem_cons, List.not_mem_nil, or_false] at h2
          subst h2
          exact Or.inl (desPrimLine_no_slash (by decide) hnS hinner)
        · simp only [List.mem_cons, List.not_mem_nil, or_false] at h2
          rcases h2 with rfl|rfl|rfl|rfl|rfl|rfl|rfl|rfl|rfl|rfl|rfl
          <;> (first
                | (left
                   first
                    | decide
                    | (simp only [List.mem_append, not_or]
                       repeat' apply And.intro
                       all_goals first | exact hnS | exact hinner | decide))
                | (right
                   first
                    | decide
                    | (simp only [List.mem_append, not_or]
                       repeat' apply And.intro
                       all_goals first | exact hnT | decide)))
  · rcases List.mem_append.mp hl with h12 | h3
    · rcases List.mem_append.mp h12 with h1 | h2
      · simp only [List.mem_cons, List.not_mem_nil, or_false] at h1
        rcases h1 with rfl | rfl
        <;> (right
             simp only [List.mem_append, not_or]
             repeat' apply And.intro
             all_goals first | exact hnT | decide)
      · split at h2
        · simp only [List.mem_cons, List.not_mem_nil, or_false] at h2
          subst h2
          left
          simp only [List.mem_append, not_or]
          repeat' apply And.intro
          all_goals first | exact hnS | decide
        · split at h2
          · simp only [List.mem_cons, List.not_mem_nil, or_false] at h2
            subst h2
            exact Or.inl (desPrimLine_no_slash (by decide) hnS hinner)
          · simp only [List.mem_cons, List.not_mem_nil, or_false] at h2
            rcases h2 with rfl|rfl|rfl|rfl|rfl|rfl|rfl|rfl|rfl|rfl|rfl
            <;> (first
                  | (left
                     first
                      | decide
                      | (simp only [List.mem_append, not_or]
                         repeat' apply And.intro
                         all_goals first | exact hnS | exact hinner | decide))
                  | (right
                     first
                      | decide
                      | (simp only [List.mem_append, not_or]
                         repeat' apply And.intro
                         all_goals first | exact hnT | decide)))
    · simp only [List.mem_cons, List.not_mem_nil, or_false] at h3
      subst h3
      decide

theorem desSection_safe {cls : Str} {fields : List FieldD} {vmap : VMap}
    (hcls : '*' ∉ cls)
    (Hf : ∀ f ∈ fields, (∀ c ∈ f.type, s2TypeChar c = true) ∧ (∀ c ∈ f.name, isIdentC c = true))
    (hkeys : ∀ p ∈ vmap, '*' ∉ p.1) :
    ∀ l ∈ desSection cls fields vmap, '/' ∉ l ∨ '*' ∉ l := by
  intro l hl
  unfold desSection at hl
  rcases List.mem_append.mp hl with h12 | h3
  · rcases List.mem_append.mp h12 with h1 | h2
    · simp only [List.mem_cons, List.not_mem_nil, or_false] at h1
      rcases h1 with rfl|rfl|rfl|rfl|rfl|rfl|rfl|rfl|rfl|rfl|rfl|rfl|rfl|rfl|rfl|rfl|rfl|rfl|rfl|rfl|rfl|rfl|rfl|rfl
      <;> (first
            | decide
            | (right
               simp only [List.mem_append, not_or]
               repeat' apply And.intro
               all_goals first | exact hcls | decide))
    · split at h2
      · simp only [List.mem_cons, List.not_mem_nil, or_false] at h2
        subst h2
        decide
      · obtain ⟨f, hfm, hline⟩ := List.mem_flatMap.mp h2
        have hf2 : f ∈ fields := by
          unfold optionalFields at hfm
          exact (List.mem_filter.mp hfm).1
        obtain ⟨htyp, hnm⟩ := Hf f hf2
        refine desFieldBlock_safe (ident_no_slash hnm) (ident_no_star hnm)
          (descOf_no_star hkeys) ?_ l hline
        intro hc
        exact s2chars_no_slash htyp
          ((stripL_isInfix _).subset (extract_inner_subset _ _ hc))
  · simp only [List.mem_cons, List.not_mem_nil, or_false] at h3
    rcases h3 with rfl|rfl|rfl|rfl <;> decide

theorem pk_safe {cls : Str} {idf : List IdField} (hcls : '*' ∉ cls)
    (Hi : ∀ f ∈ idf, (∀ c ∈ f.type, s2TypeChar c = true) ∧ (∀ c ∈ f.name, isIdentC c = true)) :
    ∀ l ∈ generate_primary_key_methods cls idf, '/' ∉ l ∨ '*' ∉ l := by
  intro l hl
  unfold generate_primary_key_methods at hl
  rcases List.mem_append.mp hl with h1 | h2
  · cases idf with
    | nil =>
      simp only [List.mem_cons, List.not_mem_nil, or_false] at h1
      rcases h1 with rfl|rfl|rfl|rfl|rfl|rfl|rfl <;> decide
    | cons f r =>
      obtain ⟨htyp, hnm⟩ := Hi f (List.mem_cons_self f r)
      have hfS := s2chars_no_slash htyp
      have hnT := ident_no_star hnm
      simp only [List.mem_cons, List.not_mem_nil, or_false] at h1
      rcases h1 with rfl|rfl|rfl|rfl|rfl|rfl|rfl
      <;> (first
            | decide
            | (left
               simp only [List.mem_append, not_or]
               repeat' apply And.intro
               all_goals first | exact hfS | decide)
            | (right
               simp only [List.mem_append, not_or]
               repeat' apply And.intro
               all_goals first | exact hnT | decide))
  · simp only [List.mem_cons, List.not_mem_nil, or_false] at h2
    rcases h2 with rfl|rfl|rfl|rfl
    <;> (first
          | decide
          | (right
             simp only [List.mem_append, not_or]
             repeat' apply And.intro
             all_goals first | exact hcls | decide))

/-- Every generated line is free of `/` or free of `*`, so no generated line
can contain a `/*` marker (given well-formed inputs). -/
theorem gen_safe {cls : Str} {fields : List FieldD} {vmap : VMap} {idf : List IdField}
    (Hcls : ∀ c ∈ cls, isIdentC c = true)
    (Hf : ∀ f ∈ fields, (∀ c ∈ f.type, s2TypeChar c = true) ∧ (∀ c ∈ f.name, isIdentC c = true))
    (Hv : ∀ p ∈ vmap, (∀ c ∈ p.1, isIdentC c = true) ∧
      ∀ g ∈ p.2, (∀ c ∈ g.type, s2TypeChar c = true) ∧ (∀ c ∈ g.name, isIdentC c = true) ∧
        (∀ c ∈ g.function_name, isIdentC c = true ∨ c = ':'))
    (Hi : ∀ f ∈ idf, (∀ c ∈ f.type, s2TypeChar c = true) ∧ (∀ c ∈ f.name, isIdentC c = true)) :
    ∀ l ∈ generate_serialization_methods cls fields vmap idf, '/' ∉ l ∨ '*' ∉ l := by
  intro l hl
  unfold generate_serialization_methods at hl
  rcases List.mem_append.mp hl with h4 | hpk
  · rcases List.mem_append.mp h4 with h3 | hhdr
    · rcases List.mem_append.mp h3 with h2 | hdes
      · rcases List.mem_append.mp h2 with hser | hval
        · exact serSection_safe (fun f hf => ident_no_star (Hf f hf).2) l hser
        · exact valSection_safe Hv l hval
      · exact desSection_safe (ident_no_star Hcls) Hf
          (fun p hp => ident_no_star (Hv p hp).1) l hdes
    · simp only [List.mem_cons, List.not_mem_nil, or_false] at hhdr
      subst hhdr
      decide
  · exact pk_safe (ident_no_star Hcls) Hi l hpk

theorem take_length_takeWhile (p : Char → Bool) (l : Str) :
    l.take (l.takeWhile p).length = l.takeWhile p := by
  obtain ⟨t, ht⟩ := List.takeWhile_prefix p (l := l)
  nth_rewrite 2 [← ht]
  exact List.take_left _ _

theorem injIndent_ws (lines : Doc) (k : Nat) : ∀ c ∈ injIndent lines k, isWsC c = true := by
  intro c hc
  simp only [injIndent] at hc
  split at hc
  · split at hc
    · rw [show leadingWsLen ((lines[k - 1]?).getD []) =
          ((((lines[k - 1]?).getD [])).takeWhile isWsC).length from rfl,
        take_length_takeWhile] at hc
      exact List.mem_takeWhile_imp hc
    · simp only [List.mem_cons, List.not_mem_nil, or_false] at hc
      rcases hc with rfl|rfl|rfl|rfl <;> decide
  · simp only [List.mem_cons, List.not_mem_nil, or_false] at hc
    rcases hc with rfl|rfl|rfl|rfl <;> decide

/-- Every line of a successful injection output is an original line, a blank
line, or a whitespace indent followed by a generated line. -/
theorem inject_mem {lines : Doc} {cls : Str} {mlines : List Str} {out : Doc}
    (h : inject_methods_into_class lines cls mlines = some out) :
    ∀ l ∈ out, l ∈ lines ∨ l = [] ∨ ∃ ml ∈ mlines, ∃ ind : Str,
      (∀ c ∈ ind, isWsC c = true) ∧ l = ind ++ ml := by
  intro l hl
  simp only [inject_methods_into_class] at h
  split at h
  · exact absurd h (by simp)
  · rename_i s e heq
    split at h
    · rw [Option.some_inj] at h
      subst h
      exact Or.inl hl
    · rw [Option.some_inj] at h
      subst h
      rcases List.mem_append.mp hl with h12 | hdrop
      · rcases List.mem_append.mp h12 with htake | hmid
        · exact Or.inl (List.take_subset _ _ htake)
        · rcases List.mem_cons.mp hmid with rfl | hind
          · exact Or.inr (Or.inl rfl)
          · obtain ⟨ml, hml, hlm⟩ := List.mem_map.mp hind
            have hlm2 : (if ¬(stripL ml).isEmpty = true then
                injIndent lines (injInsertIdx lines s e) ++ ml else []) = l := hlm
            split at hlm2
            · exact Or.inr (Or.inr ⟨ml, hml, injIndent lines (injInsertIdx lines s e),
                injIndent_ws _ _, hlm2.symm⟩)
            · exact Or.inr (Or.inl hlm2.symm)
      · exact Or.inl (List.drop_subset _ _ hdrop)

theorem opt_isInfix {t : Str} (h : is_optional_type t = true) :
    ("optional".data) <:+: stripL t := by
  unfold is_optional_type at h
  rw [Bool.or_eq_true] at h
  rcases h with h | h
  · exact (show ("optional".data) <:+: ("optional<".data) from
      ⟨[], ['<'], by decide⟩).trans ((occursIn_iff _ _).mp h)
  · exact (show ("optional".data) <:+: ("std::optional<".data) from
      ⟨("std::".data), ['<'], by decide⟩).trans ((occursIn_iff _ _).mp h)

/-- When the extracted fields contain an optional-typed field, the `<optional>`
include is already present in the file (the field's type text occurs on some
line), so the include step is a no-op. -/
theorem include_noop {lines : Doc} {cls : Str}
    (hne : (optionalFields (extract_all_fields lines cls)).isEmpty = false) :
    add_include_if_needed lines ("<optional>".data) = lines := by
  obtain ⟨f, hf⟩ : ∃ f, f ∈ optionalFields (extract_all_fields lines cls) := by
    cases hof : optionalFields (extract_all_fields lines cls) with
    | nil =>
      rw [hof] at hne
      exact absurd hne (by simp)
    | cons f r =>
      exact ⟨f, List.mem_cons_self f r⟩
  rw [optionalFields] at hf
  obtain ⟨hmem, hopt⟩ := List.mem_filter.mp hf
  obtain ⟨_, _, l, hl, hinf⟩ := extract_all_fields_spec f hmem
  have hoptin : ("optional".data) <:+: l :=
    (((opt_isInfix hopt).trans (stripL_isInfix (stripL f.type))).trans
      (stripL_isInfix f.type)).trans hinf
  have hocc : occursIn ("optional".data) l = true := (occursIn_iff _ l).mpr hoptin
  have hchk : check_include_exists lines ("optional".data) = true := by
    unfold check_include_exists
    rw [List.any_eq_true]
    exact ⟨l, hl, by simp [hocc]⟩
  have hchk2 : check_include_exists lines
      (("<optional>".data).filter fun c => ¬(c = '<' ∨ c = '>' ∨ c = '"')) = true := by
    rw [show (("<optional>".data).filter fun c => ¬(c = '<' ∨ c = '>' ∨ c = '"')) =
        ("optional".data) from by decide]
    exact hchk
  simp only [add_include_if_needed]
  rw [if_pos hchk2]

/-- A file with one exact `@Entity` marker line and one marker embedded in a
code line (`int y; /* @Entity */`). -/
def c1File : Doc :=
  [("/* @Entity */".data),
   ("class A \x7b".data),
   ("public:".data),
   ("\x7d;".data),
   ("int y; /* @Entity */".data),
   ("class B \x7b".data),
   ("\x7d;".data)]

/-- A minimal well-formed annotated file (every marker on an exact line of
its own). -/
def c1WFile : Doc := [("/* @Entity */".data), ("class A \x7b".data), ("\x7d;".data)]

set_option maxRecDepth 100000 in
/-- C1 counterexample: the pipeline is NOT idempotent on every annotated
file.  On `c1File` the annotation of class `A` is detected (so the file is in
the claim's domain), but the second marker sits on a code line
`int y; /* @Entity */`: the mutator only rewrites exact marker lines, the
surviving marker is re-detected on the second run and a second copy of the
methods is injected, so the second run changes the file again. -/
theorem c1_counterexample :
    check_dto_annot c1File ("@Entity".data) = some (("A".data), 1, 2) ∧
    pipeline [] (pipeline [] c1File) ≠ pipeline [] c1File := by
  constructor
  · decide
  · decide

/-- C1 (amended): the per-file pipeline IS idempotent on every file whose
`@Entity` markers all stand on exact marker lines of their own (the stripped
line is exactly `/* @Entity */`, the form the marker mutator rewrites), for a
validation table mapping macro identifiers to C++ function names.  After one
run every marker line has been rewritten to the processed form, the blank and
generated lines contain no `/*` at all, and every other line is an original
line without a marker, so the second run's detection finds nothing and
returns the file unchanged. -/
theorem c1_pipeline_idempotent_amended (vt : VTable) (lines : Doc)
    (Hex : ∀ l ∈ lines, annot_search ("@Entity".data) (stripL l) = true →
      parseExactAnnotLine ("@Entity".data) (stripL l) = true)
    (Hvt : ∀ p ∈ vt, (∀ c ∈ p.1, isIdentC c = true) ∧
      (∀ c ∈ p.2, isIdentC c = true ∨ c = ':')) :
    pipeline vt (pipeline vt lines) = pipeline vt lines := by
  cases hc : check_dto_annot lines ("@Entity".data) with
  | none =>
    have h1 : pipeline vt lines = lines := by
      simp [pipeline, hc]
    rw [h1]
    exact h1
  | some res =>
    obtain ⟨cls, dl, cl⟩ := res
    have Hcls := check_dto_ident hc
    have hfields : ∀ f ∈ extract_all_fields lines cls,
        (∀ c ∈ f.type, s2TypeChar c = true) ∧ (∀ c ∈ f.name, isIdentC c = true) :=
      fun f hf => ⟨(extract_all_fields_spec f hf).1, (extract_all_fields_spec f hf).2.1⟩
    have Hv : ∀ p ∈ (match extract_validation_fields (some lines) cls vt with
        | Except.ok m => m
        | Except.error _ => []),
        (∀ c ∈ p.1, isIdentC c = true) ∧
          ∀ g ∈ p.2, (∀ c ∈ g.type, s2TypeChar c = true) ∧
            (∀ c ∈ g.name, isIdentC c = true) ∧
            (∀ c ∈ g.function_name, isIdentC c = true ∨ c = ':') := by
      cases hev : extract_validation_fields (some lines) cls vt with
      | ok m =>
        intro p hp
        exact extract_validation_spec hev Hvt p hp
      | error e =>
        intro p hp
        have hp2 : p ∈ ([] : VMap) := hp
        exact absurd hp2 (by simp)
    have Hi : ∀ f ∈ extract_id_fields lines cls vt,
        (∀ c ∈ f.type, s2TypeChar c = true) ∧ (∀ c ∈ f.name, isIdentC c = true) :=
      fun f hf => extract_id_spec f hf
    have hsafe := gen_safe Hcls hfields Hv Hi
    have hinc : (if ¬(optionalFields (extract_all_fields lines cls)).isEmpty = true then
        add_include_if_needed lines ("<optional>".data) else lines) = lines := by
      split
      · rename_i hne
        exact include_noop ((Bool.not_eq_true _) ▸ hne)
      · rfl
    have hrun : pipeline vt lines =
        (match inject_methods_into_class lines cls
            (generate_serialization_methods cls (extract_all_fields lines cls)
              (match extract_validation_fields (some lines) cls vt with
               | Except.ok m => m
               | Except.error _ => []) (extract_id_fields lines cls vt)) with
         | none => lines
         | some lines2 => mark_dto_annot_processed lines2 ("@Entity".data)) := by
      simp only [pipeline, hc]
      rw [hinc]
    cases hinj : inject_methods_into_class lines cls
        (generate_serialization_methods cls (extract_all_fields lines cls)
          (match extract_validation_fields (some lines) cls vt with
           | Except.ok m => m
           | Except.error _ => []) (extract_id_fields lines cls vt)) with
    | none =>
      have h1 : pipeline vt lines = lines := by
        rw [hrun, hinj]
      rw [h1]
      exact h1
    | some lines2 =>
      have hout : pipeline vt lines = mark_dto_annot_processed lines2 ("@Entity".data) := by
        rw [hrun, hinj]
      have hmem2 := inject_mem hinj
      have hnone : check_dto_annot (mark_dto_annot_processed lines2 ("@Entity".data))
          ("@Entity".data) = none := by
        apply check_none_of_all
        intro l' hl'
        rw [mark_dto_annot_processed_eq_map] at hl'
        obtain ⟨l, hl, rfl⟩ := List.mem_map.mp hl'
        rcases hmem2 l hl with hin | hbl | ⟨ml, hml, ind, hind, rfl⟩
        · exact markLine_annot_free l (Hex l hin)
        · subst hbl
          decide
        · have hsafel : '/' ∉ ind ++ ml ∨ '*' ∉ ind ++ ml := by
            rcases hsafe ml hml with hx | hx
            · exact Or.inl (not_mem_append
                (fun hcm => absurd (hind '/' hcm) (by decide)) hx)
            · exact Or.inr (not_mem_append
                (fun hcm => absurd (hind '*' hcm) (by decide)) hx)
          exact (markLine_safe_line _ hsafel).2
      calc pipeline vt (pipeline vt lines)
          = pipeline vt (mark_dto_annot_processed lines2 ("@Entity".data)) := by rw [hout]
        _ = mark_dto_annot_processed lines2 ("@Entity".data) := by simp [pipeline, hnone]
        _ = pipeline vt lines := hout.symm

/-- C1 witness: the amended idempotence theorem applied to a concrete
well-formed annotated file. -/
theorem c1_pipeline_idempotent_amended_witness :
    (∀ l ∈ c1WFile, annot_search ("@Entity".data) (stripL l) = true →
      parseExactAnnotLine ("@Entity".data) (stripL l) = true) ∧
    (∀ p ∈ ([] : VTable), (∀ c ∈ p.1, isIdentC c = true) ∧
      (∀ c ∈ p.2, isIdentC c = true ∨ c = ':')) ∧
    pipeline [] (pipeline [] c1WFile) = pipeline [] c1WFile :=
  ⟨by decide, by decide,
    c1_pipeline_idempotent_amended [] c1WFile (by decide) (by decide)⟩
